import Mathlib

/-
Verification of the core Scheme interpreter in `lisp_interpreter.py`.

The Python program is shallowly embedded: Python runtime objects (which double
as parsed expression trees — ints, strings, lists — and as runtime values —
pairs, closures, builtins) become the single inductive type `PyVal`; the
mutable `Frame` objects become indices into an explicit frame store (`State`);
Python exceptions — the three Scheme error classes plus host-level errors such
as `IndexError` and `AttributeError` — become the error type `Err`; the
unbounded recursion of `evaluate` is modelled with a fuel parameter.
Python floats are modelled as exact rationals (no claim under verification
depends on rounding).
-/

/-- Errors a call into the interpreter can surface: the three Scheme error
classes of the source, the host-level Python exceptions that can escape
(`IndexError`, `AttributeError`, `TypeError`, `ZeroDivisionError`), and
`fuel`, the artifact of bounding the source's unbounded recursion. -/
inductive Err
  | schemeSyntaxError
  | schemeNameError
  | schemeEvaluationError
  | hostIndexError
  | hostAttributeError
  | hostTypeError
  | hostZeroDivisionError
  | fuel
deriving DecidableEq, Repr

/-- The builtin procedures of `scheme_builtins` (the callable entries). -/
inductive BOp
  | add | sub | mul | div | eqB | gt | ge | lt | le | notB
  | carB | cdrB | listQ | consB | lenB | listRefB | appendB
deriving DecidableEq, Repr

/-- Python runtime objects of the interpreter: numbers (ints, floats as exact
rationals, bools), strings (symbols), Python lists (both compound expression
trees and the empty-list value `[]`), `Pair` cells, `Function` closures
(parameters, body, index of the enclosing frame) and builtin procedures. -/
inductive PyVal
  | int (n : Int)
  | float (q : Rat)
  | bool (b : Bool)
  | str (s : String)
  | list (xs : List PyVal)
  | pair (car cdr : PyVal)
  | closure (params body : PyVal) (frameId : Nat)
  | builtin (op : BOp)

/-- A `Frame` object: parent reference (index into the store) and the
`variables` dict. Python dict keys here are strings in every reachable
state; dict entries are kept unique by construction. -/
structure PyFrame where
  parent : Option Nat
  vars : List (String × PyVal)

/-- The heap of `Frame` objects; a frame reference is an index. -/
abbrev State := List PyFrame

/-- Dict lookup (`variables[k]` / `k in variables`). -/
def dictLookup : List (String × PyVal) → String → Option PyVal
  | [], _ => none
  | (k', v') :: rest, k => if k' = k then some v' else dictLookup rest k

/-- Dict membership test. -/
def dictContains (d : List (String × PyVal)) (k : String) : Bool :=
  (dictLookup d k).isSome

/-- Dict store `d[k] = v`: overwrite in place if present, else append. -/
def dictSet : List (String × PyVal) → String → PyVal → List (String × PyVal)
  | [], k, v => [(k, v)]
  | (k', v') :: rest, k, v =>
    if k' = k then (k, v) :: rest else (k', v') :: dictSet rest k v

/-- Dict deletion `del d[k]` (keys are unique, so removing the first
occurrence matches Python). -/
def dictRemove : List (String × PyVal) → String → List (String × PyVal)
  | [], _ => []
  | (k', v') :: rest, k => if k' = k then rest else (k', v') :: dictRemove rest k

/-- Python dict store with an arbitrary object as key. Non-string keys can
only enter a `variables` dict through `create_variable_dict` or a `let`
binding head; they are invisible to every string lookup the interpreter
performs, so they are modelled as absent. -/
def dictSetPy (d : List (String × PyVal)) (k : PyVal) (v : PyVal) :
    List (String × PyVal) :=
  match k with
  | .str s => dictSet d s v
  | _ => d

/-- Python truthiness (`if x:` / `if not x:`). -/
def pyTruthy : PyVal → Bool
  | .int n => n != 0
  | .float q => q != 0
  | .bool b => b
  | .str s => s != ""
  | .list xs => !xs.isEmpty
  | .pair _ _ => true
  | .closure _ _ _ => true
  | .builtin _ => true

/-- Numeric view of a Python object (`int`, `bool` — a subclass of `int` —
or `float`). -/
def asNum : PyVal → Option Rat
  | .int n => some n
  | .bool b => some (if b then 1 else 0)
  | .float q => some q
  | _ => none

/-- Integer view: Python `isinstance(x, int)` is true for ints and bools. -/
def asIntLike : PyVal → Option Int
  | .int n => some n
  | .bool b => some (if b then 1 else 0)
  | _ => none

/-- Python `isinstance(x, int)`. -/
def isInstInt (v : PyVal) : Bool := (asIntLike v).isSome

mutual
/-- Python `==`. Numbers compare by value across `int`/`bool`/`float`;
strings and lists compare structurally; `Pair`, `Function` and builtin
objects compare by identity, which two independently constructed objects
never share, modelled as `false`. -/
def pyEq : PyVal → PyVal → Bool
  | .list xs, .list ys => pyEqList xs ys
  | .str a, .str b => a = b
  | a, b =>
    match asNum a, asNum b with
    | some x, some y => x = y
    | _, _ => false

/-- Elementwise Python `==` on lists. -/
def pyEqList : List PyVal → List PyVal → Bool
  | [], [] => true
  | x :: xs, y :: ys => pyEq x y && pyEqList xs ys
  | _, _ => false
end

/-- Python `tree == "kw"` for a string literal `kw`. -/
def pyEqStr (v : PyVal) (s : String) : Bool :=
  match v with
  | .str t => t = s
  | _ => false

/-- Python `len(x)` for the objects the interpreter measures (lists and
strings have a length; anything else raises `TypeError`). -/
def pyLen : PyVal → Except Err Nat
  | .list xs => .ok xs.length
  | .str s => .ok s.length
  | _ => .error .hostTypeError

/-- Python iteration `for x in v` (lists yield elements, strings yield
one-character strings, anything else raises `TypeError`). -/
def pyIter : PyVal → Except Err (List PyVal)
  | .list xs => .ok xs
  | .str s => .ok (s.toList.map (fun c => .str (String.mk [c])))
  | _ => .error .hostTypeError

/-- Python subscript `v[i]` for a nonnegative index. -/
def pyIndex : PyVal → Nat → Except Err PyVal
  | .list xs, i =>
    match xs.get? i with
    | some v => .ok v
    | none => .error .hostIndexError
  | .str s, i =>
    match s.toList.get? i with
    | some c => .ok (.str (String.mk [c]))
    | none => .error .hostIndexError
  | _, _ => .error .hostTypeError

/-- Embeds `variable_viability`: the name must be a string containing no
parenthesis and no space, else `SchemeSyntaxError`. -/
def variableViability : PyVal → Except Err Unit
  | .str s =>
    if !s.toList.contains '(' && !s.toList.contains ')' && !s.toList.contains ' ' then
      .ok ()
    else .error .schemeSyntaxError
  | _ => .error .schemeSyntaxError

/-- Embeds `Frame.__getitem__`: look the key up in this frame's own dict,
else recurse into the parent; `parent[...]` on `None` raises `TypeError`,
caught and re-raised as `SchemeNameError`. Keys that are not strings are
never present in the string-keyed dicts, so the walk ends in
`SchemeNameError` for them exactly as in Python. The fuel argument bounds
the parent walk; `length σ + 1` suffices for every state the interpreter
builds, since each frame's parent index is smaller than its own. -/
def frameLookup : Nat → State → Option Nat → PyVal → Except Err PyVal
  | _, _, none, _ => .error .schemeNameError
  | 0, _, some _, _ => .error .fuel
  | g + 1, σ, some fid, key =>
    match σ.get? fid with
    | none => .error .hostIndexError
    | some fr =>
      match (match key with | .str s => dictLookup fr.vars s | _ => none) with
      | some v => .ok v
      | none => frameLookup g σ fr.parent key

/-- Embeds `Frame.__setitem__`: check `variable_viability`, then store into
this frame's own dict. -/
def frameSetItem (σ : State) (fid : Nat) (key : PyVal) (v : PyVal) :
    Except Err State := do
  variableViability key
  match σ.get? fid with
  | none => .error .hostIndexError
  | some fr =>
    match key with
    | .str s => .ok (σ.set fid ⟨fr.parent, dictSet fr.vars s v⟩)
    | _ => .error .schemeSyntaxError

/-- Embeds `evaluate_set`: if the name is in this frame's own dict,
overwrite it there; else recurse into the parent; at the root (no parent),
raise `SchemeNameError`. A non-string name is in no string-keyed dict, so
it walks straight to the root. -/
def evaluateSet : Nat → PyVal → PyVal → Nat → State → Except Err State
  | 0, _, _, _, _ => .error .fuel
  | g + 1, var, exp, fid, σ =>
    match σ.get? fid with
    | none => .error .hostIndexError
    | some fr =>
      match var with
      | .str s =>
        if dictContains fr.vars s then
          .ok (σ.set fid ⟨fr.parent, dictSet fr.vars s exp⟩)
        else
          match fr.parent with
          | some p => evaluateSet g var exp p σ
          | none => .error .schemeNameError
      | _ =>
        match fr.parent with
        | some p => evaluateSet g var exp p σ
        | none => .error .schemeNameError

/-- Embeds `delete_variables`: exactly one operand; if the name is in the
current frame's own dict, remove it and return its value, else
`SchemeNameError`. -/
def deleteVariables (rest : List PyVal) (fid : Nat) (σ : State) :
    Except Err (PyVal × State) :=
  if rest.length ≠ 1 then .error .schemeEvaluationError
  else
    match rest with
    | [k] =>
      match σ.get? fid with
      | none => .error .hostIndexError
      | some fr =>
        match k with
        | .str s =>
          match dictLookup fr.vars s with
          | some v => .ok (v, σ.set fid ⟨fr.parent, dictRemove fr.vars s⟩)
          | none => .error .schemeNameError
        | _ => .error .schemeNameError
    | _ => .error .schemeEvaluationError

/-- Python `+` on two objects: ints (and bools, which are ints) give an
int, any float operand gives a float, anything non-numeric raises
`TypeError`. String/list concatenation does not occur in the interpreter's
arithmetic builtins. -/
def pyAdd (a b : PyVal) : Except Err PyVal :=
  match asIntLike a, asIntLike b with
  | some x, some y => .ok (.int (x + y))
  | _, _ =>
    match asNum a, asNum b with
    | some x, some y => .ok (.float (x + y))
    | _, _ => .error .hostTypeError

/-- Python binary `-`. -/
def pySub (a b : PyVal) : Except Err PyVal :=
  match asIntLike a, asIntLike b with
  | some x, some y => .ok (.int (x - y))
  | _, _ =>
    match asNum a, asNum b with
    | some x, some y => .ok (.float (x - y))
    | _, _ => .error .hostTypeError

/-- Python binary `*`. -/
def pyMul (a b : PyVal) : Except Err PyVal :=
  match asIntLike a, asIntLike b with
  | some x, some y => .ok (.int (x * y))
  | _, _ =>
    match asNum a, asNum b with
    | some x, some y => .ok (.float (x * y))
    | _, _ => .error .hostTypeError

/-- Python unary `-`. -/
def pyNeg (a : PyVal) : Except Err PyVal :=
  match asIntLike a with
  | some x => .ok (.int (-x))
  | none =>
    match asNum a with
    | some x => .ok (.float (-x))
    | none => .error .hostTypeError

/-- Python `/`: true division, always a float; division by zero raises
`ZeroDivisionError`. -/
def pyDiv (a b : PyVal) : Except Err PyVal :=
  match asNum a, asNum b with
  | some x, some y =>
    if y = 0 then .error .hostZeroDivisionError else .ok (.float (x / y))
  | _, _ => .error .hostTypeError

/-- Python numeric `<=` as used by the chained comparisons (the verified
claims compare only numbers; Python additionally orders strings and
sequences, which no builtin call in the claims exercises). -/
def pyLe (a b : PyVal) : Except Err Bool :=
  match asNum a, asNum b with
  | some x, some y => .ok (x ≤ y)
  | _, _ =>
    match a, b with
    | .str s, .str t => .ok (s ≤ t)
    | _, _ => .error .hostTypeError

/-- Python numeric `<`. -/
def pyLt (a b : PyVal) : Except Err Bool :=
  match asNum a, asNum b with
  | some x, some y => .ok (x < y)
  | _, _ =>
    match a, b with
    | .str s, .str t => .ok (s < t)
    | _, _ => .error .hostTypeError

/-- Python numeric `>=`. -/
def pyGe (a b : PyVal) : Except Err Bool := pyLe b a

/-- Python numeric `>`. -/
def pyGt (a b : PyVal) : Except Err Bool := pyLt b a

/-- Embeds the builtin `+`, Python's `sum`: left fold of `+` starting from
the int `0`; `sum([])` is `0`. -/
def pySum (args : List PyVal) : Except Err PyVal :=
  args.foldlM pyAdd (.int 0)

/-- Embeds the builtin `-`: `-args[0]` when there is exactly one argument,
else `args[0] - sum(args[1:])`; indexing `args[0]` on an empty sequence
raises the host `IndexError`. -/
def subtract (args : List PyVal) : Except Err PyVal :=
  if args.length = 1 then
    match args with
    | [a] => pyNeg a
    | _ => .error .hostIndexError
  else
    match args with
    | [] => .error .hostIndexError
    | a :: rest => do
      let s ← pySum rest
      pySub a s

/-- Embeds `multiply`: `num[0]` (host `IndexError` on an empty sequence)
then a left fold of `*`. -/
def multiply (args : List PyVal) : Except Err PyVal :=
  match args with
  | [] => .error .hostIndexError
  | a :: rest => rest.foldlM pyMul a

/-- Embeds `divide`: empty argument sequence raises
`SchemeEvaluationError`; one argument gives `1 / num[0]`; otherwise a left
fold of `/`. -/
def divide (args : List PyVal) : Except Err PyVal :=
  match args with
  | [] => .error .schemeEvaluationError
  | [a] => pyDiv (.int 1) a
  | a :: rest => rest.foldlM pyDiv a

/-- Embeds `equal`: every later element must equal `num[0]` under Python
`==`; trivially true for fewer than two arguments. -/
def equal (args : List PyVal) : Except Err PyVal :=
  match args with
  | [] => .ok (.bool true)
  | a :: rest => .ok (.bool (rest.all (pyEq a)))

/-- Chained comparison driver for `greater`/`greater_equal`/`less`/
`less_equal`: `viol a b` is the adjacent-pair test that refutes the
relation; the loop returns `False` at the first violation. -/
def chainRel (viol : PyVal → PyVal → Except Err Bool) :
    List PyVal → Except Err PyVal
  | a :: b :: rest => do
    let v ← viol a b
    if v then .ok (.bool false) else chainRel viol (b :: rest)
  | _ => .ok (.bool true)

/-- Embeds `greater` (violated when `val <= next`). -/
def greater (args : List PyVal) : Except Err PyVal := chainRel pyLe args

/-- Embeds `greater_equal` (violated when `val < next`). -/
def greaterEqual (args : List PyVal) : Except Err PyVal := chainRel pyLt args

/-- Embeds `less` (violated when `val >= next`). -/
def less (args : List PyVal) : Except Err PyVal := chainRel pyGe args

/-- Embeds `less_equal` (violated when `val > next`). -/
def lessEqual (args : List PyVal) : Except Err PyVal := chainRel pyGt args

/-- Embeds `negate` (the builtin `not`): exactly one operand, else
`SchemeEvaluationError`; returns the negated truthiness. -/
def negate (args : List PyVal) : Except Err PyVal :=
  if args.length ≠ 1 then .error .schemeEvaluationError
  else
    match args with
    | [a] => .ok (.bool (!pyTruthy a))
    | _ => .error .schemeEvaluationError

/-- Embeds `create_con` (the builtin `cons`): exactly two operands, else
`SchemeEvaluationError`; returns a fresh `Pair`. -/
def createCon (args : List PyVal) : Except Err PyVal :=
  if args.length ≠ 2 then .error .schemeEvaluationError
  else
    match args with
    | [a, b] => .ok (.pair a b)
    | _ => .error .schemeEvaluationError

/-- Embeds `get_car`: exactly one operand which must be a `Pair`. -/
def getCar (args : List PyVal) : Except Err PyVal :=
  match args with
  | [.pair c _] => .ok c
  | _ => .error .schemeEvaluationError

/-- Embeds `get_cdr`: exactly one operand which must be a `Pair`. -/
def getCdr (args : List PyVal) : Except Err PyVal :=
  match args with
  | [.pair _ d] => .ok d
  | _ => .error .schemeEvaluationError

/-- The recursion inside `type_check_list`: `[] in inp` (Python `==`
against the empty list, true only for the empty list itself) or a `Pair`
whose cdr again passes the check. -/
def properList : PyVal → Bool
  | .list [] => true
  | .pair _ d => properList d
  | _ => false

/-- Embeds `type_check_list` (the builtin `list?`): exactly one operand,
else `SchemeEvaluationError`; reports whether it is a proper list. -/
def typeCheckList (args : List PyVal) : Except Err Bool :=
  if args.length ≠ 1 then .error .schemeEvaluationError
  else
    match args with
    | [v] => .ok (properList v)
    | _ => .error .schemeEvaluationError

/-- The `length_helper` loop in `list_length`: falsy values (the empty
list) stop the count; a `Pair` counts one cell and recurses on its cdr; a
truthy non-`Pair` would hit `.cdr` and raise the host `AttributeError`. -/
def lengthHelper : PyVal → Except Err Nat
  | .pair _ d => do
    let n ← lengthHelper d
    .ok (n + 1)
  | v => if pyTruthy v then .error .hostAttributeError else .ok 0

/-- Embeds `list_length` (the builtin `length`): `type_check_list` on the
argument sequence (which also enforces the arity), then the counting
loop. -/
def listLength (args : List PyVal) : Except Err PyVal := do
  let b ← typeCheckList args
  if !b then .error .schemeEvaluationError
  else
    match args with
    | ll :: _ => do
      let n ← lengthHelper ll
      .ok (.int n)
    | [] => .error .schemeEvaluationError

/-- The `ref_helper` loop in `list_reference`: compare the running counter
with the requested index under Python `==` (so `False` and `0.0` count as
index `0`), return the car on a match, recurse on the cdr otherwise;
reaching a non-`Pair` raises the host `AttributeError` (`.car`/`.cdr` on
a non-`Pair`). -/
def refHelper (index : PyVal) : PyVal → Int → Except Err PyVal
  | .pair c d, i =>
    if pyEq (.int i) index then .ok c else refHelper index d (i + 1)
  | _, _ => .error .hostAttributeError

/-- The proper-list path of `list_reference`: the guard
`not type_check_list([ll]) or not isinstance(index, int) or
list_length([ll]) <= index` (short-circuit preserved, and
`isinstance(index, int)` is true for bools) followed by
`ref_helper(ll, 0)` — negative indices pass the guard, never match the
upward counter, and fall off the end of the chain. -/
def listReferenceProper (ll index : PyVal) : Except Err PyVal :=
  if !properList ll then .error .schemeEvaluationError
  else
    match asIntLike index with
    | none => .error .schemeEvaluationError
    | some i => do
      let n ← lengthHelper ll
      if (n : Int) ≤ i then .error .schemeEvaluationError
      else refHelper index ll 0

/-- Embeds `list_reference` (the builtin `list-ref`): exactly two
operands; a `Pair` whose cdr is not a proper list permits only an index
Python-equal to `0`; otherwise the proper-list path applies. -/
def listReference (args : List PyVal) : Except Err PyVal :=
  match args with
  | [ll, index] =>
    match ll with
    | .pair c d =>
      if !properList d then
        if pyEq index (.int 0) then .ok c else .error .schemeEvaluationError
      else
        listReferenceProper (.pair c d) index
    | v => listReferenceProper v index
  | _ => .error .schemeEvaluationError

/-- Embeds `all_lists`: every operand must pass the proper-list check. -/
def allLists (args : List PyVal) : Bool :=
  args.all properList

/-- Embeds `solo_list_extraction` / `extraction_helper`: falsy values stop
the walk; a `Pair` contributes its car and recurses on its cdr; a truthy
non-`Pair` would hit `.car` and raise the host `AttributeError`. -/
def soloListExtraction : PyVal → Except Err (List PyVal)
  | .pair c d => do
    let rest ← soloListExtraction d
    .ok (c :: rest)
  | v => if pyTruthy v then .error .hostAttributeError else .ok []

/-- Embeds `concatenate_list`: rebuild a Python list of elements as a
fresh `Pair` chain terminated by the empty list. -/
def concatenateList : List PyVal → PyVal
  | [] => .list []
  | x :: xs => .pair x (concatenateList xs)

/-- Embeds `append`: every operand must be a proper list
(`SchemeEvaluationError` otherwise); their elements are collected in
order and rebuilt as one fresh chain. -/
def append (args : List PyVal) : Except Err PyVal :=
  if !allLists args then .error .schemeEvaluationError
  else do
    let parts ← args.mapM soloListExtraction
    .ok (concatenateList parts.flatten)

/-- Dispatch from a builtin table entry to its embedded function. -/
def applyBuiltin : BOp → List PyVal → Except Err PyVal
  | .add, args => pySum args
  | .sub, args => subtract args
  | .mul, args => multiply args
  | .div, args => divide args
  | .eqB, args => equal args
  | .gt, args => greater args
  | .ge, args => greaterEqual args
  | .lt, args => less args
  | .le, args => lessEqual args
  | .notB, args => negate args
  | .carB, args => getCar args
  | .cdrB, args => getCdr args
  | .listQ, args => do
    let b ← typeCheckList args
    .ok (.bool b)
  | .consB, args => createCon args
  | .lenB, args => listLength args
  | .listRefB, args => listReference args
  | .appendB, args => append args

/-- The `scheme_builtins` dict, in source order. -/
def schemeBuiltins : List (String × PyVal) :=
  [("+", .builtin .add),
   ("-", .builtin .sub),
   ("*", .builtin .mul),
   ("/", .builtin .div),
   ("equal?", .builtin .eqB),
   (">", .builtin .gt),
   (">=", .builtin .ge),
   ("<", .builtin .lt),
   ("<=", .builtin .le),
   ("not", .builtin .notB),
   ("#t", .bool true),
   ("#f", .bool false),
   ("car", .builtin .carB),
   ("cdr", .builtin .cdrB),
   ("()", .list []),
   ("list?", .builtin .listQ),
   ("cons", .builtin .consB),
   ("length", .builtin .lenB),
   ("list-ref", .builtin .listRefB),
   ("append", .builtin .appendB)]

/-- Embeds `make_initial_frame`: a fresh global frame (index 1, empty)
whose parent (index 0) holds the builtin bindings. -/
def initialState : State :=
  [⟨none, schemeBuiltins⟩, ⟨some 0, []⟩]

/-- The global frame id in `initialState`. -/
def globalFid : Nat := 1

/-- A global frame in which user code has re-bound the reserved name `k`
to the non-callable value `0` via `(define k 0)`. -/
def rebound (k : String) : State :=
  [⟨none, schemeBuiltins⟩, ⟨some 0, [(k, .int 0)]⟩]

/-- Embeds `create_variable_dict`: walk the parameters with a running
index into the arguments (`arguments[i]`, host `IndexError` when the
arguments run out first — both sequences advance in lockstep, so consuming
them pairwise is the same indexing). -/
def createVariableDict : List PyVal → List PyVal →
    List (String × PyVal) → Except Err (List (String × PyVal))
  | [], _, acc => .ok acc
  | _ :: _, [], _ => .error .hostIndexError
  | p :: ps, a :: as, acc => createVariableDict ps as (dictSetPy acc p a)

/-- Embeds `Function.__call__`: `len(arguments) != len(self.parameters)`
raises `SchemeEvaluationError` (with `len` of a non-sequence raising the
host `TypeError` first); otherwise one new frame is created whose parent
is the closure's enclosing frame — the caller's frame does not occur —
and the body is evaluated there. `ev` is the evaluator at the current
fuel. -/
def applyClosureF (ev : PyVal → Nat → State → Except Err (PyVal × State))
    (params body : PyVal) (encFid : Nat) (args : List PyVal) (σ : State) :
    Except Err (PyVal × State) := do
  let plen ← pyLen params
  if args.length ≠ plen then .error .schemeEvaluationError
  else do
    let ps ← pyIter params
    let d ← createVariableDict ps args []
    ev body σ.length (σ ++ [⟨some encFid, d⟩])

/-- Left-to-right evaluation of an argument list (the list comprehension
`[evaluate(element, frame) for element in tree[1:]]`). -/
def evalArgsF (ev : PyVal → Nat → State → Except Err (PyVal × State)) :
    List PyVal → Nat → State → Except Err (List PyVal × State)
  | [], _, σ => .ok ([], σ)
  | e :: es, fid, σ => do
    let (v, σ') ← ev e fid σ
    let (vs, σ'') ← evalArgsF ev es fid σ'
    .ok (v :: vs, σ'')

/-- Embeds `simplify_non_list`: ints, floats and bools (Python
`isinstance(tree, (int, float))`) are self-evaluating; everything else is
looked up in the frame chain. -/
def simplifyNonList (tree : PyVal) (fid : Nat) (σ : State) :
    Except Err (PyVal × State) :=
  match tree with
  | .int n => .ok (.int n, σ)
  | .float q => .ok (.float q, σ)
  | .bool b => .ok (.bool b, σ)
  | t => do
    let v ← frameLookup (σ.length + 1) σ (some fid) t
    .ok (v, σ)

/-- The `define` special-form branch of `evaluate`: missing operands hit
Python's `tree[1]`/`tree[2]` indexing (host `IndexError`); a compound
first operand is sugar for a named lambda; the stored value is returned
through a fresh `frame[...]` lookup exactly as in the source. -/
def defineBranchF (ev : PyVal → Nat → State → Except Err (PyVal × State))
    (rest : List PyVal) (fid : Nat) (σ : State) :
    Except Err (PyVal × State) :=
  match rest with
  | [] => .error .hostIndexError
  | t1 :: rest1 =>
    match t1 with
    | .list ps =>
      match rest1 with
      | [] => .error .hostIndexError
      | t2 :: _ => do
        let (fv, σ1) ← ev (.list [.str "lambda", .list (ps.drop 1), t2]) fid σ
        match ps with
        | [] => .error .hostIndexError
        | name :: _ => do
          let σ2 ← frameSetItem σ1 fid name fv
          let v ← frameLookup (σ2.length + 1) σ2 (some fid) name
          .ok (v, σ2)
    | _ =>
      match rest1 with
      | [] => .error .hostIndexError
      | t2 :: _ => do
        let (v0, σ1) ← ev t2 fid σ
        let σ2 ← frameSetItem σ1 fid t1 v0
        let v ← frameLookup (σ2.length + 1) σ2 (some fid) t1
        .ok (v, σ2)

/-- The `cons` special-form branch of `evaluate`: `len(tree[1:]) != 2`
raises `SchemeEvaluationError`; a falsy second operand expression
(`if not tree[2]`) short-cuts to `Pair(tree[1], [])` with the first
operand left unevaluated; otherwise both operands are evaluated left to
right. -/
def consBranchF (ev : PyVal → Nat → State → Except Err (PyVal × State))
    (args : List PyVal) (fid : Nat) (σ : State) :
    Except Err (PyVal × State) :=
  match args with
  | [e1, e2] =>
    if !pyTruthy e2 then .ok (.pair e1 (.list []), σ)
    else do
      let (a, σ1) ← ev e1 fid σ
      let (d, σ2) ← ev e2 fid σ1
      .ok (.pair a d, σ2)
  | _ => .error .schemeEvaluationError

/-- The `tree[1:-1]` loop of the `begin` branch: evaluate each operand in
sequence for effect, discarding the values. -/
def evalSeqDiscardF (ev : PyVal → Nat → State → Except Err (PyVal × State)) :
    List PyVal → Nat → State → Except Err State
  | [], _, σ => .ok σ
  | e :: es, fid, σ => do
    let (_, σ') ← ev e fid σ
    evalSeqDiscardF ev es fid σ'

/-- The last element of a nonempty sequence (Python `tree[-1]`). -/
def lastOf (x : PyVal) : List PyVal → PyVal
  | [] => x
  | y :: ys => lastOf y ys

/-- The `begin` special-form branch of `evaluate`: evaluate `tree[1:-1]`
in sequence, then return `evaluate(tree[-1])` — for a bare `(begin)` the
element `tree[-1]` is the head symbol `begin` itself, which is evaluated
(looked up) like any symbol. -/
def beginBranchF (ev : PyVal → Nat → State → Except Err (PyVal × State))
    (rest : List PyVal) (fid : Nat) (σ : State) :
    Except Err (PyVal × State) :=
  match rest with
  | [] => ev (.str "begin") fid σ
  | r :: rs => do
    let σ' ← evalSeqDiscardF ev ((r :: rs).dropLast) fid σ
    ev (lastOf r rs) fid σ'

/-- The binding loop of `evaluate_let`: for each binding, the value
expression `binding[1]` is evaluated in the current frame `fid` (bindings
never see one another) and stored in the local dict under `binding[0]`. -/
def evalBindingsF (ev : PyVal → Nat → State → Except Err (PyVal × State)) :
    List PyVal → Nat → State → List (String × PyVal) →
    Except Err (List (String × PyVal) × State)
  | [], _, σ, acc => .ok (acc, σ)
  | b :: bs, fid, σ, acc => do
    let vexp ← pyIndex b 1
    let (v, σ') ← ev vexp fid σ
    let k ← pyIndex b 0
    evalBindingsF ev bs fid σ' (dictSetPy acc k v)

/-- Embeds `evaluate_let`: evaluate every binding in the current frame,
then build exactly one child frame of `fid` holding all bindings and
evaluate the body there. -/
def evaluateLetF (ev : PyVal → Nat → State → Except Err (PyVal × State))
    (bindingsArg body : PyVal) (fid : Nat) (σ : State) :
    Except Err (PyVal × State) := do
  let bs ← pyIter bindingsArg
  let (d, σ') ← evalBindingsF ev bs fid σ []
  ev body σ'.length (σ' ++ [⟨some fid, d⟩])

/-- The `let` special-form branch of `evaluate`: `len(tree) != 3` raises
`SchemeEvaluationError`, else `evaluate_let(tree[1:], frame)`. -/
def letBranchF (ev : PyVal → Nat → State → Except Err (PyVal × State))
    (rest : List PyVal) (fid : Nat) (σ : State) :
    Except Err (PyVal × State) :=
  match rest with
  | [b, body] => evaluateLetF ev b body fid σ
  | _ => .error .schemeEvaluationError

/-- The `set!` special-form branch of `evaluate`: `len(tree) != 3` raises
`SchemeEvaluationError`; the value expression is evaluated in the current
frame, `evaluate_set` mutates the nearest binding, and the evaluated
value is returned. The `evaluate_set` walk gets fuel `length σ + 1`,
which covers every chain the interpreter can build. -/
def setBranchF (ev : PyVal → Nat → State → Except Err (PyVal × State))
    (rest : List PyVal) (fid : Nat) (σ : State) :
    Except Err (PyVal × State) :=
  match rest with
  | [t1, t2] => do
    let (v, σ') ← ev t2 fid σ
    let σ'' ← evaluateSet (σ'.length + 1) t1 v fid σ'
    .ok (v, σ'')
  | _ => .error .schemeEvaluationError

/-- Embeds `create_linked_list` (the `list` special form): evaluate the
operands left to right, chaining the results into fresh `Pair` cells. -/
def createLinkedListF (ev : PyVal → Nat → State → Except Err (PyVal × State)) :
    List PyVal → Nat → State → Except Err (PyVal × State)
  | [], _, σ => .ok (.list [], σ)
  | e :: es, fid, σ => do
    let (v, σ') ← ev e fid σ
    let (tl, σ'') ← createLinkedListF ev es fid σ'
    .ok (.pair v tl, σ'')

/-- The `lambda` special-form branch of `evaluate`:
`Function(tree[1], tree[2], frame)` — missing operands hit Python's
indexing (host `IndexError`); nothing is evaluated. -/
def lambdaBranch (rest : List PyVal) (fid : Nat) (σ : State) :
    Except Err (PyVal × State) :=
  match rest with
  | p :: b :: _ => .ok (.closure p b fid, σ)
  | _ => .error .hostIndexError

/-- Embeds `evaluate_and`: left-to-right with short-circuit `False`. -/
def evaluateAndF (ev : PyVal → Nat → State → Except Err (PyVal × State)) :
    List PyVal → Nat → State → Except Err (PyVal × State)
  | [], _, σ => .ok (.bool true, σ)
  | e :: es, fid, σ => do
    let (v, σ') ← ev e fid σ
    if pyTruthy v then evaluateAndF ev es fid σ' else .ok (.bool false, σ')

/-- Embeds `evaluate_or`: left-to-right with short-circuit `True`. -/
def evaluateOrF (ev : PyVal → Nat → State → Except Err (PyVal × State)) :
    List PyVal → Nat → State → Except Err (PyVal × State)
  | [], _, σ => .ok (.bool false, σ)
  | e :: es, fid, σ => do
    let (v, σ') ← ev e fid σ
    if pyTruthy v then .ok (.bool true, σ') else evaluateOrF ev es fid σ'

/-- Embeds `evaluate_conditional` (over `tree[1:]`, so `rest[0]` is
Python's `tree[1]` and so on): evaluate the condition, then exactly one
branch; a missing condition or missing selected branch hits Python's
indexing (host `IndexError`) — a missing alternative is only touched when
the condition is falsy. -/
def ifBranchF (ev : PyVal → Nat → State → Except Err (PyVal × State))
    (rest : List PyVal) (fid : Nat) (σ : State) :
    Except Err (PyVal × State) :=
  match rest with
  | [] => .error .hostIndexError
  | c :: rest2 => do
    let (cv, σ') ← ev c fid σ
    if pyTruthy cv then
      match rest2 with
      | t :: _ => ev t fid σ'
      | [] => .error .hostIndexError
    else
      match rest2 with
      | _ :: e :: _ => ev e fid σ'
      | _ => .error .hostIndexError

/-- One step of `evaluate`, parameterized by the evaluator `ev` used for
every nested `evaluate(...)` call of the source: non-lists are
self-evaluating or looked up, the empty compound is the empty list, the
reserved keywords are dispatched on the textual head (in source order,
before any evaluation or lookup of the head), and everything else is
procedure application — evaluate the head, fail with
`SchemeEvaluationError` if it is not callable, evaluate the operands left
to right, and invoke. -/
def evaluateStep (ev : PyVal → Nat → State → Except Err (PyVal × State))
    (tree : PyVal) (fid : Nat) (σ : State) : Except Err (PyVal × State) :=
  match tree with
  | .list [] => .ok (.list [], σ)
  | .list (h :: rest) =>
    if pyEqStr h "define" then defineBranchF ev rest fid σ
    else if pyEqStr h "cons" then consBranchF ev rest fid σ
    else if pyEqStr h "begin" then beginBranchF ev rest fid σ
    else if pyEqStr h "del" then deleteVariables rest fid σ
    else if pyEqStr h "let" then letBranchF ev rest fid σ
    else if pyEqStr h "set!" then setBranchF ev rest fid σ
    else if pyEqStr h "list" then createLinkedListF ev rest fid σ
    else if pyEqStr h "lambda" then lambdaBranch rest fid σ
    else if pyEqStr h "and" then evaluateAndF ev rest fid σ
    else if pyEqStr h "or" then evaluateOrF ev rest fid σ
    else if pyEqStr h "if" then ifBranchF ev rest fid σ
    else do
      let (f, σ1) ← ev h fid σ
      match f with
      | .closure p b encF => do
        let (args, σ2) ← evalArgsF ev rest fid σ1
        applyClosureF ev p b encF args σ2
      | .builtin op => do
        let (args, σ2) ← evalArgsF ev rest fid σ1
        let v ← applyBuiltin op args
        .ok (v, σ2)
      | _ => .error .schemeEvaluationError
  | t => simplifyNonList t fid σ

/-- Embeds `evaluate`, with fuel bounding the depth of nested
`evaluate` calls (the source recurses without bound). -/
def evaluate : Nat → PyVal → Nat → State → Except Err (PyVal × State)
  | 0, _, _, _ => .error .fuel
  | g + 1, tree, fid, σ =>
    evaluateStep (fun t f s => evaluate g t f s) tree fid σ

/-- Digit-string value for Python's `int(...)` (empty or non-digit text
fails). -/
def digitsToNat (l : List Char) : Option Nat :=
  if l.isEmpty then none
  else
    l.foldl
      (fun acc c =>
        acc.bind (fun a => if c.isDigit then some (a * 10 + (c.toNat - 48)) else none))
      (some 0)

/-- Python `int(s)` on a token: optional sign then digits (the host also
strips whitespace and accepts underscores, which the tokenizer never
produces). -/
def parseIntStr (s : String) : Option Int :=
  match s.toList with
  | '-' :: rest => (digitsToNat rest).map (fun n => -(n : Int))
  | '+' :: rest => (digitsToNat rest).map (fun n => (n : Int))
  | l => (digitsToNat l).map (fun n => (n : Int))

/-- Digit run with value and presence flag, for float mantissas. -/
def digitsVal (l : List Char) : Option (Nat × Nat) :=
  l.foldl
    (fun acc c =>
      acc.bind (fun p =>
        if c.isDigit then some (p.1 * 10 + (c.toNat - 48), p.2 + 1) else none))
    (some (0, 0))

/-- Python `float(s)` on a token restricted to the decimal-point form
`[sign]digits.digits` with at least one digit (the host grammar also
admits exponents and infinities, which no verified claim's input uses). -/
def parseFloatStr (s : String) : Option Rat :=
  let core := fun (l : List Char) (sign : Rat) =>
    match l.splitOn '.' with
    | [ip, fp] =>
      match digitsVal ip, digitsVal fp with
      | some (iv, ic), some (fv, fc) =>
        if ic + fc = 0 then none
        else some (sign * ((iv : Rat) + (fv : Rat) / ((10 : Rat) ^ fc)))
      | _, _ => none
    | _ => none
  match s.toList with
  | '-' :: rest => core rest (-1)
  | '+' :: rest => core rest 1
  | l => core l 1

/-- Embeds `number_or_symbol`: try `int`, then `float`, else keep the
symbol text. -/
def numberOrSymbol (s : String) : PyVal :=
  match parseIntStr s with
  | some n => .int n
  | none =>
    match parseFloatStr s with
    | some q => .float q
    | none => .str s

/-- Embeds `isvalid`: a sequence of more than one token must start with
`(` and end with `)`, and the `(` count must equal the `)` count;
`tokens[0]` on an empty sequence raises the host `IndexError`. -/
def isvalid (tokens : List String) : Except Err Bool :=
  match tokens with
  | [] => .error .hostIndexError
  | t :: ts =>
    if (t :: ts).length ≠ 1 ∧
        (t ≠ "(" ∨ (t :: ts).getLast (List.cons_ne_nil t ts) ≠ ")") then
      .ok false
    else
      .ok ((t :: ts).count "(" == (t :: ts).count ")")

mutual
/-- Embeds `parse_expression`: at an atom, convert and step past it; at a
`(`, collect sub-expressions until the matching `)` and report that
`)`'s index. Out-of-range token access raises the host `IndexError`; the
fuel only bounds the index walk and never runs out when `parse` supplies
it. -/
def parseExpr (tokens : List String) : Nat → Nat → Except Err (PyVal × Nat)
  | 0, _ => .error .fuel
  | g + 1, index =>
    match tokens.get? index with
    | none => .error .hostIndexError
    | some tok =>
      if tok = "(" then do
        let (es, i) ← parseGroup tokens g (index + 1) []
        .ok (.list es, i)
      else .ok (numberOrSymbol tok, index + 1)

/-- The `while True` collection loop inside `parse_expression`: `i` is the
next index to read (the source increments before reading). -/
def parseGroup (tokens : List String) :
    Nat → Nat → List PyVal → Except Err (List PyVal × Nat)
  | 0, _, _ => .error .fuel
  | g + 1, i, acc =>
    match tokens.get? i with
    | none => .error .hostIndexError
    | some tok =>
      if tok = "(" then do
        let (inner, endI) ← parseExpr tokens g i
        parseGroup tokens g (endI + 1) (acc ++ [inner])
      else if tok = ")" then .ok (acc, i)
      else parseGroup tokens g (i + 1) (acc ++ [numberOrSymbol tok])
end

/-- Embeds `parse`: reject the sequence with `SchemeSyntaxError` when
`isvalid` refuses it, then parse one expression starting at index `0` and
return it — tokens after the first complete top-level form are never
examined. -/
def parse (tokens : List String) : Except Err PyVal := do
  let v ← isvalid tokens
  if !v then .error .schemeSyntaxError
  else do
    let (e, _) ← parseExpr tokens (2 * tokens.length + 4) 0
    .ok e

/-- Modelled from the spec: the nearest frame of the ancestor chain
(starting at `fid` itself) whose own dict binds `s` — the frame that the
spec says `set!` must mutate. Used to compare `evaluate_set` against the
specified search order. -/
def specNearestBinder : Nat → State → Nat → String → Option Nat
  | 0, _, _, _ => none
  | g + 1, σ, fid, s =>
    match σ.get? fid with
    | none => none
    | some fr =>
      if dictContains fr.vars s then some fid
      else
        match fr.parent with
        | some p => specNearestBinder g σ p s
        | none => none

/-- A frame store is well formed when every frame's parent index is
smaller than its own index — true of every state the interpreter builds,
since frames are appended and point at existing frames. -/
def wfState (σ : State) : Bool :=
  (List.range σ.length).all fun i =>
    match σ.get? i with
    | some fr =>
      match fr.parent with
      | some p => decide (p < i)
      | none => true
    | none => true

/-- The renaming of freshly allocated frames used to state C9's side
condition precisely: store indices below the boundary `n` (the frames
that already existed) are fixed, and indices at or above `n` (frames a
run allocated) are moved up by `k`, making room for `k` garbage frames
in between. -/
def shiftId (n k i : Nat) : Nat := if i < n then i else i + k

mutual
/-- Apply the fresh-frame renaming to every captured frame id inside a
value. -/
def shiftV (n k : Nat) : PyVal → PyVal
  | .int m => .int m
  | .float q => .float q
  | .bool b => .bool b
  | .str s => .str s
  | .list xs => .list (shiftVList n k xs)
  | .pair a d => .pair (shiftV n k a) (shiftV n k d)
  | .closure p b f => .closure (shiftV n k p) (shiftV n k b) (shiftId n k f)
  | .builtin op => .builtin op

/-- `shiftV` on every element of a Python list. -/
def shiftVList (n k : Nat) : List PyVal → List PyVal
  | [] => []
  | x :: xs => shiftV n k x :: shiftVList n k xs
end

/-- `shiftV` on every stored value of a variables dict. -/
def shiftVars (n k : Nat) : List (String × PyVal) → List (String × PyVal)
  | [] => []
  | (s, v) :: rest => (s, shiftV n k v) :: shiftVars n k rest

/-- The fresh-frame renaming on one frame: its parent index and its
stored values. -/
def shiftFrame (n k : Nat) (fr : PyFrame) : PyFrame :=
  ⟨fr.parent.map (shiftId n k), shiftVars n k fr.vars⟩

/-- The store as a re-evaluation sees it: the first `n` frames in place,
`length τ` garbage frames (a previous run's leftovers) wedged in after
them, and every younger frame moved up with its embedded indices
renamed. -/
def extendState (n : Nat) (τ : State) (σ : State) : State :=
  (σ.map (shiftFrame n τ.length)).take n ++ τ ++
    (σ.map (shiftFrame n τ.length)).drop n

/-- The fresh-frame renaming on a whole evaluation outcome. -/
def shiftRes (n : Nat) (τ : State) :
    Except Err (PyVal × State) → Except Err (PyVal × State)
  | .ok (v, σ') => .ok (shiftV n τ.length v, extendState n τ σ')
  | .error e => .error e

mutual
/-- A value with no closure constructor anywhere — true of every tree
the parser can produce and of every expression the evaluator is
recursively called on (evaluation only ever recurses into parser-shaped
trees). -/
def closureFree : PyVal → Bool
  | .list xs => closureFreeList xs
  | .pair a d => closureFree a && closureFree d
  | .closure _ _ _ => false
  | _ => true

/-- `closureFree` on every element. -/
def closureFreeList : List PyVal → Bool
  | [] => true
  | x :: xs => closureFree x && closureFreeList xs
end

mutual
/-- A runtime value is good for a store of length `n` when every closure
inside it captures a frame index below `n` and carries parser-shaped
(closure-free) parameters and body — an invariant of every value the
interpreter builds. -/
def goodVal (n : Nat) : PyVal → Bool
  | .list xs => goodValList n xs
  | .pair a d => goodVal n a && goodVal n d
  | .closure p b f => decide (f < n) && closureFree p && closureFree b
  | _ => true

/-- `goodVal` on every element. -/
def goodValList (n : Nat) : List PyVal → Bool
  | [] => true
  | x :: xs => goodVal n x && goodValList n xs
end

/-- `goodVal` on every stored value of a variables dict. -/
def goodVars (n : Nat) : List (String × PyVal) → Bool
  | [] => true
  | (_, v) :: rest => goodVal n v && goodVars n rest

/-- A store is good when every frame's parent index is below its own
index and every stored value is good for the store — true of the
initial state and preserved by evaluation. -/
def goodState (σ : State) : Bool :=
  (List.range σ.length).all fun i =>
    match σ.get? i with
    | some fr =>
      (match fr.parent with
       | some p => decide (p < i)
       | none => true) && goodVars σ.length fr.vars
    | none => true

/-- The simulation property for a one-state-to-result function: under
the fresh-frame renaming of a good input store, the run commutes with
the renaming, and a successful run returns a good store, a good value
and a store no shorter than the input. -/
def StepOK (n : Nat) (τ : State)
    (run : Nat → State → Except Err (PyVal × State)) : Prop :=
  ∀ fid σ, goodState σ = true → fid < σ.length → n ≤ σ.length →
    (run (shiftId n τ.length fid) (extendState n τ σ) = shiftRes n τ (run fid σ))
    ∧ ∀ v σ', run fid σ = .ok (v, σ') →
        goodState σ' = true ∧ goodVal σ'.length v = true ∧ σ.length ≤ σ'.length

/-- The simulation property for an evaluator: `StepOK` at every
closure-free tree. -/
def EvOK (n : Nat) (τ : State)
    (ev : PyVal → Nat → State → Except Err (PyVal × State)) : Prop :=
  ∀ t, closureFree t = true → StepOK n τ (ev t)

/-- The simulation property for a state-only helper (the `begin`
discard loop). -/
def SeqOK (n : Nat) (τ : State)
    (run : Nat → State → Except Err State) : Prop :=
  ∀ fid σ, goodState σ = true → fid < σ.length → n ≤ σ.length →
    (run (shiftId n τ.length fid) (extendState n τ σ) =
      (match run fid σ with
       | .ok σ' => .ok (extendState n τ σ')
       | .error e => .error e))
    ∧ ∀ σ', run fid σ = .ok σ' → goodState σ' = true ∧ σ.length ≤ σ'.length

/-- The simulation property for the argument-list evaluator. -/
def ArgsOK (n : Nat) (τ : State)
    (run : Nat → State → Except Err (List PyVal × State)) : Prop :=
  ∀ fid σ, goodState σ = true → fid < σ.length → n ≤ σ.length →
    (run (shiftId n τ.length fid) (extendState n τ σ) =
      (match run fid σ with
       | .ok (vs, σ') => .ok (shiftVList n τ.length vs, extendState n τ σ')
       | .error e => .error e))
    ∧ ∀ vs σ', run fid σ = .ok (vs, σ') →
        goodState σ' = true ∧ goodValList σ'.length vs = true ∧
          σ.length ≤ σ'.length

/-- The simulation property for the `let` binding loop, which also
carries the local dict being built. -/
def BindsOK (n : Nat) (τ : State)
    (run : Nat → State → Except Err (List (String × PyVal) × State)) : Prop :=
  ∀ fid σ, goodState σ = true → fid < σ.length → n ≤ σ.length →
    (run (shiftId n τ.length fid) (extendState n τ σ) =
      (match run fid σ with
       | .ok (d, σ') => .ok (shiftVars n τ.length d, extendState n τ σ')
       | .error e => .error e))
    ∧ ∀ d σ', run fid σ = .ok (d, σ') →
        goodState σ' = true ∧ goodVars σ'.length d = true ∧
          σ.length ≤ σ'.length

/-- Looking a key up after a dict store: the stored key maps to the new
value, every other key is untouched. -/
theorem dictLookup_dictSet (d : List (String × PyVal)) (k : String) (v : PyVal)
    (t : String) :
    dictLookup (dictSet d k v) t = if k = t then some v else dictLookup d t := by
  induction d with
  | nil =>
    by_cases h : k = t <;> simp [dictSet, dictLookup, h]
  | cons kv rest ih =>
    obtain ⟨k', v'⟩ := kv
    by_cases hk : k' = k
    · subst hk
      by_cases h : k' = t <;> simp [dictSet, dictLookup, h]
    · by_cases h : k' = t
      · subst h
        have : ¬ k = k' := fun hc => hk hc.symm
        simp [dictSet, dictLookup, hk, this]
      · simp [dictSet, dictLookup, hk, h, ih]

/-- A dict store of a fresh key appends it. -/
theorem dictSet_of_not_contains (d : List (String × PyVal)) (k : String)
    (v : PyVal) (h : dictContains d k = false) :
    dictSet d k v = d ++ [(k, v)] := by
  induction d with
  | nil => simp [dictSet]
  | cons kv rest ih =>
    obtain ⟨k', v'⟩ := kv
    simp only [dictContains, dictLookup] at h
    by_cases hk : k' = k
    · simp [hk] at h
    · simp only [dictSet, hk, if_false, List.cons_append, List.cons.injEq, true_and]
      exact ih (by simpa [dictContains, hk] using h)

/-- Dict lookup across an append searches the left part first. -/
theorem dictLookup_append (d e : List (String × PyVal)) (k : String) :
    dictLookup (d ++ e) k =
      match dictLookup d k with
      | some v => some v
      | none => dictLookup e k := by
  induction d with
  | nil => simp [dictLookup]
  | cons kv rest ih =>
    obtain ⟨k', v'⟩ := kv
    by_cases hk : k' = k <;> simp [dictLookup, hk, ih]

/-- `lastOf` of a sequence ending in `e` is `e` (Python `tree[-1]`). -/
theorem lastOf_concat (os : List PyVal) (e : PyVal) :
    ∀ o, lastOf o (os ++ [e]) = e := by
  induction os with
  | nil => intro o; rfl
  | cons x os ih => intro o; simpa [lastOf] using ih x

/-- The `begin` branch on a nonempty operand list `ops ++ [e]`: evaluate
`ops` in sequence for effect, then evaluate and return `e`. -/
theorem beginBranchF_concat (ev : PyVal → Nat → State → Except Err (PyVal × State))
    (ops : List PyVal) (e : PyVal) (fid : Nat) (σ : State) :
    beginBranchF ev (ops ++ [e]) fid σ =
      (do
        let σ' ← evalSeqDiscardF ev ops fid σ
        ev e fid σ') := by
  cases ops with
  | nil => simp [beginBranchF, evalSeqDiscardF, lastOf]
  | cons o os =>
    show beginBranchF ev (o :: (os ++ [e])) fid σ = _
    simp only [beginBranchF]
    rw [show o :: (os ++ [e]) = (o :: os) ++ [e] from rfl, List.dropLast_concat]
    rw [lastOf_concat os e o]

/-- `concatenate_list` always builds a proper list. -/
theorem properList_concatenateList (xs : List PyVal) :
    properList (concatenateList xs) = true := by
  induction xs with
  | nil => rfl
  | cons x xs ih => simpa [concatenateList, properList] using ih

/-- The counting loop of `length` on a built chain counts its cells. -/
theorem lengthHelper_concatenateList (xs : List PyVal) :
    lengthHelper (concatenateList xs) = .ok xs.length := by
  induction xs with
  | nil => rfl
  | cons x xs ih =>
    simp only [concatenateList, lengthHelper, ih, List.length_cons]
    rfl

/-- Python `==` between two int objects is integer equality. -/
theorem pyEq_int_int (a b : Int) :
    pyEq (.int a) (.int b) = decide (a = b) := by
  rw [show pyEq (.int a) (.int b) = decide ((a : Rat) = (b : Rat)) from rfl,
    decide_eq_decide]
  exact Int.cast_inj

/-- `ref_helper` with a requested index below the running counter never
matches and falls off the end of the chain (host `AttributeError`). -/
theorem refHelper_low (xs : List PyVal) :
    ∀ c idx : Int, idx < c →
      refHelper (.int idx) (concatenateList xs) c = .error .hostAttributeError := by
  induction xs with
  | nil => intro c idx _; rfl
  | cons x xs ih =>
    intro c idx h
    have hd : pyEq (.int c) (.int idx) = false := by
      rw [pyEq_int_int]; exact decide_eq_false (by omega)
    simp only [concatenateList, refHelper, hd, Bool.false_eq_true, if_false]
    exact ih (c + 1) idx (by omega)

/-- `ref_helper` with a requested index at offset `k` inside the chain
returns the `k`-th element. -/
theorem refHelper_hit (xs : List PyVal) :
    ∀ (c : Int) (k : Nat) (h : k < xs.length),
      refHelper (.int (c + k)) (concatenateList xs) c = .ok (xs.get ⟨k, h⟩) := by
  induction xs with
  | nil => intro c k h; exact absurd h (by simp)
  | cons x xs ih =>
    intro c k h
    cases k with
    | zero =>
      have hc : c + ((0 : Nat) : Int) = c := by simp
      rw [hc]
      have hd : pyEq (.int c) (.int c) = true := by
        rw [pyEq_int_int]; exact decide_eq_true rfl
      simp [concatenateList, refHelper, hd]
    | succ k' =>
      have hd : pyEq (.int c) (.int (c + ((k' + 1 : Nat) : Int))) = false := by
        rw [pyEq_int_int]; exact decide_eq_false (by omega)
      simp only [concatenateList, refHelper, hd, Bool.false_eq_true, if_false]
      have hc : c + ((k' + 1 : Nat) : Int) = (c + 1) + (k' : Nat) := by
        push_cast; omega
      rw [hc]
      have := ih (c + 1) k' (Nat.lt_of_succ_lt_succ h)
      simpa using this

/-- `ref_helper` with a requested index past the end of the chain falls
off it (host `AttributeError`). -/
theorem refHelper_high (xs : List PyVal) :
    ∀ c idx : Int, (xs.length : Int) + c ≤ idx →
      refHelper (.int idx) (concatenateList xs) c = .error .hostAttributeError := by
  induction xs with
  | nil => intro c idx _; rfl
  | cons x xs ih =>
    intro c idx h
    simp only [List.length_cons] at h
    have hd : pyEq (.int c) (.int idx) = false := by
      rw [pyEq_int_int]; exact decide_eq_false (by omega)
    simp only [concatenateList, refHelper, hd, Bool.false_eq_true, if_false]
    exact ih (c + 1) idx (by omega)

/-- On a built chain, `list_reference` always takes its proper-list
path (the improper-`Pair` special case never fires). -/
theorem listReference_concatenateList (xs : List PyVal) (idx : PyVal) :
    listReference [concatenateList xs, idx] =
      listReferenceProper (concatenateList xs) idx := by
  cases xs with
  | nil => rfl
  | cons x xs =>
    simp [listReference, concatenateList, properList_concatenateList xs]

/-- In a well-formed store, every frame's parent index is below its own. -/
theorem wfState_parent_lt {σ : State} (h : wfState σ = true) {i : Nat}
    {fr : PyFrame} {p : Nat} (hi : σ.get? i = some fr)
    (hp : fr.parent = some p) : p < i := by
  have hlen : i < σ.length := by
    by_contra hge
    rw [List.get?_eq_none.mpr (Nat.le_of_not_lt hge)] at hi
    exact Option.noConfusion hi
  have hall := (List.all_eq_true.mp h) i (List.mem_range.mpr hlen)
  simp only [hi, hp] at hall
  exact of_decide_eq_true hall

/-- A key a dict does not contain looks up to `none`. -/
theorem dictContains_false_lookup {d : List (String × PyVal)} {k : String}
    (h : dictContains d k = false) : dictLookup d k = none := by
  unfold dictContains at h
  cases ho : dictLookup d k with
  | none => rfl
  | some v => rw [ho] at h; exact absurd h (by simp)

/-- `evaluate_set` agrees with the specified search: it overwrites the
name in the nearest frame of the ancestor chain that already binds it,
and fails with `SchemeNameError` when no frame in the chain does. -/
theorem evaluateSet_eq_spec :
    ∀ (g : Nat) (σ : State) (fid : Nat) (s : String) (v : PyVal),
      wfState σ = true → fid < σ.length → fid < g →
      evaluateSet g (.str s) v fid σ =
        (match specNearestBinder g σ fid s with
         | some j =>
           match σ.get? j with
           | some fr => .ok (σ.set j ⟨fr.parent, dictSet fr.vars s v⟩)
           | none => .error .hostIndexError
         | none => .error .schemeNameError) := by
  intro g
  induction g with
  | zero => intro σ fid s v _ _ hg; exact absurd hg (by omega)
  | succ g ih =>
    intro σ fid s v hwf hfid _
    have hget : σ.get? fid = some (σ.get ⟨fid, hfid⟩) := List.get?_eq_get hfid
    set fr := σ.get ⟨fid, hfid⟩ with hfr
    have hget' : σ[fid]? = some fr := by
      rw [← List.get?_eq_getElem?]; exact hget
    simp only [evaluateSet, specNearestBinder, hget]
    cases hc : dictContains fr.vars s with
    | true => simp [hc, hget, hget']
    | false =>
      simp only [hc, Bool.false_eq_true, if_false]
      cases hp : fr.parent with
      | none => rfl
      | some p =>
        have hplt : p < fid := wfState_parent_lt hwf hget hp
        exact ih σ p s v hwf (by omega) (by omega)

/-- `create_variable_dict` on string parameter names with fresh keys and
no duplicates appends the positional name/argument pairs. -/
theorem createVariableDict_zip (names : List String) :
    ∀ (args : List PyVal) (acc : List (String × PyVal)),
      args.length = names.length →
      (∀ n ∈ names, dictContains acc n = false) →
      names.Nodup →
      createVariableDict (names.map .str) args acc =
        .ok (acc ++ names.zip args) := by
  induction names with
  | nil =>
    intro args acc hlen _ _
    cases args with
    | nil => simp [createVariableDict]
    | cons a as => simp at hlen
  | cons n ns ih =>
    intro args acc hlen hfresh hnd
    cases args with
    | nil => simp at hlen
    | cons a as =>
      simp only [List.map_cons, createVariableDict, dictSetPy]
      rw [dictSet_of_not_contains _ _ _ (hfresh n (List.mem_cons_self n ns))]
      rw [List.nodup_cons] at hnd
      have hfresh' : ∀ m ∈ ns, dictContains (acc ++ [(n, a)]) m = false := by
        intro m hm
        have h1 : dictLookup acc m = none :=
          dictContains_false_lookup (hfresh m (List.mem_cons_of_mem _ hm))
        have hne : ¬ (n = m) := fun hc => hnd.1 (hc ▸ hm)
        simp [dictContains, dictLookup_append, h1, dictLookup, hne]
      rw [ih as (acc ++ [(n, a)]) (by simpa using hlen) hfresh' hnd.2]
      simp [List.zip]

/-- In a positional name/argument dict with distinct names, each name
looks up to its own positional argument. -/
theorem dictLookup_zip (names : List String) :
    ∀ (args : List PyVal), names.Nodup → args.length = names.length →
      ∀ i : Nat, i < names.length →
        dictLookup (names.zip args) (names.getD i "") =
          some (args.getD i (.int 0)) := by
  induction names with
  | nil => intro args _ _ i hi; exact absurd hi (by simp)
  | cons n ns ih =>
    intro args hnd hlen i hi
    cases args with
    | nil => simp at hlen
    | cons a as =>
      rw [List.nodup_cons] at hnd
      cases i with
      | zero => simp [List.zip, dictLookup]
      | succ i' =>
        have hmem : ns.getD i' "" ∈ ns := by
          have : i' < ns.length := by simpa using Nat.lt_of_succ_lt_succ hi
          rw [List.getD_eq_get _ _ this]
          exact List.get_mem ns i' this
        have hne : ¬ (n = ns.getD i' "") := fun hc => hnd.1 (hc ▸ hmem)
        simp only [List.zip, List.zipWith_cons_cons, dictLookup, hne, if_false,
          List.getD_cons_succ]
        exact ih as hnd.2 (by simpa using hlen) i'
          (by simpa using Nat.lt_of_succ_lt_succ hi)

/-- C10: the builtin `+` on an empty argument sequence returns the int
`0`; the builtins `*` and `-` on an empty argument sequence raise the
host-level `IndexError` (`num[0]`/`args[0]` on an empty list), which is
none of the three Scheme error kinds; only `/` guards the empty case with
`SchemeEvaluationError`. Shown both on the builtin functions and through
full evaluation of `(+)`, `(*)`, `(-)`, `(/)`. -/
theorem claimC10_emptyArgArithmetic :
    applyBuiltin .add [] = .ok (.int 0)
    ∧ applyBuiltin .mul [] = .error .hostIndexError
    ∧ applyBuiltin .sub [] = .error .hostIndexError
    ∧ applyBuiltin .div [] = .error .schemeEvaluationError
    ∧ evaluate 5 (.list [.str "+"]) 1 initialState = .ok (.int 0, initialState)
    ∧ evaluate 5 (.list [.str "*"]) 1 initialState = .error .hostIndexError
    ∧ evaluate 5 (.list [.str "-"]) 1 initialState = .error .hostIndexError
    ∧ evaluate 5 (.list [.str "/"]) 1 initialState = .error .schemeEvaluationError
    ∧ Err.hostIndexError ≠ Err.schemeSyntaxError
    ∧ Err.hostIndexError ≠ Err.schemeNameError
    ∧ Err.hostIndexError ≠ Err.schemeEvaluationError :=
  ⟨rfl, rfl, rfl, rfl, rfl, rfl, rfl, rfl, by decide, by decide, by decide⟩

/-- C1 counterexample: evaluating `(cons (+ 1 2) ())` returns a `Pair`
whose car is the raw, unevaluated expression `(+ 1 2)` — not the value
`3` the claim requires. -/
theorem claimC1_counterexample :
    evaluate 5 (.list [.str "cons", .list [.str "+", .int 1, .int 2], .list []])
        1 initialState
      = .ok (.pair (.list [.str "+", .int 1, .int 2]) (.list []), initialState)
    ∧ evaluate 5 (.list [.str "cons", .list [.str "+", .int 1, .int 2], .list []])
        1 initialState
      ≠ .ok (.pair (.int 3) (.list []), initialState) := by
  refine ⟨rfl, fun h => ?_⟩
  rw [show evaluate 5
      (.list [.str "cons", .list [.str "+", .int 1, .int 2], .list []]) 1 initialState
      = .ok (.pair (.list [.str "+", .int 1, .int 2]) (.list []), initialState)
      from rfl] at h
  injection h with h1
  injection h1 with ha hs
  injection ha with hc hd
  exact PyVal.noConfusion hc

/-- C1 (amended): the `cons` special form fails with
`SchemeEvaluationError` on any operand count other than two; with two
operands it short-cuts to a `Pair` of the *unevaluated* first operand and
the empty list whenever the second operand expression is falsy (the
empty-list literal or a zero literal), and only otherwise evaluates both
operands left to right into a fresh `Pair`. -/
theorem claimC1_consSpecialForm (g fid : Nat) (σ : State) :
    (∀ args : List PyVal, args.length ≠ 2 →
      evaluate (g + 1) (.list (.str "cons" :: args)) fid σ =
        .error .schemeEvaluationError)
    ∧ (∀ e1 e2 : PyVal, pyTruthy e2 = false →
      evaluate (g + 1) (.list [.str "cons", e1, e2]) fid σ =
        .ok (.pair e1 (.list []), σ))
    ∧ (∀ e1 e2 : PyVal, pyTruthy e2 = true →
      evaluate (g + 1) (.list [.str "cons", e1, e2]) fid σ =
        (do
          let (a, σ1) ← evaluate g e1 fid σ
          let (d, σ2) ← evaluate g e2 fid σ1
          Except.ok (.pair a d, σ2))) := by
  refine ⟨?_, ?_, ?_⟩
  · intro args hlen
    show consBranchF (fun t f s => evaluate g t f s) args fid σ =
      .error .schemeEvaluationError
    match args with
    | [] => rfl
    | [a] => rfl
    | [a, b] => exact absurd rfl hlen
    | a :: b :: c :: rest => rfl
  · intro e1 e2 h
    show consBranchF (fun t f s => evaluate g t f s) [e1, e2] fid σ = _
    simp [consBranchF, h]
  · intro e1 e2 h
    show consBranchF (fun t f s => evaluate g t f s) [e1, e2] fid σ = _
    simp [consBranchF, h]

/-- Witness for C1 at a wrong arity, a falsy (zero-literal) second
operand, and a truthy second operand. -/
theorem claimC1_witness :
    evaluate 5 (.list [.str "cons", .int 7]) 1 initialState =
      .error .schemeEvaluationError
    ∧ evaluate 5 (.list [.str "cons", .int 7, .int 0]) 1 initialState =
      .ok (.pair (.int 7) (.list []), initialState)
    ∧ evaluate 5 (.list [.str "cons", .int 7, .int 8]) 1 initialState =
      (do
        let (a, σ1) ← evaluate 4 (.int 7) 1 initialState
        let (d, σ2) ← evaluate 4 (.int 8) 1 σ1
        Except.ok (.pair a d, σ2)) :=
  ⟨(claimC1_consSpecialForm 4 1 initialState).1 [.int 7] (by decide),
   (claimC1_consSpecialForm 4 1 initialState).2.1 (.int 7) (.int 0) rfl,
   (claimC1_consSpecialForm 4 1 initialState).2.2 (.int 7) (.int 8) rfl⟩

/-- C3 counterexample: `(begin)` with zero operands against the initial
environment fails with `SchemeNameError` (the head symbol itself is
looked up), not `SchemeEvaluationError` as claimed. -/
theorem claimC3_counterexample :
    evaluate 3 (.list [.str "begin"]) 1 initialState = .error .schemeNameError
    ∧ evaluate 3 (.list [.str "begin"]) 1 initialState ≠
        .error .schemeEvaluationError := by
  refine ⟨rfl, fun h => ?_⟩
  rw [show evaluate 3 (.list [.str "begin"]) 1 initialState =
      .error .schemeNameError from rfl] at h
  injection h with h1
  exact absurd h1 (by decide)

/-- C3 (amended): `(begin)` with zero operands evaluates the bare symbol
`begin` in the current frame — failing with `SchemeNameError` whenever no
frame binds that name, as in the initial environment; with one or more
operands, `begin` evaluates each operand in sequence in the current frame
and returns the value of the last. -/
theorem claimC3_beginForm (g fid : Nat) (σ : State) :
    evaluate (g + 1) (.list [.str "begin"]) fid σ =
      evaluate g (.str "begin") fid σ
    ∧ (∀ (ops : List PyVal) (e : PyVal),
      evaluate (g + 1) (.list (.str "begin" :: (ops ++ [e]))) fid σ =
        (do
          let σ' ← evalSeqDiscardF (fun t f s => evaluate g t f s) ops fid σ
          evaluate g e fid σ'))
    ∧ evaluate 3 (.list [.str "begin"]) 1 initialState =
        .error .schemeNameError := by
  refine ⟨rfl, ?_, rfl⟩
  intro ops e
  show beginBranchF (fun t f s => evaluate g t f s) (ops ++ [e]) fid σ = _
  exact beginBranchF_concat _ ops e fid σ

/-- C2 counterexample: the token sequence of `"(a) (b)"` — two complete
top-level forms — passes `isvalid` (it starts with `(`, ends with `)`,
and has balanced counts), and `parse` silently returns only the first
form instead of failing with `SchemeSyntaxError`. -/
theorem claimC2_counterexample :
    parse ["(", "a", ")", "(", "b", ")"] = .ok (.list [.str "a"])
    ∧ parse ["(", "a", ")", "(", "b", ")"] ≠ .error .schemeSyntaxError := by
  refine ⟨rfl, fun h => ?_⟩
  rw [show parse ["(", "a", ")", "(", "b", ")"] = .ok (.list [.str "a"])
      from rfl] at h
  exact Except.noConfusion h

/-- C2 (amended): `parse` fails with `SchemeSyntaxError` whenever the
token sequence has more than one token but does not both begin with `(`
and end with `)`, and whenever the `(` count differs from the `)` count;
but a sequence of several complete top-level forms that begins with `(`,
ends with `)` and is balanced — such as the tokens of `"(a) (b)"` — is
accepted, `parse` returning only the first form. -/
theorem claimC2_parseRejection :
    (∀ t : String, ∀ ts : List String, (t :: ts).length ≠ 1 →
      (t ≠ "(" ∨ (t :: ts).getLast (List.cons_ne_nil t ts) ≠ ")") →
      parse (t :: ts) = .error .schemeSyntaxError)
    ∧ (∀ t : String, ∀ ts : List String,
      (t :: ts).count "(" ≠ (t :: ts).count ")" →
      parse (t :: ts) = .error .schemeSyntaxError)
    ∧ parse ["(", "a", ")", "(", "b", ")"] = .ok (.list [.str "a"]) := by
  refine ⟨?_, ?_, rfl⟩
  · intro t ts hlen hform
    have hiv : isvalid (t :: ts) = .ok false := by
      simp only [isvalid]
      rw [if_pos ⟨hlen, hform⟩]
    unfold parse
    rw [hiv]
    rfl
  · intro t ts hcount
    by_cases hC : (t :: ts).length ≠ 1 ∧
        (t ≠ "(" ∨ (t :: ts).getLast (List.cons_ne_nil t ts) ≠ ")")
    · have hiv : isvalid (t :: ts) = .ok false := by
        simp only [isvalid]
        rw [if_pos hC]
      unfold parse
      rw [hiv]
      rfl
    · have hiv : isvalid (t :: ts) = .ok false := by
        simp only [isvalid]
        rw [if_neg hC]
        congr 1
        exact beq_eq_false_iff_ne.mpr hcount
      unfold parse
      rw [hiv]
      rfl

/-- Witness for C2 at a two-atom input and at an unbalanced input. -/
theorem claimC2_witness :
    parse ["a", "b"] = .error .schemeSyntaxError
    ∧ parse ["(", "+", "1", "2"] = .error .schemeSyntaxError :=
  ⟨claimC2_parseRejection.1 "a" ["b"] (by decide) (Or.inl (by decide)),
   claimC2_parseRejection.2.1 "(" ["+", "1", "2"] (by decide)⟩

/-- C8: special-form dispatch is decided by the textual head of a
compound before any evaluation or lookup of the head. First, for every
reserved keyword, evaluating a compound headed by it one step always
enters that keyword's branch (never the application path). Second, even
after `(define k 0)` re-binds each keyword `k` to the non-callable `0`
— under which application dispatch could only fail with
`SchemeEvaluationError` — the special-form rule still applies and
produces its usual result. -/
theorem claimC8_reservedKeywords (g : Nat) :
    (∀ (rest : List PyVal) (fid : Nat) (σ : State),
      evaluate (g + 1) (.list (.str "define" :: rest)) fid σ =
        defineBranchF (fun t f s => evaluate g t f s) rest fid σ)
    ∧ (∀ (rest : List PyVal) (fid : Nat) (σ : State),
      evaluate (g + 1) (.list (.str "cons" :: rest)) fid σ =
        consBranchF (fun t f s => evaluate g t f s) rest fid σ)
    ∧ (∀ (rest : List PyVal) (fid : Nat) (σ : State),
      evaluate (g + 1) (.list (.str "begin" :: rest)) fid σ =
        beginBranchF (fun t f s => evaluate g t f s) rest fid σ)
    ∧ (∀ (rest : List PyVal) (fid : Nat) (σ : State),
      evaluate (g + 1) (.list (.str "del" :: rest)) fid σ =
        deleteVariables rest fid σ)
    ∧ (∀ (rest : List PyVal) (fid : Nat) (σ : State),
      evaluate (g + 1) (.list (.str "let" :: rest)) fid σ =
        letBranchF (fun t f s => evaluate g t f s) rest fid σ)
    ∧ (∀ (rest : List PyVal) (fid : Nat) (σ : State),
      evaluate (g + 1) (.list (.str "set!" :: rest)) fid σ =
        setBranchF (fun t f s => evaluate g t f s) rest fid σ)
    ∧ (∀ (rest : List PyVal) (fid : Nat) (σ : State),
      evaluate (g + 1) (.list (.str "list" :: rest)) fid σ =
        createLinkedListF (fun t f s => evaluate g t f s) rest fid σ)
    ∧ (∀ (rest : List PyVal) (fid : Nat) (σ : State),
      evaluate (g + 1) (.list (.str "lambda" :: rest)) fid σ =
        lambdaBranch rest fid σ)
    ∧ (∀ (rest : List PyVal) (fid : Nat) (σ : State),
      evaluate (g + 1) (.list (.str "and" :: rest)) fid σ =
        evaluateAndF (fun t f s => evaluate g t f s) rest fid σ)
    ∧ (∀ (rest : List PyVal) (fid : Nat) (σ : State),
      evaluate (g + 1) (.list (.str "or" :: rest)) fid σ =
        evaluateOrF (fun t f s => evaluate g t f s) rest fid σ)
    ∧ (∀ (rest : List PyVal) (fid : Nat) (σ : State),
      evaluate (g + 1) (.list (.str "if" :: rest)) fid σ =
        ifBranchF (fun t f s => evaluate g t f s) rest fid σ)
    ∧ evaluate 10 (.list [.str "define", .str "define", .int 0]) 1 initialState =
        .ok (.int 0, rebound "define")
    ∧ evaluate 10 (.list [.str "define", .str "z", .int 7]) 1 (rebound "define") =
        .ok (.int 7, [⟨none, schemeBuiltins⟩,
          ⟨some 0, [("define", .int 0), ("z", .int 7)]⟩])
    ∧ evaluate 10 (.list [.str "define", .str "cons", .int 0]) 1 initialState =
        .ok (.int 0, rebound "cons")
    ∧ evaluate 10 (.list [.str "cons", .int 1, .int 2]) 1 (rebound "cons") =
        .ok (.pair (.int 1) (.int 2), rebound "cons")
    ∧ evaluate 10 (.list [.str "define", .str "begin", .int 0]) 1 initialState =
        .ok (.int 0, rebound "begin")
    ∧ evaluate 10 (.list [.str "begin", .int 4]) 1 (rebound "begin") =
        .ok (.int 4, rebound "begin")
    ∧ evaluate 10 (.list [.str "define", .str "del", .int 0]) 1 initialState =
        .ok (.int 0, rebound "del")
    ∧ evaluate 10 (.list [.str "del", .str "del"]) 1 (rebound "del") =
        .ok (.int 0, [⟨none, schemeBuiltins⟩, ⟨some 0, []⟩])
    ∧ evaluate 10 (.list [.str "define", .str "let", .int 0]) 1 initialState =
        .ok (.int 0, rebound "let")
    ∧ evaluate 10 (.list [.str "let", .list [.list [.str "a", .int 1]], .str "a"])
        1 (rebound "let") =
        .ok (.int 1, rebound "let" ++ [⟨some 1, [("a", .int 1)]⟩])
    ∧ evaluate 10 (.list [.str "define", .str "set!", .int 0]) 1 initialState =
        .ok (.int 0, rebound "set!")
    ∧ evaluate 10 (.list [.str "set!", .str "set!", .int 5]) 1 (rebound "set!") =
        .ok (.int 5, [⟨none, schemeBuiltins⟩, ⟨some 0, [("set!", .int 5)]⟩])
    ∧ evaluate 10 (.list [.str "define", .str "list", .int 0]) 1 initialState =
        .ok (.int 0, rebound "list")
    ∧ evaluate 10 (.list [.str "list", .int 1]) 1 (rebound "list") =
        .ok (.pair (.int 1) (.list []), rebound "list")
    ∧ evaluate 10 (.list [.str "define", .str "lambda", .int 0]) 1 initialState =
        .ok (.int 0, rebound "lambda")
    ∧ evaluate 10 (.list [.str "lambda", .list [.str "a"], .str "a"]) 1
        (rebound "lambda") =
        .ok (.closure (.list [.str "a"]) (.str "a") 1, rebound "lambda")
    ∧ evaluate 10 (.list [.str "define", .str "and", .int 0]) 1 initialState =
        .ok (.int 0, rebound "and")
    ∧ evaluate 10 (.list [.str "and"]) 1 (rebound "and") =
        .ok (.bool true, rebound "and")
    ∧ evaluate 10 (.list [.str "define", .str "or", .int 0]) 1 initialState =
        .ok (.int 0, rebound "or")
    ∧ evaluate 10 (.list [.str "or"]) 1 (rebound "or") =
        .ok (.bool false, rebound "or")
    ∧ evaluate 10 (.list [.str "define", .str "if", .int 0]) 1 initialState =
        .ok (.int 0, rebound "if")
    ∧ evaluate 10 (.list [.str "if", .int 1, .int 2, .int 3]) 1 (rebound "if") =
        .ok (.int 2, rebound "if") := by
  repeat' apply And.intro
  all_goals first
    | (intro rest fid σ; rfl)
    | rfl

/-- C6: invoking a closure whose parameter sequence is `ps` fails with
`SchemeEvaluationError` when the argument count differs from the
parameter count; otherwise it builds exactly one new frame whose parent
is the closure's captured defining frame `encFid` (the caller's frame id
does not occur in `Function.__call__` at all), binds the parameters
positionally via `create_variable_dict`, and evaluates the body there.
For distinct string parameter names the built dict is exactly the
positional name/argument pairing. -/
theorem exceptBindOk {α β : Type} (a : α) (f : α → Except Err β) :
    (Except.ok a : Except Err α) >>= f = f a := rfl

theorem exceptBindError {α β : Type} (e : Err) (f : α → Except Err β) :
    (Except.error e : Except Err α) >>= f = .error e := rfl

theorem claimC6_closureInvocation (g : Nat) (ps : List PyVal) (body : PyVal)
    (encFid : Nat) (args : List PyVal) (σ : State) :
    (args.length ≠ ps.length →
      applyClosureF (fun t f s => evaluate g t f s) (.list ps) body encFid args σ =
        .error .schemeEvaluationError)
    ∧ (args.length = ps.length →
      applyClosureF (fun t f s => evaluate g t f s) (.list ps) body encFid args σ =
        (do
          let d ← createVariableDict ps args []
          evaluate g body σ.length (σ ++ [⟨some encFid, d⟩])))
    ∧ (∀ names : List String, ps = names.map .str → names.Nodup →
        args.length = names.length →
        createVariableDict ps args [] = .ok (names.zip args)
        ∧ ∀ i : Nat, i < names.length →
            dictLookup (names.zip args) (names.getD i "") =
              some (args.getD i (.int 0))) := by
  refine ⟨?_, ?_, ?_⟩
  · intro h
    simp [applyClosureF, pyLen, exceptBindOk, h]
  · intro h
    simp [applyClosureF, pyLen, pyIter, exceptBindOk, h]
  · intro names hps hnd hlen
    subst hps
    constructor
    · have := createVariableDict_zip names args []
        (by simpa using hlen) (fun n _ => rfl) hnd
      simpa using this
    · intro i hi
      exact dictLookup_zip names args hnd (by simpa using hlen) i hi

/-- Witness for C6: a two-parameter closure applied to one argument
(arity failure) and to two arguments (one fresh frame parented at the
defining frame, positional bindings). -/
theorem claimC6_witness :
    applyClosureF (fun t f s => evaluate 5 t f s) (.list [.str "a", .str "b"])
        (.str "a") 1 [.int 7] initialState = .error .schemeEvaluationError
    ∧ applyClosureF (fun t f s => evaluate 5 t f s) (.list [.str "a", .str "b"])
        (.str "a") 1 [.int 7, .int 8] initialState =
        (do
          let d ← createVariableDict [.str "a", .str "b"] [.int 7, .int 8] []
          evaluate 5 (.str "a") initialState.length
            (initialState ++ [⟨some 1, d⟩]))
    ∧ createVariableDict [.str "a", .str "b"] [.int 7, .int 8] [] =
        .ok [("a", .int 7), ("b", .int 8)]
    ∧ dictLookup [("a", .int 7), ("b", .int 8)] "b" = some (.int 8) :=
  ⟨(claimC6_closureInvocation 5 [.str "a", .str "b"] (.str "a") 1 [.int 7]
      initialState).1 (by decide),
   (claimC6_closureInvocation 5 [.str "a", .str "b"] (.str "a") 1
      [.int 7, .int 8] initialState).2.1 (by decide),
   ((claimC6_closureInvocation 5 [.str "a", .str "b"] (.str "a") 1
      [.int 7, .int 8] initialState).2.2 ["a", "b"] rfl (by decide)
      (by decide)).1,
   ((claimC6_closureInvocation 5 [.str "a", .str "b"] (.str "a") 1
      [.int 7, .int 8] initialState).2.2 ["a", "b"] rfl (by decide)
      (by decide)).2 1 (by decide)⟩

/-- C7: a `let` with anything other than exactly two operand groups
fails with `SchemeEvaluationError`; otherwise every binding's value
expression is evaluated in the current frame `fid` itself (the store
threads through, but the bindings dict stays local until the body runs),
one new child frame of `fid` holding all the bindings is appended, and
the body is evaluated in it. Consequently, after `(define x 1)`,
`(let ((x 2)) x)` yields `2` while a subsequent bare `x` in the outer
frame still yields `1`. -/
theorem claimC7_letForm (g fid : Nat) (σ : State) :
    (∀ rest : List PyVal, rest.length ≠ 2 →
      evaluate (g + 1) (.list (.str "let" :: rest)) fid σ =
        .error .schemeEvaluationError)
    ∧ (∀ (bindings : List PyVal) (body : PyVal),
      evaluate (g + 1) (.list [.str "let", .list bindings, body]) fid σ =
        (do
          let (d, σ') ← evalBindingsF (fun t f s => evaluate g t f s)
            bindings fid σ []
          evaluate g body σ'.length (σ' ++ [⟨some fid, d⟩])))
    ∧ evaluate 10 (.list [.str "define", .str "x", .int 1]) 1 initialState =
        .ok (.int 1, [⟨none, schemeBuiltins⟩, ⟨some 0, [("x", .int 1)]⟩])
    ∧ evaluate 10 (.list [.str "let", .list [.list [.str "x", .int 2]], .str "x"])
        1 [⟨none, schemeBuiltins⟩, ⟨some 0, [("x", .int 1)]⟩] =
        .ok (.int 2, [⟨none, schemeBuiltins⟩, ⟨some 0, [("x", .int 1)]⟩,
          ⟨some 1, [("x", .int 2)]⟩])
    ∧ evaluate 10 (.str "x") 1
        [⟨none, schemeBuiltins⟩, ⟨some 0, [("x", .int 1)]⟩,
          ⟨some 1, [("x", .int 2)]⟩] =
        .ok (.int 1, [⟨none, schemeBuiltins⟩, ⟨some 0, [("x", .int 1)]⟩,
          ⟨some 1, [("x", .int 2)]⟩]) := by
  refine ⟨?_, ?_, rfl, rfl, rfl⟩
  · intro rest hlen
    show letBranchF (fun t f s => evaluate g t f s) rest fid σ = _
    match rest with
    | [] => rfl
    | [a] => rfl
    | [a, b] => exact absurd rfl hlen
    | a :: b :: c :: r => rfl
  · intro bindings body
    rfl

/-- Witness for C7 at a malformed `let` with a single operand group. -/
theorem claimC7_witness :
    evaluate 5 (.list [.str "let", .list []]) 1 initialState =
      .error .schemeEvaluationError :=
  (claimC7_letForm 4 1 initialState).1 [.list []] (by decide)

/-- C4 counterexample: `list-ref` on the proper list `(10 20 30)` with
the negative integer index `-1` crashes with the host-level
`AttributeError` (`ref_helper` walks off the chain), not the claimed
`SchemeEvaluationError`. -/
theorem claimC4_counterexample :
    listReference [concatenateList [.int 10, .int 20, .int 30], .int (-1)] =
      .error .hostAttributeError
    ∧ listReference [concatenateList [.int 10, .int 20, .int 30], .int (-1)] ≠
      .error .schemeEvaluationError := by
  refine ⟨rfl, fun h => ?_⟩
  rw [show listReference [concatenateList [.int 10, .int 20, .int 30], .int (-1)]
      = .error .hostAttributeError from rfl] at h
  injection h with h1
  exact absurd h1 (by decide)

/-- C4 (amended): on a proper list, `list-ref` returns the `i`-th element
for an integer index `0 <= i < length`, fails with
`SchemeEvaluationError` for an integer index `>= length`, but crashes
with the host-level `AttributeError` for every negative integer index;
a non-integer index (in the host's sense, where bools count as ints) on a
proper list fails with `SchemeEvaluationError`; a `Pair` whose tail is
not a proper chain permits only an index Python-equal to `0`; any other
non-list first operand, and any operand count other than two, fails with
`SchemeEvaluationError`. -/
theorem claimC4_listRefBounds (xs : List PyVal) :
    (∀ (i : Nat) (h : i < xs.length),
      listReference [concatenateList xs, .int i] = .ok (xs.get ⟨i, h⟩))
    ∧ (∀ i : Int, (xs.length : Int) ≤ i →
      listReference [concatenateList xs, .int i] = .error .schemeEvaluationError)
    ∧ (∀ i : Int, i < 0 →
      listReference [concatenateList xs, .int i] = .error .hostAttributeError)
    ∧ (∀ idx : PyVal, isInstInt idx = false →
      listReference [concatenateList xs, idx] = .error .schemeEvaluationError)
    ∧ (∀ c d idx : PyVal, properList d = false →
      listReference [.pair c d, idx] =
        (if pyEq idx (.int 0) then .ok c else .error .schemeEvaluationError))
    ∧ (∀ v idx : PyVal, properList v = false → (∀ a b, v ≠ .pair a b) →
      listReference [v, idx] = .error .schemeEvaluationError)
    ∧ (∀ args : List PyVal, args.length ≠ 2 →
      listReference args = .error .schemeEvaluationError) := by
  have hbig : ∀ idx : PyVal, listReference [concatenateList xs, idx] =
      listReferenceProper (concatenateList xs) idx :=
    fun idx => listReference_concatenateList xs idx
  refine ⟨?_, ?_, ?_, ?_, ?_, ?_, ?_⟩
  · intro i hi
    rw [hbig]
    simp only [listReferenceProper, properList_concatenateList,
      Bool.not_true, Bool.false_eq_true, if_false, asIntLike,
      lengthHelper_concatenateList xs, exceptBindOk]
    rw [if_neg (by exact_mod_cast Nat.not_le.mpr hi)]
    have := refHelper_hit xs 0 i hi
    simpa using this
  · intro i hle
    rw [hbig]
    simp only [listReferenceProper, properList_concatenateList,
      Bool.not_true, Bool.false_eq_true, if_false, asIntLike,
      lengthHelper_concatenateList xs, exceptBindOk]
    rw [if_pos hle]
  · intro i hneg
    rw [hbig]
    simp only [listReferenceProper, properList_concatenateList,
      Bool.not_true, Bool.false_eq_true, if_false, asIntLike,
      lengthHelper_concatenateList xs, exceptBindOk]
    rw [if_neg (by omega)]
    exact refHelper_low xs 0 i hneg
  · intro idx hidx
    rw [hbig]
    have hnone : asIntLike idx = none := by
      unfold isInstInt at hidx
      cases ho : asIntLike idx with
      | none => rfl
      | some k => rw [ho] at hidx; exact absurd hidx (by simp)
    simp only [listReferenceProper, properList_concatenateList,
      Bool.not_true, Bool.false_eq_true, if_false, hnone]
  · intro c d idx hd
    simp only [listReference, hd, Bool.not_false, if_true]
  · intro v idx hv hnp
    cases v with
    | pair a b => exact absurd rfl (hnp a b)
    | int n => simp [listReference, listReferenceProper, hv]
    | float q => simp [listReference, listReferenceProper, hv]
    | bool b => simp [listReference, listReferenceProper, hv]
    | str s => simp [listReference, listReferenceProper, hv]
    | list ys => simp [listReference, listReferenceProper, hv]
    | closure p b f => simp [listReference, listReferenceProper, hv]
    | builtin op => simp [listReference, listReferenceProper, hv]
  · intro args hlen
    match args with
    | [] => rfl
    | [a] => rfl
    | [a, b] => exact absurd rfl hlen
    | a :: b :: c :: r => rfl

/-- Witness for C4 on the list `(10 20 30)`: a hit at index `2`, the
out-of-bounds failure at `3`, the host crash at `-1`, a non-integer
index, the improper-pair index-`0` access, a non-list operand, and a
wrong arity. -/
theorem claimC4_witness :
    listReference [concatenateList [.int 10, .int 20, .int 30], .int 2] =
      .ok (.int 30)
    ∧ listReference [concatenateList [.int 10, .int 20, .int 30], .int 3] =
      .error .schemeEvaluationError
    ∧ listReference [concatenateList [.int 10, .int 20, .int 30], .int (-1)] =
      .error .hostAttributeError
    ∧ listReference [concatenateList [.int 10, .int 20, .int 30], .str "x"] =
      .error .schemeEvaluationError
    ∧ listReference [.pair (.int 5) (.int 6), .int 0] = .ok (.int 5)
    ∧ listReference [.int 5, .int 0] = .error .schemeEvaluationError
    ∧ listReference [concatenateList [.int 10]] = .error .schemeEvaluationError :=
  ⟨(claimC4_listRefBounds [.int 10, .int 20, .int 30]).1 2 (by decide),
   (claimC4_listRefBounds [.int 10, .int 20, .int 30]).2.1 3 (by decide),
   (claimC4_listRefBounds [.int 10, .int 20, .int 30]).2.2.1 (-1) (by decide),
   (claimC4_listRefBounds [.int 10, .int 20, .int 30]).2.2.2.1 (.str "x") rfl,
   by
     have := (claimC4_listRefBounds []).2.2.2.2.1 (.int 5) (.int 6) (.int 0) rfl
     simpa using this,
   (claimC4_listRefBounds []).2.2.2.2.2.1 (.int 5) (.int 0) rfl
     (fun a b h => PyVal.noConfusion h),
   (claimC4_listRefBounds [.int 10]).2.2.2.2.2.2 [concatenateList [.int 10]]
     (by decide)⟩

/-- Setting one store index leaves every other index unchanged. -/
theorem listSet_get?_ne {α : Type} (l : List α) (a : α) :
    ∀ (j i : Nat), i ≠ j → (l.set j a).get? i = l.get? i := by
  induction l with
  | nil => intro j i _; simp
  | cons x xs ih =>
    intro j i hne
    cases j with
    | zero =>
      cases i with
      | zero => exact absurd rfl hne
      | succ i' => simp [List.set]
    | succ j' =>
      cases i with
      | zero => simp [List.set]
      | succ i' =>
        simp only [List.set, List.get?]
        exact ih j' i' (fun hc => hne (by rw [hc]))

/-- C5: evaluating `(set! n e)` in frame `fid` first evaluates `e` in
`fid`, then runs `evaluate_set`, and returns the evaluated value.
`evaluate_set` overwrites the binding in the nearest frame of the
ancestor chain (starting at `fid` itself) that already contains the name
— the frame picked out by the spec-side search `specNearestBinder` — and
that single in-place `dictSet` leaves every other frame and every other
binding of that frame unchanged; when no frame in the chain binds the
name it fails with `SchemeNameError`, returning no state at all (so no
binding is created). -/
theorem claimC5_setBang (g fid : Nat) (σ : State) (s : String) (e : PyVal) :
    (evaluate (g + 1) (.list [.str "set!", .str s, e]) fid σ =
      (do
        let (v, σ') ← evaluate g e fid σ
        let σ'' ← evaluateSet (σ'.length + 1) (.str s) v fid σ'
        Except.ok (v, σ'')))
    ∧ (∀ v : PyVal, wfState σ = true → fid < σ.length →
        (∀ (j : Nat) (fr : PyFrame),
          specNearestBinder (σ.length + 1) σ fid s = some j →
          σ.get? j = some fr →
          evaluateSet (σ.length + 1) (.str s) v fid σ =
            .ok (σ.set j ⟨fr.parent, dictSet fr.vars s v⟩)
          ∧ (∀ i : Nat, i ≠ j →
              (σ.set j ⟨fr.parent, dictSet fr.vars s v⟩).get? i = σ.get? i)
          ∧ dictLookup (dictSet fr.vars s v) s = some v
          ∧ (∀ t : String, t ≠ s →
              dictLookup (dictSet fr.vars s v) t = dictLookup fr.vars t))
        ∧ (specNearestBinder (σ.length + 1) σ fid s = none →
          evaluateSet (σ.length + 1) (.str s) v fid σ =
            .error .schemeNameError)) := by
  constructor
  · rfl
  · intro v hwf hfid
    have heq := evaluateSet_eq_spec (σ.length + 1) σ fid s v hwf hfid
      (by omega)
    constructor
    · intro j fr hj hfr
      simp only [hj, hfr] at heq
      refine ⟨heq, fun i hij => listSet_get?_ne σ _ j i hij, ?_, ?_⟩
      · rw [dictLookup_dictSet]
        simp
      · intro t hts
        rw [dictLookup_dictSet]
        rw [if_neg (fun hc => hts hc.symm)]
    · intro hnone
      simp only [hnone] at heq
      exact heq

/-- Witness for C5: nested frames each binding `y`; `set!` from the inner
frame mutates only the inner binding, and an unbound name fails with
`SchemeNameError`. -/
theorem claimC5_witness :
    evaluateSet 3 (.str "y") (.int 5) 1
        [⟨none, [("y", .int 1)]⟩, ⟨some 0, [("y", .int 2)]⟩] =
      .ok [⟨none, [("y", .int 1)]⟩, ⟨some 0, [("y", .int 5)]⟩]
    ∧ evaluateSet 3 (.str "zz") (.int 5) 1
        [⟨none, [("y", .int 1)]⟩, ⟨some 0, [("y", .int 2)]⟩] =
      .error .schemeNameError :=
  ⟨((claimC5_setBang 1 1 [⟨none, [("y", .int 1)]⟩, ⟨some 0, [("y", .int 2)]⟩]
      "y" (.int 0)).2 (.int 5) rfl (by decide)).1 1
      ⟨some 0, [("y", .int 2)]⟩ rfl rfl |>.1,
   ((claimC5_setBang 1 1 [⟨none, [("y", .int 1)]⟩, ⟨some 0, [("y", .int 2)]⟩]
      "zz" (.int 0)).2 (.int 5) rfl (by decide)).2 rfl⟩

/-- `shiftVList` is the elementwise map of `shiftV`. -/
theorem shiftVList_map (n k : Nat) :
    ∀ xs : List PyVal, shiftVList n k xs = xs.map (shiftV n k) := by
  intro xs
  induction xs with
  | nil => rfl
  | cons x xs ih => simp [shiftVList, ih]

mutual
/-- The fresh-frame renaming is the identity on closure-free values. -/
theorem shiftV_closureFree (n k : Nat) :
    (v : PyVal) → closureFree v = true → shiftV n k v = v
  | .int _, _ => rfl
  | .float _, _ => rfl
  | .bool _, _ => rfl
  | .str _, _ => rfl
  | .builtin _, _ => rfl
  | .list xs, h => by
    rw [show shiftV n k (.list xs) = .list (shiftVList n k xs) from rfl]
    rw [shiftVList_closureFree n k xs h]
  | .pair a d, h => by
    rw [show closureFree (.pair a d) = (closureFree a && closureFree d) from rfl,
      Bool.and_eq_true] at h
    rw [show shiftV n k (.pair a d) = .pair (shiftV n k a) (shiftV n k d) from rfl]
    rw [shiftV_closureFree n k a h.1, shiftV_closureFree n k d h.2]
  | .closure p b f, h => by
    rw [show closureFree (.closure p b f) = false from rfl] at h
    exact absurd h (by simp)

/-- Elementwise form of `shiftV_closureFree`. -/
theorem shiftVList_closureFree (n k : Nat) :
    (xs : List PyVal) → closureFreeList xs = true → shiftVList n k xs = xs
  | [], _ => rfl
  | x :: xs, h => by
    rw [show closureFreeList (x :: xs) = (closureFree x && closureFreeList xs)
      from rfl, Bool.and_eq_true] at h
    rw [show shiftVList n k (x :: xs) = shiftV n k x :: shiftVList n k xs
      from rfl]
    rw [shiftV_closureFree n k x h.1, shiftVList_closureFree n k xs h.2]
end

mutual
/-- Goodness of a value is monotone in the store length. -/
theorem goodVal_mono {n m : Nat} (hnm : n ≤ m) :
    (v : PyVal) → goodVal n v = true → goodVal m v = true
  | .int _, _ => rfl
  | .float _, _ => rfl
  | .bool _, _ => rfl
  | .str _, _ => rfl
  | .builtin _, _ => rfl
  | .list xs, h => goodValList_mono hnm xs h
  | .pair a d, h => by
    rw [show goodVal n (.pair a d) = (goodVal n a && goodVal n d) from rfl,
      Bool.and_eq_true] at h
    rw [show goodVal m (.pair a d) = (goodVal m a && goodVal m d) from rfl,
      Bool.and_eq_true]
    exact ⟨goodVal_mono hnm a h.1, goodVal_mono hnm d h.2⟩
  | .closure p b f, h => by
    rw [show goodVal n (.closure p b f) =
      (decide (f < n) && closureFree p && closureFree b) from rfl] at h
    rw [show goodVal m (.closure p b f) =
      (decide (f < m) && closureFree p && closureFree b) from rfl]
    simp only [Bool.and_eq_true, decide_eq_true_eq] at h ⊢
    exact ⟨⟨Nat.lt_of_lt_of_le h.1.1 hnm, h.1.2⟩, h.2⟩

/-- Elementwise form of `goodVal_mono`. -/
theorem goodValList_mono {n m : Nat} (hnm : n ≤ m) :
    (xs : List PyVal) → goodValList n xs = true → goodValList m xs = true
  | [], _ => rfl
  | x :: xs, h => by
    rw [show goodValList n (x :: xs) = (goodVal n x && goodValList n xs)
      from rfl, Bool.and_eq_true] at h
    rw [show goodValList m (x :: xs) = (goodVal m x && goodValList m xs)
      from rfl, Bool.and_eq_true]
    exact ⟨goodVal_mono hnm x h.1, goodValList_mono hnm xs h.2⟩
end

mutual
/-- Closure-free values are good for any store length. -/
theorem goodVal_of_closureFree (n : Nat) :
    (v : PyVal) → closureFree v = true → goodVal n v = true
  | .int _, _ => rfl
  | .float _, _ => rfl
  | .bool _, _ => rfl
  | .str _, _ => rfl
  | .builtin _, _ => rfl
  | .list xs, h => goodValList_of_closureFree n xs h
  | .pair a d, h => by
    rw [show closureFree (.pair a d) = (closureFree a && closureFree d)
      from rfl, Bool.and_eq_true] at h
    rw [show goodVal n (.pair a d) = (goodVal n a && goodVal n d) from rfl,
      Bool.and_eq_true]
    exact ⟨goodVal_of_closureFree n a h.1, goodVal_of_closureFree n d h.2⟩
  | .closure p b f, h => by
    rw [show closureFree (.closure p b f) = false from rfl] at h
    exact absurd h (by simp)

/-- Elementwise form of `goodVal_of_closureFree`. -/
theorem goodValList_of_closureFree (n : Nat) :
    (xs : List PyVal) → closureFreeList xs = true → goodValList n xs = true
  | [], _ => rfl
  | x :: xs, h => by
    rw [show closureFreeList (x :: xs) = (closureFree x && closureFreeList xs)
      from rfl, Bool.and_eq_true] at h
    rw [show goodValList n (x :: xs) = (goodVal n x && goodValList n xs)
      from rfl, Bool.and_eq_true]
    exact ⟨goodVal_of_closureFree n x h.1, goodValList_of_closureFree n xs h.2⟩
end

/-- Truthiness is invariant under the fresh-frame renaming. -/
theorem pyTruthy_shiftV (n k : Nat) :
    ∀ v : PyVal, pyTruthy (shiftV n k v) = pyTruthy v
  | .int _ => rfl
  | .float _ => rfl
  | .bool _ => rfl
  | .str _ => rfl
  | .list [] => rfl
  | .list (_ :: _) => rfl
  | .pair _ _ => rfl
  | .closure _ _ _ => rfl
  | .builtin _ => rfl

/-- The numeric view is invariant under the fresh-frame renaming. -/
theorem asNum_shiftV (n k : Nat) :
    ∀ v : PyVal, asNum (shiftV n k v) = asNum v
  | .int _ => rfl
  | .float _ => rfl
  | .bool _ => rfl
  | .str _ => rfl
  | .list _ => rfl
  | .pair _ _ => rfl
  | .closure _ _ _ => rfl
  | .builtin _ => rfl

/-- The integer view is invariant under the fresh-frame renaming. -/
theorem asIntLike_shiftV (n k : Nat) :
    ∀ v : PyVal, asIntLike (shiftV n k v) = asIntLike v
  | .int _ => rfl
  | .float _ => rfl
  | .bool _ => rfl
  | .str _ => rfl
  | .list _ => rfl
  | .pair _ _ => rfl
  | .closure _ _ _ => rfl
  | .builtin _ => rfl
mutual
/-- Python `==` is invariant under the fresh-frame renaming: numbers,
strings and lists compare by content, and `Pair`/closure/builtin
objects compare by identity (modelled `false`), none of which the
renaming changes. -/
theorem pyEq_shiftV (n k : Nat) :
    (a b : PyVal) → pyEq (shiftV n k a) (shiftV n k b) = pyEq a b
  | .int _, .int _ => rfl
  | .int _, .float _ => rfl
  | .int _, .bool _ => rfl
  | .int _, .str _ => rfl
  | .int _, .list _ => rfl
  | .int _, .pair _ _ => rfl
  | .int _, .closure _ _ _ => rfl
  | .int _, .builtin _ => rfl
  | .float _, .int _ => rfl
  | .float _, .float _ => rfl
  | .float _, .bool _ => rfl
  | .float _, .str _ => rfl
  | .float _, .list _ => rfl
  | .float _, .pair _ _ => rfl
  | .float _, .closure _ _ _ => rfl
  | .float _, .builtin _ => rfl
  | .bool _, .int _ => rfl
  | .bool _, .float _ => rfl
  | .bool _, .bool _ => rfl
  | .bool _, .str _ => rfl
  | .bool _, .list _ => rfl
  | .bool _, .pair _ _ => rfl
  | .bool _, .closure _ _ _ => rfl
  | .bool _, .builtin _ => rfl
  | .str _, .int _ => rfl
  | .str _, .float _ => rfl
  | .str _, .bool _ => rfl
  | .str _, .str _ => rfl
  | .str _, .list _ => rfl
  | .str _, .pair _ _ => rfl
  | .str _, .closure _ _ _ => rfl
  | .str _, .builtin _ => rfl
  | .list _, .int _ => rfl
  | .list _, .float _ => rfl
  | .list _, .bool _ => rfl
  | .list _, .str _ => rfl
  | .list xs₁, .list xs₂ => pyEqList_shiftV n k xs₁ xs₂
  | .list _, .pair _ _ => rfl
  | .list _, .closure _ _ _ => rfl
  | .list _, .builtin _ => rfl
  | .pair _ _, .int _ => rfl
  | .pair _ _, .float _ => rfl
  | .pair _ _, .bool _ => rfl
  | .pair _ _, .str _ => rfl
  | .pair _ _, .list _ => rfl
  | .pair _ _, .pair _ _ => rfl
  | .pair _ _, .closure _ _ _ => rfl
  | .pair _ _, .builtin _ => rfl
  | .closure _ _ _, .int _ => rfl
  | .closure _ _ _, .float _ => rfl
  | .closure _ _ _, .bool _ => rfl
  | .closure _ _ _, .str _ => rfl
  | .closure _ _ _, .list _ => rfl
  | .closure _ _ _, .pair _ _ => rfl
  | .closure _ _ _, .closure _ _ _ => rfl
  | .closure _ _ _, .builtin _ => rfl
  | .builtin _, .int _ => rfl
  | .builtin _, .float _ => rfl
  | .builtin _, .bool _ => rfl
  | .builtin _, .str _ => rfl
  | .builtin _, .list _ => rfl
  | .builtin _, .pair _ _ => rfl
  | .builtin _, .closure _ _ _ => rfl
  | .builtin _, .builtin _ => rfl

/-- Elementwise form of `pyEq_shiftV`. -/
theorem pyEqList_shiftV (n k : Nat) :
    (xs ys : List PyVal) →
      pyEqList (shiftVList n k xs) (shiftVList n k ys) = pyEqList xs ys
  | [], [] => rfl
  | [], _ :: _ => rfl
  | _ :: _, [] => rfl
  | x :: xs, y :: ys => by
    show (pyEq (shiftV n k x) (shiftV n k y) &&
        pyEqList (shiftVList n k xs) (shiftVList n k ys)) = _
    rw [pyEq_shiftV n k x y, pyEqList_shiftV n k xs ys]
    rfl
end

/-- `len` is invariant under the fresh-frame renaming. -/
theorem pyLen_shiftV (n k : Nat) :
    ∀ v : PyVal, pyLen (shiftV n k v) = pyLen v
  | .int _ => rfl
  | .float _ => rfl
  | .bool _ => rfl
  | .str _ => rfl
  | .list xs => by
    show Except.ok (shiftVList n k xs).length = _
    rw [shiftVList_map, List.length_map]
    rfl
  | .pair _ _ => rfl
  | .closure _ _ _ => rfl
  | .builtin _ => rfl

/-- Renaming a list of one-character strings changes nothing. -/
theorem shiftVList_charStrs (n k : Nat) :
    ∀ l : List Char,
      shiftVList n k (l.map fun c => PyVal.str (String.mk [c])) =
        l.map fun c => PyVal.str (String.mk [c]) := by
  intro l
  induction l with
  | nil => rfl
  | cons c l ih => simp [shiftVList, shiftV, ih]

/-- Iteration commutes with the fresh-frame renaming. -/
theorem pyIter_shiftV (n k : Nat) :
    ∀ v : PyVal, pyIter (shiftV n k v) = (pyIter v).map (shiftVList n k)
  | .int _ => rfl
  | .float _ => rfl
  | .bool _ => rfl
  | .str s => by
    show Except.ok (s.toList.map fun c => PyVal.str (String.mk [c])) = _
    rw [show (pyIter (.str s)).map (shiftVList n k) =
      .ok (shiftVList n k (s.toList.map fun c => PyVal.str (String.mk [c])))
      from rfl]
    rw [shiftVList_charStrs]
  | .list _ => rfl
  | .pair _ _ => rfl
  | .closure _ _ _ => rfl
  | .builtin _ => rfl

/-- Subscripting commutes with the fresh-frame renaming. -/
theorem pyIndex_shiftV (n k : Nat) :
    ∀ (v : PyVal) (i : Nat),
      pyIndex (shiftV n k v) i = (pyIndex v i).map (shiftV n k)
  | .int _, _ => rfl
  | .float _, _ => rfl
  | .bool _, _ => rfl
  | .str s, i => by
    rw [show pyIndex (shiftV n k (.str s)) i =
      (match s.toList.get? i with
       | some c => Except.ok (PyVal.str (String.mk [c]))
       | none => Except.error Err.hostIndexError) from rfl]
    rw [show pyIndex (PyVal.str s) i =
      (match s.toList.get? i with
       | some c => Except.ok (PyVal.str (String.mk [c]))
       | none => Except.error Err.hostIndexError) from rfl]
    cases s.toList.get? i <;> rfl
  | .list xs, i => by
    rw [show pyIndex (shiftV n k (.list xs)) i =
      (match (shiftVList n k xs).get? i with
       | some v => Except.ok v
       | none => Except.error Err.hostIndexError) from rfl]
    rw [show pyIndex (PyVal.list xs) i =
      (match xs.get? i with
       | some v => Except.ok v
       | none => Except.error Err.hostIndexError) from rfl]
    rw [shiftVList_map, List.get?_map]
    cases xs.get? i <;> rfl
  | .pair _ _, _ => rfl
  | .closure _ _ _, _ => rfl
  | .builtin _, _ => rfl

/-- The name-viability check is invariant under the fresh-frame
renaming. -/
theorem variableViability_shiftV (n k : Nat) :
    ∀ v : PyVal, variableViability (shiftV n k v) = variableViability v
  | .int _ => rfl
  | .float _ => rfl
  | .bool _ => rfl
  | .str _ => rfl
  | .list _ => rfl
  | .pair _ _ => rfl
  | .closure _ _ _ => rfl
  | .builtin _ => rfl

/-- Dict lookup commutes with the fresh-frame renaming. -/
theorem dictLookup_shiftVars (n k : Nat) (d : List (String × PyVal))
    (s : String) :
    dictLookup (shiftVars n k d) s = (dictLookup d s).map (shiftV n k) := by
  induction d with
  | nil => rfl
  | cons kv rest ih =>
    obtain ⟨k', v'⟩ := kv
    by_cases h : k' = s <;> simp [shiftVars, dictLookup, h, ih]

/-- Dict membership is invariant under the fresh-frame renaming. -/
theorem dictContains_shiftVars (n k : Nat) (d : List (String × PyVal))
    (s : String) :
    dictContains (shiftVars n k d) s = dictContains d s := by
  unfold dictContains
  rw [dictLookup_shiftVars]
  cases dictLookup d s <;> rfl

/-- Dict store commutes with the fresh-frame renaming. -/
theorem dictSet_shiftVars (n k : Nat) (d : List (String × PyVal))
    (s : String) (v : PyVal) :
    dictSet (shiftVars n k d) s (shiftV n k v) =
      shiftVars n k (dictSet d s v) := by
  induction d with
  | nil => rfl
  | cons kv rest ih =>
    obtain ⟨k', v'⟩ := kv
    by_cases h : k' = s <;> simp [shiftVars, dictSet, h, ih]

/-- Dict deletion commutes with the fresh-frame renaming. -/
theorem dictRemove_shiftVars (n k : Nat) (d : List (String × PyVal))
    (s : String) :
    dictRemove (shiftVars n k d) s = shiftVars n k (dictRemove d s) := by
  induction d with
  | nil => rfl
  | cons kv rest ih =>
    obtain ⟨k', v'⟩ := kv
    by_cases h : k' = s <;> simp [shiftVars, dictRemove, h, ih]

/-- The arbitrary-key dict store commutes with the fresh-frame
renaming. -/
theorem dictSetPy_shiftV (n k : Nat) (d : List (String × PyVal)) :
    ∀ (key v : PyVal),
      dictSetPy (shiftVars n k d) (shiftV n k key) (shiftV n k v) =
        shiftVars n k (dictSetPy d key v)
  | .int _, _ => rfl
  | .float _, _ => rfl
  | .bool _, _ => rfl
  | .str s, v => dictSet_shiftVars n k d s v
  | .list _, _ => rfl
  | .pair _ _, _ => rfl
  | .closure _ _ _, _ => rfl
  | .builtin _, _ => rfl

/-- Storing a good value into a good dict keeps it good. -/
theorem goodVars_dictSet {m : Nat} {d : List (String × PyVal)} {v : PyVal}
    (hd : goodVars m d = true) (hv : goodVal m v = true) (s : String) :
    goodVars m (dictSet d s v) = true := by
  induction d with
  | nil => simp [dictSet, goodVars, hv]
  | cons kv rest ih =>
    obtain ⟨k', v'⟩ := kv
    rw [show goodVars m ((k', v') :: rest) = (goodVal m v' && goodVars m rest)
      from rfl, Bool.and_eq_true] at hd
    by_cases h : k' = s
    · simp [dictSet, h, goodVars, hv, hd.2]
    · simp only [dictSet, h, if_false]
      rw [show goodVars m ((k', v') :: dictSet rest s v) =
        (goodVal m v' && goodVars m (dictSet rest s v)) from rfl]
      rw [hd.1, ih hd.2]
      rfl

/-- Removing a key from a good dict keeps it good. -/
theorem goodVars_dictRemove {m : Nat} {d : List (String × PyVal)}
    (hd : goodVars m d = true) (s : String) :
    goodVars m (dictRemove d s) = true := by
  induction d with
  | nil => rfl
  | cons kv rest ih =>
    obtain ⟨k', v'⟩ := kv
    rw [show goodVars m ((k', v') :: rest) = (goodVal m v' && goodVars m rest)
      from rfl, Bool.and_eq_true] at hd
    by_cases h : k' = s
    · simpa [dictRemove, h] using hd.2
    · simp only [dictRemove, h, if_false]
      rw [show goodVars m ((k', v') :: dictRemove rest s) =
        (goodVal m v' && goodVars m (dictRemove rest s)) from rfl]
      rw [hd.1, ih hd.2]
      rfl

/-- A value looked up in a good dict is good. -/
theorem goodVars_lookup {m : Nat} {d : List (String × PyVal)} {s : String}
    {v : PyVal} (hd : goodVars m d = true) (h : dictLookup d s = some v) :
    goodVal m v = true := by
  induction d with
  | nil => exact Option.noConfusion h
  | cons kv rest ih =>
    obtain ⟨k', v'⟩ := kv
    rw [show goodVars m ((k', v') :: rest) = (goodVal m v' && goodVars m rest)
      from rfl, Bool.and_eq_true] at hd
    by_cases hk : k' = s
    · rw [show dictLookup ((k', v') :: rest) s =
        (if k' = s then some v' else dictLookup rest s) from rfl,
        if_pos hk] at h
      cases h
      exact hd.1
    · rw [show dictLookup ((k', v') :: rest) s =
        (if k' = s then some v' else dictLookup rest s) from rfl,
        if_neg hk] at h
      exact ih hd.2 h

/-- Goodness of a dict is monotone in the store length. -/
theorem goodVars_mono {n m : Nat} (hnm : n ≤ m) {d : List (String × PyVal)}
    (hd : goodVars n d = true) : goodVars m d = true := by
  induction d with
  | nil => rfl
  | cons kv rest ih =>
    obtain ⟨k', v'⟩ := kv
    rw [show goodVars n ((k', v') :: rest) = (goodVal n v' && goodVars n rest)
      from rfl, Bool.and_eq_true] at hd
    rw [show goodVars m ((k', v') :: rest) = (goodVal m v' && goodVars m rest)
      from rfl]
    rw [goodVal_mono hnm v' hd.1, ih hd.2]
    rfl

/-- The arbitrary-key store into a good dict keeps it good. -/
theorem goodVars_dictSetPy {m : Nat} {d : List (String × PyVal)} {v : PyVal}
    (hd : goodVars m d = true) (hv : goodVal m v = true) :
    ∀ key : PyVal, goodVars m (dictSetPy d key v) = true
  | .int _ => hd
  | .float _ => hd
  | .bool _ => hd
  | .str s => goodVars_dictSet hd hv s
  | .list _ => hd
  | .pair _ _ => hd
  | .closure _ _ _ => hd
  | .builtin _ => hd

/-- Destructuring a closure-free cons cell of the tree. -/
theorem closureFree_cons {x : PyVal} {xs : List PyVal}
    (h : closureFreeList (x :: xs) = true) :
    closureFree x = true ∧ closureFreeList xs = true := by
  rw [show closureFreeList (x :: xs) = (closureFree x && closureFreeList xs)
    from rfl, Bool.and_eq_true] at h
  exact h

/-- A compound tree is closure-free exactly when its elements are. -/
theorem closureFree_list {xs : List PyVal} :
    closureFree (.list xs) = closureFreeList xs := rfl

/-- Dropping elements preserves closure-freeness. -/
theorem closureFreeList_drop (m : Nat) :
    ∀ xs : List PyVal, closureFreeList xs = true →
      closureFreeList (xs.drop m) = true := by
  induction m with
  | zero => intro xs h; simpa using h
  | succ m ih =>
    intro xs h
    cases xs with
    | nil => rfl
    | cons x xs => exact ih xs (closureFree_cons h).2

/-- Dropping the last element preserves closure-freeness. -/
theorem closureFreeList_dropLast :
    ∀ xs : List PyVal, closureFreeList xs = true →
      closureFreeList xs.dropLast = true := by
  intro xs
  induction xs with
  | nil => intro h; exact h
  | cons x xs ih =>
    intro h
    cases xs with
    | nil => rfl
    | cons y ys =>
      have h' := closureFree_cons h
      rw [List.dropLast_cons₂]
      rw [show closureFreeList (x :: (y :: ys).dropLast) =
        (closureFree x && closureFreeList (y :: ys).dropLast) from rfl]
      rw [h'.1, ih h'.2]
      rfl

/-- The last element of a closure-free sequence is closure-free. -/
theorem closureFree_lastOf :
    ∀ (xs : List PyVal) (x : PyVal), closureFree x = true →
      closureFreeList xs = true → closureFree (lastOf x xs) = true := by
  intro xs
  induction xs with
  | nil => intro x hx _; exact hx
  | cons y ys ih =>
    intro x _ hl
    have h' := closureFree_cons hl
    exact ih y h'.1 h'.2

/-- Python `+` commutes with the fresh-frame renaming (its results are
numbers, which the renaming fixes). -/
theorem pyAdd_shiftV (n k : Nat) (a b : PyVal) :
    pyAdd (shiftV n k a) (shiftV n k b) = (pyAdd a b).map (shiftV n k) := by
  cases a <;> cases b <;> rfl

/-- Python binary `-` commutes with the fresh-frame renaming. -/
theorem pySub_shiftV (n k : Nat) (a b : PyVal) :
    pySub (shiftV n k a) (shiftV n k b) = (pySub a b).map (shiftV n k) := by
  cases a <;> cases b <;> rfl

/-- Python `*` commutes with the fresh-frame renaming. -/
theorem pyMul_shiftV (n k : Nat) (a b : PyVal) :
    pyMul (shiftV n k a) (shiftV n k b) = (pyMul a b).map (shiftV n k) := by
  cases a <;> cases b <;> rfl

/-- Python unary `-` commutes with the fresh-frame renaming. -/
theorem pyNeg_shiftV (n k : Nat) (a : PyVal) :
    pyNeg (shiftV n k a) = (pyNeg a).map (shiftV n k) := by
  cases a <;> rfl

/-- Python `/` commutes with the fresh-frame renaming. -/
theorem pyDiv_shiftV (n k : Nat) (a b : PyVal) :
    pyDiv (shiftV n k a) (shiftV n k b) = (pyDiv a b).map (shiftV n k) := by
  unfold pyDiv
  rw [asNum_shiftV, asNum_shiftV]
  cases asNum a with
  | none => cases asNum b <;> rfl
  | some x =>
    cases asNum b with
    | none => rfl
    | some y =>
      show (if y = 0 then Except.error Err.hostZeroDivisionError
          else Except.ok (PyVal.float (x / y))) =
        Except.map (shiftV n k)
          (if y = 0 then Except.error Err.hostZeroDivisionError
            else Except.ok (PyVal.float (x / y)))
      by_cases hy : y = 0
      · rw [if_pos hy]; rfl
      · rw [if_neg hy]; rfl

/-- Python `<=` is invariant under the fresh-frame renaming. -/
theorem pyLe_shiftV (n k : Nat) (a b : PyVal) :
    pyLe (shiftV n k a) (shiftV n k b) = pyLe a b := by
  cases a <;> cases b <;> rfl

/-- Python `<` is invariant under the fresh-frame renaming. -/
theorem pyLt_shiftV (n k : Nat) (a b : PyVal) :
    pyLt (shiftV n k a) (shiftV n k b) = pyLt a b := by
  cases a <;> cases b <;> rfl

/-- Python `>=` is invariant under the fresh-frame renaming. -/
theorem pyGe_shiftV (n k : Nat) (a b : PyVal) :
    pyGe (shiftV n k a) (shiftV n k b) = pyGe a b :=
  pyLe_shiftV n k b a

/-- Python `>` is invariant under the fresh-frame renaming. -/
theorem pyGt_shiftV (n k : Nat) (a b : PyVal) :
    pyGt (shiftV n k a) (shiftV n k b) = pyGt a b :=
  pyLt_shiftV n k b a

/-- A fold of a renaming-commuting binary operation commutes with the
renaming. -/
theorem foldlM_shiftV (n k : Nat) (f : PyVal → PyVal → Except Err PyVal)
    (hf : ∀ a b, f (shiftV n k a) (shiftV n k b) = (f a b).map (shiftV n k)) :
    ∀ (xs : List PyVal) (acc : PyVal),
      List.foldlM f (shiftV n k acc) (shiftVList n k xs) =
        (List.foldlM f acc xs).map (shiftV n k) := by
  intro xs
  induction xs with
  | nil => intro acc; rfl
  | cons x xs ih =>
    intro acc
    rw [show List.foldlM f (shiftV n k acc) (shiftVList n k (x :: xs)) =
      (f (shiftV n k acc) (shiftV n k x) >>=
        fun a => List.foldlM f a (shiftVList n k xs)) from rfl]
    rw [show List.foldlM f acc (x :: xs) =
      (f acc x >>= fun a => List.foldlM f a xs) from rfl]
    rw [hf acc x]
    cases h : f acc x with
    | error e => rfl
    | ok c =>
      show List.foldlM f (shiftV n k c) (shiftVList n k xs) = _
      exact ih c

/-- The builtin `+` commutes with the fresh-frame renaming. -/
theorem pySum_shiftV (n k : Nat) (args : List PyVal) :
    pySum (shiftVList n k args) = (pySum args).map (shiftV n k) :=
  foldlM_shiftV n k pyAdd (pyAdd_shiftV n k) args (.int 0)

/-- The builtin `-` commutes with the fresh-frame renaming. -/
theorem subtract_shiftV (n k : Nat) :
    ∀ args : List PyVal,
      subtract (shiftVList n k args) = (subtract args).map (shiftV n k)
  | [] => rfl
  | [a] => by
    show pyNeg (shiftV n k a) = _
    rw [pyNeg_shiftV]
    rfl
  | a :: b :: rest => by
    rw [show subtract (shiftVList n k (a :: b :: rest)) =
      (pySum (shiftVList n k (b :: rest)) >>=
        fun s => pySub (shiftV n k a) s) from rfl]
    rw [show subtract (a :: b :: rest) =
      (pySum (b :: rest) >>= fun s => pySub a s) from rfl]
    rw [pySum_shiftV]
    cases h : pySum (b :: rest) with
    | error e => rfl
    | ok s =>
      show pySub (shiftV n k a) (shiftV n k s) = _
      rw [pySub_shiftV]
      rfl

/-- The builtin `*` commutes with the fresh-frame renaming. -/
theorem multiply_shiftV (n k : Nat) :
    ∀ args : List PyVal,
      multiply (shiftVList n k args) = (multiply args).map (shiftV n k)
  | [] => rfl
  | a :: rest => foldlM_shiftV n k pyMul (pyMul_shiftV n k) rest a

/-- The builtin `/` commutes with the fresh-frame renaming. -/
theorem divide_shiftV (n k : Nat) :
    ∀ args : List PyVal,
      divide (shiftVList n k args) = (divide args).map (shiftV n k)
  | [] => rfl
  | [a] => by
    show pyDiv (.int 1) (shiftV n k a) = _
    rw [show pyDiv (PyVal.int 1) (shiftV n k a) =
      pyDiv (shiftV n k (.int 1)) (shiftV n k a) from rfl, pyDiv_shiftV]
    rfl
  | a :: b :: rest => foldlM_shiftV n k pyDiv (pyDiv_shiftV n k) (b :: rest) a

/-- The elementwise equality test of the builtin `equal?` is invariant
under the fresh-frame renaming. -/
theorem all_pyEq_shiftV (n k : Nat) (a : PyVal) :
    ∀ rest : List PyVal,
      (shiftVList n k rest).all (pyEq (shiftV n k a)) = rest.all (pyEq a) := by
  intro rest
  induction rest with
  | nil => rfl
  | cons x xs ih =>
    rw [show shiftVList n k (x :: xs) = shiftV n k x :: shiftVList n k xs
      from rfl]
    rw [List.all_cons, List.all_cons, pyEq_shiftV n k a x, ih]

/-- The builtin `equal?` commutes with the fresh-frame renaming. -/
theorem equal_shiftV (n k : Nat) :
    ∀ args : List PyVal,
      equal (shiftVList n k args) = (equal args).map (shiftV n k)
  | [] => rfl
  | a :: rest => by
    rw [show equal (shiftVList n k (a :: rest)) =
      Except.ok (PyVal.bool ((shiftVList n k rest).all (pyEq (shiftV n k a))))
      from rfl]
    rw [all_pyEq_shiftV]
    rfl

/-- A chained comparison with a renaming-invariant violation test is
invariant under the fresh-frame renaming. -/
theorem chainRel_shiftV (n k : Nat)
    (viol : PyVal → PyVal → Except Err Bool)
    (hv : ∀ a b, viol (shiftV n k a) (shiftV n k b) = viol a b) :
    ∀ args : List PyVal,
      chainRel viol (shiftVList n k args) = (chainRel viol args).map (shiftV n k)
  | [] => rfl
  | [_] => rfl
  | a :: b :: rest => by
    rw [show chainRel viol (shiftVList n k (a :: b :: rest)) =
      (viol (shiftV n k a) (shiftV n k b) >>= fun v =>
        if v then .ok (.bool false)
        else chainRel viol (shiftV n k b :: shiftVList n k rest)) from rfl]
    rw [show chainRel viol (a :: b :: rest) =
      (viol a b >>= fun v =>
        if v then .ok (.bool false) else chainRel viol (b :: rest)) from rfl]
    rw [hv a b]
    cases h : viol a b with
    | error e => rfl
    | ok v =>
      cases v with
      | true => rfl
      | false =>
        show chainRel viol (shiftVList n k (b :: rest)) = _
        exact chainRel_shiftV n k viol hv (b :: rest)

/-- The builtin `>` commutes with the fresh-frame renaming. -/
theorem greater_shiftV (n k : Nat) (args : List PyVal) :
    greater (shiftVList n k args) = (greater args).map (shiftV n k) :=
  chainRel_shiftV n k pyLe (pyLe_shiftV n k) args

/-- The builtin `>=` commutes with the fresh-frame renaming. -/
theorem greaterEqual_shiftV (n k : Nat) (args : List PyVal) :
    greaterEqual (shiftVList n k args) = (greaterEqual args).map (shiftV n k) :=
  chainRel_shiftV n k pyLt (pyLt_shiftV n k) args

/-- The builtin `<` commutes with the fresh-frame renaming. -/
theorem less_shiftV (n k : Nat) (args : List PyVal) :
    less (shiftVList n k args) = (less args).map (shiftV n k) :=
  chainRel_shiftV n k pyGe (pyGe_shiftV n k) args

/-- The builtin `<=` commutes with the fresh-frame renaming. -/
theorem lessEqual_shiftV (n k : Nat) (args : List PyVal) :
    lessEqual (shiftVList n k args) = (lessEqual args).map (shiftV n k) :=
  chainRel_shiftV n k pyGt (pyGt_shiftV n k) args

/-- The builtin `not` commutes with the fresh-frame renaming. -/
theorem negate_shiftV (n k : Nat) :
    ∀ args : List PyVal,
      negate (shiftVList n k args) = (negate args).map (shiftV n k)
  | [] => rfl
  | [a] => by
    rw [show negate (shiftVList n k [a]) =
      Except.ok (PyVal.bool (!pyTruthy (shiftV n k a))) from rfl]
    rw [pyTruthy_shiftV]
    rfl
  | _ :: _ :: _ => rfl

/-- The builtin `cons` commutes with the fresh-frame renaming. -/
theorem createCon_shiftV (n k : Nat) :
    ∀ args : List PyVal,
      createCon (shiftVList n k args) = (createCon args).map (shiftV n k)
  | [] => rfl
  | [_] => rfl
  | [_, _] => rfl
  | _ :: _ :: _ :: _ => rfl

/-- The builtin `car` commutes with the fresh-frame renaming. -/
theorem getCar_shiftV (n k : Nat) :
    ∀ args : List PyVal,
      getCar (shiftVList n k args) = (getCar args).map (shiftV n k)
  | [] => rfl
  | v :: rest => by cases v <;> cases rest <;> rfl

/-- The builtin `cdr` commutes with the fresh-frame renaming. -/
theorem getCdr_shiftV (n k : Nat) :
    ∀ args : List PyVal,
      getCdr (shiftVList n k args) = (getCdr args).map (shiftV n k)
  | [] => rfl
  | v :: rest => by cases v <;> cases rest <;> rfl

/-- The proper-list test is invariant under the fresh-frame renaming. -/
theorem properList_shiftV (n k : Nat) :
    ∀ v : PyVal, properList (shiftV n k v) = properList v
  | .int _ => rfl
  | .float _ => rfl
  | .bool _ => rfl
  | .str _ => rfl
  | .list [] => rfl
  | .list (_ :: _) => rfl
  | .pair _ d => properList_shiftV n k d
  | .closure _ _ _ => rfl
  | .builtin _ => rfl

/-- The builtin `list?` is invariant under the fresh-frame renaming. -/
theorem typeCheckList_shiftV (n k : Nat) :
    ∀ args : List PyVal, typeCheckList (shiftVList n k args) = typeCheckList args
  | [] => rfl
  | [v] => by
    show Except.ok (properList (shiftV n k v)) = _
    rw [properList_shiftV]
    rfl
  | _ :: _ :: _ => rfl

/-- The counting loop of `length` is invariant under the fresh-frame
renaming. -/
theorem lengthHelper_shiftV (n k : Nat) :
    ∀ v : PyVal, lengthHelper (shiftV n k v) = lengthHelper v
  | .int _ => rfl
  | .float _ => rfl
  | .bool _ => rfl
  | .str _ => rfl
  | .list [] => rfl
  | .list (_ :: _) => rfl
  | .pair _ d => by
    rw [show lengthHelper (shiftV n k (.pair _ d)) =
      (lengthHelper (shiftV n k d) >>= fun m => Except.ok (m + 1)) from rfl]
    rw [lengthHelper_shiftV n k d]
    rfl
  | .closure _ _ _ => rfl
  | .builtin _ => rfl

/-- The builtin `length` commutes with the fresh-frame renaming. -/
theorem listLength_shiftV (n k : Nat) :
    ∀ args : List PyVal,
      listLength (shiftVList n k args) = (listLength args).map (shiftV n k)
  | [] => rfl
  | [v] => by
    rw [show listLength (shiftVList n k [v]) =
      (Except.ok (properList (shiftV n k v)) >>= fun b =>
        if !b then Except.error Err.schemeEvaluationError
        else (lengthHelper (shiftV n k v) >>= fun m =>
          Except.ok (PyVal.int m))) from rfl]
    rw [properList_shiftV, lengthHelper_shiftV]
    rw [show listLength [v] =
      (Except.ok (properList v) >>= fun b =>
        if !b then Except.error Err.schemeEvaluationError
        else (lengthHelper v >>= fun m => Except.ok (PyVal.int m))) from rfl]
    cases hp : properList v with
    | false => rfl
    | true => cases hl : lengthHelper v <;> rfl
  | _ :: _ :: _ => rfl

/-- The `ref_helper` loop commutes with the fresh-frame renaming. -/
theorem refHelper_shiftV (n k : Nat) (index : PyVal) :
    ∀ (v : PyVal) (i : Int),
      refHelper (shiftV n k index) (shiftV n k v) i =
        (refHelper index v i).map (shiftV n k)
  | .int _, _ => rfl
  | .float _, _ => rfl
  | .bool _, _ => rfl
  | .str _, _ => rfl
  | .list _, _ => rfl
  | .closure _ _ _, _ => rfl
  | .builtin _, _ => rfl
  | .pair c d, i => by
    rw [show refHelper (shiftV n k index) (shiftV n k (PyVal.pair c d)) i =
      (if pyEq (PyVal.int i) (shiftV n k index) then Except.ok (shiftV n k c)
        else refHelper (shiftV n k index) (shiftV n k d) (i + 1)) from rfl]
    rw [show refHelper index (PyVal.pair c d) i =
      (if pyEq (PyVal.int i) index then Except.ok c
        else refHelper index d (i + 1)) from rfl]
    rw [show pyEq (PyVal.int i) (shiftV n k index) = pyEq (PyVal.int i) index
      from pyEq_shiftV n k (PyVal.int i) index]
    cases h : pyEq (PyVal.int i) index with
    | true => rfl
    | false => exact refHelper_shiftV n k index d (i + 1)

/-- The proper-list path of `list_reference` commutes with the fresh-frame
renaming. -/
theorem listReferenceProper_shiftV (n k : Nat) (v index : PyVal) :
    listReferenceProper (shiftV n k v) (shiftV n k index) =
      (listReferenceProper v index).map (shiftV n k) := by
  unfold listReferenceProper
  rw [properList_shiftV, asIntLike_shiftV, lengthHelper_shiftV]
  cases hp : properList v with
  | false => rfl
  | true =>
    cases hi : asIntLike index with
    | none => rfl
    | some i =>
      cases hl : lengthHelper v with
      | error e => rfl
      | ok m =>
        show (if (m : Int) ≤ i then Except.error Err.schemeEvaluationError
            else refHelper (shiftV n k index) (shiftV n k v) 0) =
          Except.map (shiftV n k)
            (if (m : Int) ≤ i then Except.error Err.schemeEvaluationError
              else refHelper index v 0)
        by_cases hle : (m : Int) ≤ i
        · rw [if_pos hle, if_pos hle]; rfl
        · rw [if_neg hle, if_neg hle]
          exact refHelper_shiftV n k index v 0

/-- The builtin `list-ref` commutes with the fresh-frame renaming. -/
theorem listReference_shiftV (n k : Nat) :
    ∀ args : List PyVal,
      listReference (shiftVList n k args) = (listReference args).map (shiftV n k)
  | [] => rfl
  | [_] => rfl
  | _ :: _ :: _ :: _ => rfl
  | [ll, index] => by
    cases ll with
    | int m => exact listReferenceProper_shiftV n k (PyVal.int m) index
    | float q => exact listReferenceProper_shiftV n k (PyVal.float q) index
    | bool b => exact listReferenceProper_shiftV n k (PyVal.bool b) index
    | str s => exact listReferenceProper_shiftV n k (PyVal.str s) index
    | list l => exact listReferenceProper_shiftV n k (PyVal.list l) index
    | closure p b f => exact listReferenceProper_shiftV n k (PyVal.closure p b f) index
    | builtin o => exact listReferenceProper_shiftV n k (PyVal.builtin o) index
    | pair c d =>
      rw [show listReference (shiftVList n k [PyVal.pair c d, index]) =
        (if !properList (shiftV n k d) then
          (if pyEq (shiftV n k index) (PyVal.int 0) then Except.ok (shiftV n k c)
            else Except.error Err.schemeEvaluationError)
          else listReferenceProper (shiftV n k (PyVal.pair c d))
            (shiftV n k index)) from rfl]
      rw [show listReference [PyVal.pair c d, index] =
        (if !properList d then
          (if pyEq index (PyVal.int 0) then Except.ok c
            else Except.error Err.schemeEvaluationError)
          else listReferenceProper (PyVal.pair c d) index) from rfl]
      rw [properList_shiftV]
      rw [show pyEq (shiftV n k index) (PyVal.int 0) = pyEq index (PyVal.int 0)
        from pyEq_shiftV n k index (PyVal.int 0)]
      cases hp : properList d with
      | false => cases he : pyEq index (PyVal.int 0) <;> rfl
      | true => exact listReferenceProper_shiftV n k (PyVal.pair c d) index

/-- Renaming the frames of an `Except` result whose payload is an empty
extraction commutes with the empty map. -/
theorem solo_shift_atom (n k : Nat) (c : Bool) :
    (if c then (Except.error Err.hostAttributeError : Except Err (List PyVal))
      else Except.ok []) =
    Except.map (shiftVList n k)
      (if c then Except.error Err.hostAttributeError else Except.ok []) := by
  cases c <;> rfl

/-- The element-extraction walk of `append` commutes with the fresh-frame
renaming. -/
theorem soloListExtraction_shiftV (n k : Nat) :
    ∀ v : PyVal,
      soloListExtraction (shiftV n k v) =
        (soloListExtraction v).map (shiftVList n k)
  | .int m => solo_shift_atom n k (pyTruthy (.int m))
  | .float q => solo_shift_atom n k (pyTruthy (.float q))
  | .bool b => solo_shift_atom n k (pyTruthy (.bool b))
  | .str s => solo_shift_atom n k (pyTruthy (.str s))
  | .list [] => rfl
  | .list (_ :: _) => rfl
  | .closure _ _ _ => rfl
  | .builtin _ => rfl
  | .pair c d => by
    rw [show soloListExtraction (shiftV n k (PyVal.pair c d)) =
      (soloListExtraction (shiftV n k d) >>= fun rest =>
        Except.ok (shiftV n k c :: rest)) from rfl]
    rw [show soloListExtraction (PyVal.pair c d) =
      (soloListExtraction d >>= fun rest => Except.ok (c :: rest)) from rfl]
    rw [soloListExtraction_shiftV n k d]
    cases h : soloListExtraction d with
    | error e => rfl
    | ok l => rfl

/-- Rebuilding a Pair chain commutes with the fresh-frame renaming. -/
theorem concatenateList_shiftV (n k : Nat) :
    ∀ xs : List PyVal,
      concatenateList (shiftVList n k xs) = shiftV n k (concatenateList xs)
  | [] => rfl
  | x :: xs => by
    rw [show concatenateList (shiftVList n k (x :: xs)) =
      PyVal.pair (shiftV n k x) (concatenateList (shiftVList n k xs)) from rfl]
    rw [concatenateList_shiftV n k xs]
    rfl

/-- `all_lists` is invariant under the fresh-frame renaming. -/
theorem allLists_shiftV (n k : Nat) :
    ∀ args : List PyVal, allLists (shiftVList n k args) = allLists args
  | [] => rfl
  | x :: xs => by
    rw [show allLists (shiftVList n k (x :: xs)) =
      (properList (shiftV n k x) && allLists (shiftVList n k xs)) from rfl]
    rw [properList_shiftV, allLists_shiftV n k xs]
    rfl

/-- The extraction loop over all operands of `append` commutes with the
fresh-frame renaming. -/
theorem mapM_loop_solo_shiftV (n k : Nat) :
    ∀ (args : List PyVal) (acc : List (List PyVal)),
      List.mapM.loop soloListExtraction (shiftVList n k args)
          (acc.map (List.map (shiftV n k))) =
        (List.mapM.loop soloListExtraction args acc).map
          (List.map (List.map (shiftV n k)))
  | [], acc => by
    show Except.ok ((acc.map (List.map (shiftV n k))).reverse) =
      Except.map (List.map (List.map (shiftV n k))) (Except.ok acc.reverse)
    rw [show Except.map (List.map (List.map (shiftV n k))) (Except.ok acc.reverse) =
      Except.ok (acc.reverse.map (List.map (shiftV n k))) from rfl]
    rw [List.reverse_map]
  | x :: xs, acc => by
    rw [show List.mapM.loop soloListExtraction (shiftVList n k (x :: xs))
        (acc.map (List.map (shiftV n k))) =
      (soloListExtraction (shiftV n k x) >>= fun l =>
        List.mapM.loop soloListExtraction (shiftVList n k xs)
          (l :: acc.map (List.map (shiftV n k)))) from rfl]
    rw [show List.mapM.loop soloListExtraction (x :: xs) acc =
      (soloListExtraction x >>= fun l =>
        List.mapM.loop soloListExtraction xs (l :: acc)) from rfl]
    rw [soloListExtraction_shiftV]
    cases h : soloListExtraction x with
    | error e => rfl
    | ok l =>
      show List.mapM.loop soloListExtraction (shiftVList n k xs)
          (shiftVList n k l :: acc.map (List.map (shiftV n k))) = _
      rw [show shiftVList n k l :: acc.map (List.map (shiftV n k)) =
        (l :: acc).map (List.map (shiftV n k)) from by
          rw [List.map_cons, shiftVList_map]]
      exact mapM_loop_solo_shiftV n k xs (l :: acc)

/-- `mapM` of the extraction commutes with the fresh-frame renaming. -/
theorem mapM_solo_shiftV (n k : Nat) (args : List PyVal) :
    (shiftVList n k args).mapM soloListExtraction =
      (args.mapM soloListExtraction).map (List.map (List.map (shiftV n k))) :=
  mapM_loop_solo_shiftV n k args []

/-- Flattening renamed parts is the renaming of the flattening. -/
theorem flatten_map_shiftV (n k : Nat) :
    ∀ parts : List (List PyVal),
      (parts.map (List.map (shiftV n k))).flatten = shiftVList n k parts.flatten
  | [] => rfl
  | p :: ps => by
    rw [List.map_cons, List.flatten_cons, List.flatten_cons,
      flatten_map_shiftV n k ps]
    rw [shiftVList_map, shiftVList_map, List.map_append]

/-- The builtin `append` commutes with the fresh-frame renaming. -/
theorem append_shiftV (n k : Nat) (args : List PyVal) :
    append (shiftVList n k args) = (append args).map (shiftV n k) := by
  unfold append
  rw [allLists_shiftV]
  cases ha : allLists args with
  | false => rfl
  | true =>
    rw [mapM_solo_shiftV]
    cases hm : args.mapM soloListExtraction with
    | error e => rfl
    | ok parts =>
      show Except.ok (concatenateList (parts.map (List.map (shiftV n k))).flatten) =
        Except.map (shiftV n k) (Except.ok (concatenateList parts.flatten))
      rw [flatten_map_shiftV, concatenateList_shiftV]
      rfl

/-- Every builtin commutes with the fresh-frame renaming: renaming the
arguments renames the result. -/
theorem applyBuiltin_shiftV (n k : Nat) (op : BOp) (args : List PyVal) :
    applyBuiltin op (shiftVList n k args) =
      (applyBuiltin op args).map (shiftV n k) := by
  cases op with
  | add => exact pySum_shiftV n k args
  | sub => exact subtract_shiftV n k args
  | mul => exact multiply_shiftV n k args
  | div => exact divide_shiftV n k args
  | eqB => exact equal_shiftV n k args
  | gt => exact greater_shiftV n k args
  | ge => exact greaterEqual_shiftV n k args
  | lt => exact less_shiftV n k args
  | le => exact lessEqual_shiftV n k args
  | notB => exact negate_shiftV n k args
  | carB => exact getCar_shiftV n k args
  | cdrB => exact getCdr_shiftV n k args
  | consB => exact createCon_shiftV n k args
  | lenB => exact listLength_shiftV n k args
  | listRefB => exact listReference_shiftV n k args
  | appendB => exact append_shiftV n k args
  | listQ =>
    rw [show applyBuiltin BOp.listQ (shiftVList n k args) =
      (typeCheckList (shiftVList n k args) >>= fun b =>
        Except.ok (PyVal.bool b)) from rfl]
    rw [show applyBuiltin BOp.listQ args =
      (typeCheckList args >>= fun b => Except.ok (PyVal.bool b)) from rfl]
    rw [typeCheckList_shiftV]
    cases h : typeCheckList args with
    | error e => rfl
    | ok b => rfl

/-- A successful Python `+` yields a number, good for any store. -/
theorem pyAdd_good {m : Nat} {a b v : PyVal} (h : pyAdd a b = Except.ok v) :
    goodVal m v = true := by
  unfold pyAdd at h
  repeat' split at h
  all_goals first
    | exact Except.noConfusion h
    | (injection h with h'; subst h'; rfl)

/-- A successful Python binary `-` yields a number. -/
theorem pySub_good {m : Nat} {a b v : PyVal} (h : pySub a b = Except.ok v) :
    goodVal m v = true := by
  unfold pySub at h
  repeat' split at h
  all_goals first
    | exact Except.noConfusion h
    | (injection h with h'; subst h'; rfl)

/-- A successful Python `*` yields a number. -/
theorem pyMul_good {m : Nat} {a b v : PyVal} (h : pyMul a b = Except.ok v) :
    goodVal m v = true := by
  unfold pyMul at h
  repeat' split at h
  all_goals first
    | exact Except.noConfusion h
    | (injection h with h'; subst h'; rfl)

/-- A successful Python unary `-` yields a number. -/
theorem pyNeg_good {m : Nat} {a v : PyVal} (h : pyNeg a = Except.ok v) :
    goodVal m v = true := by
  unfold pyNeg at h
  repeat' split at h
  all_goals first
    | exact Except.noConfusion h
    | (injection h with h'; subst h'; rfl)

/-- A successful Python `/` yields a float. -/
theorem pyDiv_good {m : Nat} {a b v : PyVal} (h : pyDiv a b = Except.ok v) :
    goodVal m v = true := by
  unfold pyDiv at h
  repeat' split at h
  all_goals first
    | exact Except.noConfusion h
    | (injection h with h'; subst h'; rfl)

/-- A fold of a good-result-producing operation from a good accumulator
produces a good result. -/
theorem foldlM_good {m : Nat} (f : PyVal → PyVal → Except Err PyVal)
    (hf : ∀ a b v, f a b = Except.ok v → goodVal m v = true) :
    ∀ (xs : List PyVal) (acc : PyVal), goodVal m acc = true →
      ∀ v, List.foldlM f acc xs = Except.ok v → goodVal m v = true
  | [], acc, hacc, v, h => by
    rw [show List.foldlM f acc ([] : List PyVal) = Except.ok acc from rfl] at h
    injection h with h'
    subst h'
    exact hacc
  | x :: xs, acc, hacc, v, h => by
    rw [show List.foldlM f acc (x :: xs) =
      (f acc x >>= fun a => List.foldlM f a xs) from rfl] at h
    cases hfx : f acc x with
    | error e => rw [hfx] at h; exact Except.noConfusion h
    | ok c =>
      rw [hfx] at h
      exact foldlM_good f hf xs c (hf acc x c hfx) v h

/-- A successful builtin `+` yields a good value. -/
theorem pySum_good {m : Nat} {args : List PyVal} {v : PyVal}
    (h : pySum args = Except.ok v) : goodVal m v = true :=
  foldlM_good pyAdd (fun _ _ _ hw => pyAdd_good hw) args (.int 0) rfl v h

/-- A successful builtin `-` yields a good value. -/
theorem subtract_good {m : Nat} :
    ∀ (args : List PyVal) (v : PyVal),
      subtract args = Except.ok v → goodVal m v = true
  | [], _, h => Except.noConfusion h
  | [a], v, h => pyNeg_good h
  | a :: b :: rest, v, h => by
    rw [show subtract (a :: b :: rest) =
      (pySum (b :: rest) >>= fun s => pySub a s) from rfl] at h
    cases hs : pySum (b :: rest) with
    | error e => rw [hs] at h; exact Except.noConfusion h
    | ok s => rw [hs] at h; exact pySub_good h

/-- A successful builtin `*` yields a good value (it can return its first
argument unchanged, so the arguments must be good). -/
theorem multiply_good {m : Nat} :
    ∀ (args : List PyVal) (v : PyVal), goodValList m args = true →
      multiply args = Except.ok v → goodVal m v = true
  | [], _, _, h => Except.noConfusion h
  | a :: rest, v, hargs, h => by
    rw [show goodValList m (a :: rest) = (goodVal m a && goodValList m rest)
      from rfl, Bool.and_eq_true] at hargs
    exact foldlM_good pyMul (fun _ _ _ hw => pyMul_good hw) rest a hargs.1 v h

/-- A successful builtin `/` yields a good value. -/
theorem divide_good {m : Nat} :
    ∀ (args : List PyVal) (v : PyVal), goodValList m args = true →
      divide args = Except.ok v → goodVal m v = true
  | [], _, _, h => Except.noConfusion h
  | [a], v, _, h => pyDiv_good h
  | a :: b :: rest, v, hargs, h => by
    rw [show goodValList m (a :: b :: rest) =
      (goodVal m a && goodValList m (b :: rest)) from rfl,
      Bool.and_eq_true] at hargs
    exact foldlM_good pyDiv (fun _ _ _ hw => pyDiv_good hw) (b :: rest) a
      hargs.1 v h

/-- A successful builtin `equal?` yields a bool. -/
theorem equal_good {m : Nat} :
    ∀ (args : List PyVal) (v : PyVal),
      equal args = Except.ok v → goodVal m v = true
  | [], v, h => by injection h with h'; subst h'; rfl
  | a :: rest, v, h => by injection h with h'; subst h'; rfl

/-- A successful chained comparison yields a bool. -/
theorem chainRel_good {m : Nat} (viol : PyVal → PyVal → Except Err Bool) :
    ∀ (args : List PyVal) (v : PyVal),
      chainRel viol args = Except.ok v → goodVal m v = true
  | [], v, h => by injection h with h'; subst h'; rfl
  | [_], v, h => by injection h with h'; subst h'; rfl
  | a :: b :: rest, v, h => by
    rw [show chainRel viol (a :: b :: rest) =
      (viol a b >>= fun x =>
        if x then Except.ok (PyVal.bool false)
        else chainRel viol (b :: rest)) from rfl] at h
    cases hv : viol a b with
    | error e => rw [hv] at h; exact Except.noConfusion h
    | ok x =>
      rw [hv] at h
      cases x with
      | true =>
        have h2 : Except.ok (PyVal.bool false) = Except.ok v := h
        injection h2 with h'
        subst h'
        rfl
      | false => exact chainRel_good viol (b :: rest) v h

/-- A successful builtin `not` yields a bool. -/
theorem negate_good {m : Nat} :
    ∀ (args : List PyVal) (v : PyVal),
      negate args = Except.ok v → goodVal m v = true
  | [], _, h => Except.noConfusion h
  | [a], v, h => by injection h with h'; subst h'; rfl
  | _ :: _ :: _, _, h => Except.noConfusion h

/-- A successful builtin `cons` of good arguments yields a good pair. -/
theorem createCon_good {m : Nat} :
    ∀ (args : List PyVal) (v : PyVal), goodValList m args = true →
      createCon args = Except.ok v → goodVal m v = true
  | [a, b], v, hargs, h => by
    injection h with h'
    subst h'
    rw [show goodValList m [a, b] = (goodVal m a && (goodVal m b && true))
      from rfl, Bool.and_eq_true, Bool.and_eq_true] at hargs
    rw [show goodVal m (PyVal.pair a b) = (goodVal m a && goodVal m b) from rfl,
      Bool.and_eq_true]
    exact ⟨hargs.1, hargs.2.1⟩
  | [], _, _, h => Except.noConfusion h
  | [_], _, _, h => Except.noConfusion h
  | _ :: _ :: _ :: _, _, _, h => Except.noConfusion h

/-- A successful builtin `car` of good arguments yields a good value. -/
theorem getCar_good {m : Nat} :
    ∀ (args : List PyVal) (v : PyVal), goodValList m args = true →
      getCar args = Except.ok v → goodVal m v = true
  | [.pair c d], v, hargs, h => by
    injection h with h'
    subst h'
    rw [show goodValList m [PyVal.pair c d] =
      ((goodVal m c && goodVal m d) && true) from rfl,
      Bool.and_eq_true, Bool.and_eq_true] at hargs
    exact hargs.1.1
  | [], _, _, h => Except.noConfusion h
  | [.int _], _, _, h => Except.noConfusion h
  | [.float _], _, _, h => Except.noConfusion h
  | [.bool _], _, _, h => Except.noConfusion h
  | [.str _], _, _, h => Except.noConfusion h
  | [.list _], _, _, h => Except.noConfusion h
  | [.closure _ _ _], _, _, h => Except.noConfusion h
  | [.builtin _], _, _, h => Except.noConfusion h
  | x :: _ :: _, _, _, h => by cases x <;> exact Except.noConfusion h

/-- A successful builtin `cdr` of good arguments yields a good value. -/
theorem getCdr_good {m : Nat} :
    ∀ (args : List PyVal) (v : PyVal), goodValList m args = true →
      getCdr args = Except.ok v → goodVal m v = true
  | [.pair c d], v, hargs, h => by
    injection h with h'
    subst h'
    rw [show goodValList m [PyVal.pair c d] =
      ((goodVal m c && goodVal m d) && true) from rfl,
      Bool.and_eq_true, Bool.and_eq_true] at hargs
    exact hargs.1.2
  | [], _, _, h => Except.noConfusion h
  | [.int _], _, _, h => Except.noConfusion h
  | [.float _], _, _, h => Except.noConfusion h
  | [.bool _], _, _, h => Except.noConfusion h
  | [.str _], _, _, h => Except.noConfusion h
  | [.list _], _, _, h => Except.noConfusion h
  | [.closure _ _ _], _, _, h => Except.noConfusion h
  | [.builtin _], _, _, h => Except.noConfusion h
  | x :: _ :: _, _, _, h => by cases x <;> exact Except.noConfusion h

/-- A successful builtin `length` yields an int. -/
theorem listLength_good {m : Nat} :
    ∀ (args : List PyVal) (v : PyVal),
      listLength args = Except.ok v → goodVal m v = true
  | [], _, h => Except.noConfusion h
  | [w], v, h => by
    rw [show listLength [w] =
      (Except.ok (properList w) >>= fun b =>
        if !b then Except.error Err.schemeEvaluationError
        else (lengthHelper w >>= fun x => Except.ok (PyVal.int x)))
      from rfl] at h
    cases hp : properList w with
    | false => rw [hp] at h; exact Except.noConfusion h
    | true =>
      rw [hp] at h
      cases hl : lengthHelper w with
      | error e => rw [hl] at h; exact Except.noConfusion h
      | ok x =>
        rw [hl] at h
        have h2 : Except.ok (PyVal.int x) = Except.ok v := h
        injection h2 with h'
        subst h'
        rfl
  | _ :: _ :: _, _, h => Except.noConfusion h

/-- `ref_helper` on a good chain returns a good element. -/
theorem refHelper_good {m : Nat} (index : PyVal) :
    ∀ (w : PyVal) (i : Int) (v : PyVal), goodVal m w = true →
      refHelper index w i = Except.ok v → goodVal m v = true
  | .pair c d, i, v, hw, h => by
    rw [show refHelper index (PyVal.pair c d) i =
      (if pyEq (PyVal.int i) index then Except.ok c
        else refHelper index d (i + 1)) from rfl] at h
    rw [show goodVal m (PyVal.pair c d) = (goodVal m c && goodVal m d) from rfl,
      Bool.and_eq_true] at hw
    by_cases he : pyEq (PyVal.int i) index = true
    · rw [if_pos he] at h
      injection h with h'
      subst h'
      exact hw.1
    · rw [if_neg he] at h
      exact refHelper_good index d (i + 1) v hw.2 h
  | .int _, _, _, _, h => Except.noConfusion h
  | .float _, _, _, _, h => Except.noConfusion h
  | .bool _, _, _, _, h => Except.noConfusion h
  | .str _, _, _, _, h => Except.noConfusion h
  | .list _, _, _, _, h => Except.noConfusion h
  | .closure _ _ _, _, _, _, h => Except.noConfusion h
  | .builtin _, _, _, _, h => Except.noConfusion h

/-- The proper-list path of `list-ref` on a good value returns a good
value. -/
theorem listReferenceProper_good {m : Nat} {w index v : PyVal}
    (hw : goodVal m w = true)
    (h : listReferenceProper w index = Except.ok v) : goodVal m v = true := by
  unfold listReferenceProper at h
  cases hp : properList w with
  | false => rw [hp] at h; exact Except.noConfusion h
  | true =>
    rw [hp] at h
    cases hi : asIntLike index with
    | none => rw [hi] at h; exact Except.noConfusion h
    | some i =>
      rw [hi] at h
      cases hl : lengthHelper w with
      | error e => rw [hl] at h; exact Except.noConfusion h
      | ok x =>
        rw [hl] at h
        have h2 : (if (x : Int) ≤ i then Except.error Err.schemeEvaluationError
            else refHelper index w 0) = Except.ok v := h
        by_cases hle : (x : Int) ≤ i
        · rw [if_pos hle] at h2; exact Except.noConfusion h2
        · rw [if_neg hle] at h2
          exact refHelper_good index w 0 v hw h2

/-- A successful builtin `list-ref` of good arguments yields a good
value. -/
theorem listReference_good {m : Nat} :
    ∀ (args : List PyVal) (v : PyVal), goodValList m args = true →
      listReference args = Except.ok v → goodVal m v = true
  | [ll, index], v, hargs, h => by
    have hll : goodVal m ll = true := by
      rw [show goodValList m [ll, index] =
        (goodVal m ll && (goodVal m index && true)) from rfl,
        Bool.and_eq_true] at hargs
      exact hargs.1
    cases ll with
    | pair c d =>
      rw [show listReference [PyVal.pair c d, index] =
        (if !properList d then
          (if pyEq index (PyVal.int 0) then Except.ok c
            else Except.error Err.schemeEvaluationError)
          else listReferenceProper (PyVal.pair c d) index) from rfl] at h
      by_cases hp : (!properList d) = true
      · by_cases he : pyEq index (PyVal.int 0) = true
        · rw [if_pos hp, if_pos he] at h
          injection h with h'
          subst h'
          rw [show goodVal m (PyVal.pair c d) = (goodVal m c && goodVal m d)
            from rfl, Bool.and_eq_true] at hll
          exact hll.1
        · rw [if_pos hp, if_neg he] at h
          exact Except.noConfusion h
      · rw [if_neg hp] at h
        exact listReferenceProper_good hll h
    | int mm => exact listReferenceProper_good hll h
    | float q => exact listReferenceProper_good hll h
    | bool b => exact listReferenceProper_good hll h
    | str s => exact listReferenceProper_good hll h
    | list l => exact listReferenceProper_good hll h
    | closure p b f => exact listReferenceProper_good hll h
    | builtin o => exact listReferenceProper_good hll h
  | [], _, _, h => Except.noConfusion h
  | [_], _, _, h => Except.noConfusion h
  | _ :: _ :: _ :: _, _, _, h => Except.noConfusion h

/-- A successful element extraction preserves any empty result. -/
theorem solo_good_atom {m : Nat} {l : List PyVal} (c : Bool)
    (h : (if c = true then
        (Except.error Err.hostAttributeError : Except Err (List PyVal))
      else Except.ok []) = Except.ok l) : goodValList m l = true := by
  cases c with
  | true => exact Except.noConfusion h
  | false =>
    injection h with h'
    subst h'
    rfl

/-- The element-extraction walk over a good chain yields good elements. -/
theorem soloListExtraction_good {m : Nat} :
    ∀ (w : PyVal) (l : List PyVal), goodVal m w = true →
      soloListExtraction w = Except.ok l → goodValList m l = true
  | .pair c d, l, hw, h => by
    rw [show soloListExtraction (PyVal.pair c d) =
      (soloListExtraction d >>= fun rest => Except.ok (c :: rest))
      from rfl] at h
    rw [show goodVal m (PyVal.pair c d) = (goodVal m c && goodVal m d) from rfl,
      Bool.and_eq_true] at hw
    cases hs : soloListExtraction d with
    | error e => rw [hs] at h; exact Except.noConfusion h
    | ok rest =>
      rw [hs] at h
      have h2 : Except.ok (c :: rest) = Except.ok l := h
      injection h2 with h'
      subst h'
      rw [show goodValList m (c :: rest) = (goodVal m c && goodValList m rest)
        from rfl, Bool.and_eq_true]
      exact ⟨hw.1, soloListExtraction_good d rest hw.2 hs⟩
  | .int mm, l, _, h => solo_good_atom (pyTruthy (.int mm)) h
  | .float q, l, _, h => solo_good_atom (pyTruthy (.float q)) h
  | .bool b, l, _, h => solo_good_atom (pyTruthy (.bool b)) h
  | .str s, l, _, h => solo_good_atom (pyTruthy (.str s)) h
  | .list xs, l, _, h => solo_good_atom (pyTruthy (.list xs)) h
  | .closure p b f, l, _, h => solo_good_atom (pyTruthy (.closure p b f)) h
  | .builtin o, l, _, h => solo_good_atom (pyTruthy (.builtin o)) h

/-- Goodness of values is preserved by list concatenation. -/
theorem goodValList_append {m : Nat} :
    ∀ (a b : List PyVal), goodValList m a = true → goodValList m b = true →
      goodValList m (a ++ b) = true
  | [], b, _, hb => hb
  | x :: xs, b, ha, hb => by
    rw [show goodValList m (x :: xs) = (goodVal m x && goodValList m xs)
      from rfl, Bool.and_eq_true] at ha
    rw [show (x :: xs) ++ b = x :: (xs ++ b) from rfl]
    rw [show goodValList m (x :: (xs ++ b)) =
      (goodVal m x && goodValList m (xs ++ b)) from rfl, Bool.and_eq_true]
    exact ⟨ha.1, goodValList_append xs b ha.2 hb⟩

/-- Flattening lists of good values yields good values. -/
theorem goodValList_flatten {m : Nat} :
    ∀ (parts : List (List PyVal)),
      (∀ p, p ∈ parts → goodValList m p = true) →
      goodValList m parts.flatten = true
  | [], _ => rfl
  | p :: ps, hall => by
    rw [List.flatten_cons]
    exact goodValList_append p ps.flatten (hall p (List.mem_cons_self p ps))
      (goodValList_flatten ps fun q hq => hall q (List.mem_cons_of_mem p hq))

/-- Rebuilding a chain from good elements yields a good value. -/
theorem concatenateList_good {m : Nat} :
    ∀ (xs : List PyVal), goodValList m xs = true →
      goodVal m (concatenateList xs) = true
  | [], _ => rfl
  | x :: xs, hall => by
    rw [show goodValList m (x :: xs) = (goodVal m x && goodValList m xs)
      from rfl, Bool.and_eq_true] at hall
    rw [show concatenateList (x :: xs) = PyVal.pair x (concatenateList xs)
      from rfl]
    rw [show goodVal m (PyVal.pair x (concatenateList xs)) =
      (goodVal m x && goodVal m (concatenateList xs)) from rfl,
      Bool.and_eq_true]
    exact ⟨hall.1, concatenateList_good xs hall.2⟩

/-- The extraction loop of `append` over good arguments returns good
element lists. -/
theorem mapM_loop_solo_good {m : Nat} :
    ∀ (args : List PyVal) (acc parts : List (List PyVal)),
      goodValList m args = true →
      (∀ p, p ∈ acc → goodValList m p = true) →
      List.mapM.loop soloListExtraction args acc = Except.ok parts →
      ∀ p, p ∈ parts → goodValList m p = true
  | [], acc, parts, _, hacc, h, p, hp => by
    rw [show List.mapM.loop soloListExtraction ([] : List PyVal) acc =
      Except.ok acc.reverse from rfl] at h
    injection h with h'
    subst h'
    exact hacc p (List.mem_reverse.1 hp)
  | x :: xs, acc, parts, hargs, hacc, h, p, hp => by
    rw [show List.mapM.loop soloListExtraction (x :: xs) acc =
      (soloListExtraction x >>= fun l =>
        List.mapM.loop soloListExtraction xs (l :: acc)) from rfl] at h
    rw [show goodValList m (x :: xs) = (goodVal m x && goodValList m xs)
      from rfl, Bool.and_eq_true] at hargs
    cases hs : soloListExtraction x with
    | error e => rw [hs] at h; exact Except.noConfusion h
    | ok l =>
      rw [hs] at h
      refine mapM_loop_solo_good xs (l :: acc) parts hargs.2 ?_ h p hp
      intro q hq
      rcases List.mem_cons.1 hq with hq | hq
      · rw [hq]; exact soloListExtraction_good x l hargs.1 hs
      · exact hacc q hq

/-- A successful builtin `append` of good arguments yields a good
value. -/
theorem append_good {m : Nat} {args : List PyVal} {v : PyVal}
    (hargs : goodValList m args = true)
    (h : append args = Except.ok v) : goodVal m v = true := by
  unfold append at h
  cases ha : allLists args with
  | false => rw [ha] at h; exact Except.noConfusion h
  | true =>
    rw [ha] at h
    cases hm : args.mapM soloListExtraction with
    | error e => rw [hm] at h; exact Except.noConfusion h
    | ok parts =>
      rw [hm] at h
      have h2 : Except.ok (concatenateList parts.flatten) = Except.ok v := h
      injection h2 with h'
      subst h'
      exact concatenateList_good parts.flatten
        (goodValList_flatten parts
          (mapM_loop_solo_good args [] parts hargs
            (fun p hp => absurd hp (List.not_mem_nil p)) hm))

/-- Every builtin maps good arguments to a good result value. -/
theorem applyBuiltin_good {m : Nat} (op : BOp) (args : List PyVal) (v : PyVal)
    (hargs : goodValList m args = true)
    (h : applyBuiltin op args = Except.ok v) : goodVal m v = true := by
  cases op with
  | add => exact pySum_good h
  | sub => exact subtract_good args v h
  | mul => exact multiply_good args v hargs h
  | div => exact divide_good args v hargs h
  | eqB => exact equal_good args v h
  | gt => exact chainRel_good pyLe args v h
  | ge => exact chainRel_good pyLt args v h
  | lt => exact chainRel_good pyGe args v h
  | le => exact chainRel_good pyGt args v h
  | notB => exact negate_good args v h
  | carB => exact getCar_good args v hargs h
  | cdrB => exact getCdr_good args v hargs h
  | consB => exact createCon_good args v hargs h
  | lenB => exact listLength_good args v h
  | listRefB => exact listReference_good args v hargs h
  | appendB => exact append_good hargs h
  | listQ =>
    rw [show applyBuiltin BOp.listQ args =
      (typeCheckList args >>= fun b => Except.ok (PyVal.bool b)) from rfl] at h
    cases ht : typeCheckList args with
    | error e => rw [ht] at h; exact Except.noConfusion h
    | ok b =>
      rw [ht] at h
      have h2 : Except.ok (PyVal.bool b) = Except.ok v := h
      injection h2 with h'
      subst h'
      rfl

/-- The length of the re-evaluation store. -/
theorem length_extendState (n : Nat) (τ σ : State) (hn : n ≤ σ.length) :
    (extendState n τ σ).length = σ.length + τ.length := by
  unfold extendState
  simp only [List.length_append, List.length_take, List.length_drop,
    List.length_map]
  omega

/-- Pointwise description of the re-evaluation store: old positions below
the boundary, the wedged-in garbage frames, then the renamed younger
frames. -/
theorem get?_extendState (n : Nat) (τ σ : State) (hn : n ≤ σ.length) (j : Nat) :
    (extendState n τ σ).get? j =
      if j < n then (σ.map (shiftFrame n τ.length)).get? j
      else if j < n + τ.length then τ.get? (j - n)
      else (σ.map (shiftFrame n τ.length)).get? (j - τ.length) := by
  unfold extendState
  have hA : ((σ.map (shiftFrame n τ.length)).take n).length = n := by
    rw [List.length_take, List.length_map]; omega
  have hB : (((σ.map (shiftFrame n τ.length)).take n) ++ τ).length =
      n + τ.length := by
    rw [List.length_append, hA]
  by_cases h1 : j < n
  · rw [if_pos h1]
    rw [List.get?_append (by rw [hB]; omega)]
    rw [List.get?_append (by rw [hA]; omega)]
    exact List.get?_take h1
  · rw [if_neg h1]
    by_cases h2 : j < n + τ.length
    · rw [if_pos h2]
      rw [List.get?_append (by rw [hB]; omega)]
      rw [List.get?_append_right (by rw [hA]; omega)]
      rw [hA]
    · rw [if_neg h2]
      rw [List.get?_append_right (by rw [hB]; omega)]
      rw [hB, List.get?_drop]
      congr 1
      omega

/-- The re-evaluation store at a renamed index holds the renamed original
frame. -/
theorem get?_extendState_shiftId (n : Nat) (τ σ : State) (hn : n ≤ σ.length)
    (i : Nat) :
    (extendState n τ σ).get? (shiftId n τ.length i) =
      (σ.get? i).map (shiftFrame n τ.length) := by
  unfold shiftId
  by_cases h : i < n
  · rw [if_pos h, get?_extendState n τ σ hn, if_pos h, List.get?_map]
  · rw [if_neg h, get?_extendState n τ σ hn, if_neg (by omega),
      if_neg (by omega), Nat.add_sub_cancel, List.get?_map]

/-- Appending one fresh frame commutes with building the re-evaluation
store. -/
theorem extendState_append (n : Nat) (τ σ : State) (fr : PyFrame)
    (hn : n ≤ σ.length) :
    extendState n τ (σ ++ [fr]) =
      extendState n τ σ ++ [shiftFrame n τ.length fr] := by
  unfold extendState
  rw [List.map_append]
  rw [List.take_append_of_le_length (by rw [List.length_map]; exact hn)]
  rw [List.drop_append_of_le_length (by rw [List.length_map]; exact hn)]
  simp [List.append_assoc]

/-- Overwriting one frame commutes with building the re-evaluation
store. -/
theorem extendState_set (n : Nat) (τ σ : State) (fid : Nat) (fr : PyFrame)
    (hn : n ≤ σ.length) :
    extendState n τ (σ.set fid fr) =
      (extendState n τ σ).set (shiftId n τ.length fid)
        (shiftFrame n τ.length fr) := by
  apply List.ext_get?
  intro j
  rw [List.get?_set]
  rw [get?_extendState n τ (σ.set fid fr) (by rw [List.length_set]; exact hn) j]
  rw [get?_extendState n τ σ hn j]
  rw [List.map_set]
  rw [List.get?_set, List.get?_set]
  unfold shiftId
  split_ifs <;> first | rfl | omega | (exfalso; omega)

/-- Unpacking `goodState` at one frame: its parent index is below its own
and its stored values are good. -/
theorem goodState_get? {σ : State} {i : Nat} {fr : PyFrame}
    (hσ : goodState σ = true) (h : σ.get? i = some fr) :
    (∀ p, fr.parent = some p → p < i) ∧ goodVars σ.length fr.vars = true := by
  have hi : i < σ.length := by
    by_contra hc
    rw [List.get?_eq_none.2 (by omega)] at h
    exact Option.noConfusion h
  unfold goodState at hσ
  rw [List.all_eq_true] at hσ
  have h2 : (match σ.get? i with
      | some fr =>
        (match fr.parent with
         | some p => decide (p < i)
         | none => true) && goodVars σ.length fr.vars
      | none => true) = true := hσ i (List.mem_range.2 hi)
  rw [h] at h2
  have h3 : ((match fr.parent with
      | some p => decide (p < i)
      | none => true) && goodVars σ.length fr.vars) = true := h2
  rw [Bool.and_eq_true] at h3
  refine ⟨?_, h3.2⟩
  intro p hp
  have h4 := h3.1
  rw [hp] at h4
  have h5 : decide (p < i) = true := h4
  exact of_decide_eq_true h5

/-- Building `goodState` from its per-frame description. -/
theorem goodState_intro {σ : State}
    (h : ∀ i fr, σ.get? i = some fr →
      (∀ p, fr.parent = some p → p < i) ∧ goodVars σ.length fr.vars = true) :
    goodState σ = true := by
  unfold goodState
  rw [List.all_eq_true]
  intro i hi
  show (match σ.get? i with
    | some fr =>
      (match fr.parent with
       | some p => decide (p < i)
       | none => true) && goodVars σ.length fr.vars
    | none => true) = true
  cases hg : σ.get? i with
  | none => rfl
  | some fr =>
    have h2 := h i fr hg
    show ((match fr.parent with
      | some p => decide (p < i)
      | none => true) && goodVars σ.length fr.vars) = true
    rw [Bool.and_eq_true]
    refine ⟨?_, h2.2⟩
    cases hp : fr.parent with
    | none => rfl
    | some p => exact decide_eq_true (h2.1 p hp)

/-- Overwriting one frame's dict with a good dict, keeping its parent,
preserves `goodState`. -/
theorem goodState_set {σ : State} {fid : Nat} {fr : PyFrame}
    {d : List (String × PyVal)}
    (hσ : goodState σ = true) (hget : σ.get? fid = some fr)
    (hd : goodVars σ.length d = true) :
    goodState (σ.set fid ⟨fr.parent, d⟩) = true := by
  apply goodState_intro
  intro i fr' hget'
  rw [List.get?_set] at hget'
  rw [List.length_set]
  by_cases h : fid = i
  · rw [if_pos h] at hget'
    subst h
    rw [hget] at hget'
    have h2 : (⟨fr.parent, d⟩ : PyFrame) = fr' := by injection hget'
    subst h2
    exact ⟨fun p hp => (goodState_get? hσ hget).1 p hp, hd⟩
  · rw [if_neg h] at hget'
    exact goodState_get? hσ hget'

/-- Appending one frame whose parent exists and whose dict is good for
the grown store preserves `goodState`. -/
theorem goodState_append {σ : State} {p : Nat} {d : List (String × PyVal)}
    (hσ : goodState σ = true) (hp : p < σ.length)
    (hd : goodVars (σ.length + 1) d = true) :
    goodState (σ ++ [⟨some p, d⟩]) = true := by
  apply goodState_intro
  intro i fr' hget'
  rw [List.length_append, List.length_singleton]
  by_cases h : i < σ.length
  · rw [List.get?_append h] at hget'
    have h2 := goodState_get? hσ hget'
    exact ⟨h2.1, goodVars_mono (Nat.le_succ _) h2.2⟩
  · rw [List.get?_append_right (by omega)] at hget'
    have hi : i - σ.length = 0 := by
      by_contra hc
      rw [List.get?_eq_none.2 (by rw [List.length_singleton]; omega)] at hget'
      exact Option.noConfusion hget'
    rw [hi] at hget'
    have h2 : (⟨some p, d⟩ : PyFrame) = fr' := by injection hget'
    subst h2
    constructor
    · intro q hq
      have h3 : some p = some q := hq
      injection h3 with h4
      omega
    · exact hd

mutual
/-- The fresh-frame renaming is the identity on good values: all their
captured indices lie below the boundary. -/
theorem shiftV_goodVal_id (n k : Nat) :
    (v : PyVal) → goodVal n v = true → shiftV n k v = v
  | .int _, _ => rfl
  | .float _, _ => rfl
  | .bool _, _ => rfl
  | .str _, _ => rfl
  | .builtin _, _ => rfl
  | .list xs, h => by
    rw [show shiftV n k (.list xs) = .list (shiftVList n k xs) from rfl]
    rw [shiftVList_goodVal_id n k xs h]
  | .pair a d, h => by
    rw [show goodVal n (.pair a d) = (goodVal n a && goodVal n d) from rfl,
      Bool.and_eq_true] at h
    rw [show shiftV n k (.pair a d) = .pair (shiftV n k a) (shiftV n k d)
      from rfl]
    rw [shiftV_goodVal_id n k a h.1, shiftV_goodVal_id n k d h.2]
  | .closure p b f, h => by
    rw [show goodVal n (.closure p b f) =
      (decide (f < n) && closureFree p && closureFree b) from rfl] at h
    simp only [Bool.and_eq_true, decide_eq_true_eq] at h
    rw [show shiftV n k (.closure p b f) =
      .closure (shiftV n k p) (shiftV n k b) (shiftId n k f) from rfl]
    rw [shiftV_closureFree n k p h.1.2, shiftV_closureFree n k b h.2]
    rw [show shiftId n k f = f from by unfold shiftId; rw [if_pos h.1.1]]

/-- Elementwise form of `shiftV_goodVal_id`. -/
theorem shiftVList_goodVal_id (n k : Nat) :
    (xs : List PyVal) → goodValList n xs = true → shiftVList n k xs = xs
  | [], _ => rfl
  | x :: xs, h => by
    rw [show goodValList n (x :: xs) = (goodVal n x && goodValList n xs)
      from rfl, Bool.and_eq_true] at h
    rw [show shiftVList n k (x :: xs) = shiftV n k x :: shiftVList n k xs
      from rfl]
    rw [shiftV_goodVal_id n k x h.1, shiftVList_goodVal_id n k xs h.2]
end

/-- The fresh-frame renaming is the identity on good dicts. -/
theorem shiftVars_goodVars_id (n k : Nat) :
    ∀ d : List (String × PyVal), goodVars n d = true → shiftVars n k d = d
  | [], _ => rfl
  | (s, v) :: rest, h => by
    rw [show goodVars n ((s, v) :: rest) = (goodVal n v && goodVars n rest)
      from rfl, Bool.and_eq_true] at h
    rw [show shiftVars n k ((s, v) :: rest) =
      (s, shiftV n k v) :: shiftVars n k rest from rfl]
    rw [shiftV_goodVal_id n k v h.1, shiftVars_goodVars_id n k rest h.2]

/-- For a good store, re-evaluating with the boundary at the full store
length just appends the garbage frames at the end. -/
theorem extendState_eq_append {σ : State} (τ : State)
    (hσ : goodState σ = true) :
    extendState σ.length τ σ = σ ++ τ := by
  have hmap : σ.map (shiftFrame σ.length τ.length) = σ := by
    apply List.ext_get?
    intro j
    rw [List.get?_map]
    cases hj : σ.get? j with
    | none => rfl
    | some fr =>
      have h2 := goodState_get? hσ hj
      have hjlen : j < σ.length := by
        by_contra hc
        rw [List.get?_eq_none.2 (by omega)] at hj
        exact Option.noConfusion hj
      show some (shiftFrame σ.length τ.length fr) = some fr
      obtain ⟨pr, vars⟩ := fr
      unfold shiftFrame
      rw [shiftVars_goodVars_id _ _ _ h2.2]
      cases pr with
      | none => rfl
      | some p =>
        have hplt : p < σ.length := by
          have := h2.1 p rfl
          omega
        rw [show Option.map (shiftId σ.length τ.length) (some p) =
          some (shiftId σ.length τ.length p) from rfl]
        rw [show shiftId σ.length τ.length p = p from by
          unfold shiftId; rw [if_pos hplt]]
  unfold extendState
  rw [hmap, List.take_length, List.drop_length, List.append_nil]

/-- The frame-chain lookup commutes with the fresh-frame renaming at any
matched fuel. -/
theorem frameLookup_shift (n : Nat) (τ σ : State) (hn : n ≤ σ.length) :
    ∀ (g : Nat) (opt : Option Nat) (key : PyVal),
      frameLookup g (extendState n τ σ) (opt.map (shiftId n τ.length)) key =
        (frameLookup g σ opt key).map (shiftV n τ.length)
  | g, none, key => by cases g <;> rfl
  | 0, some _, _ => rfl
  | g + 1, some fid, key => by
    have hrec : ∀ (pr : Option Nat) (key' : PyVal),
        frameLookup g (extendState n τ σ)
            (Option.map (shiftId n τ.length) pr) key' =
          (frameLookup g σ pr key').map (shiftV n τ.length) :=
      fun pr key' => frameLookup_shift n τ σ hn g pr key'
    show frameLookup (g + 1) (extendState n τ σ)
        (some (shiftId n τ.length fid)) key =
      (frameLookup (g + 1) σ (some fid) key).map (shiftV n τ.length)
    simp only [frameLookup]
    rw [get?_extendState_shiftId n τ σ hn fid]
    cases hf : σ.get? fid with
    | none => rfl
    | some fr =>
      cases key with
      | str s =>
        simp only [Option.map_some', shiftFrame, dictLookup_shiftVars]
        cases hd : dictLookup fr.vars s with
        | some v => rfl
        | none => exact hrec fr.parent (PyVal.str s)
      | int m => exact hrec fr.parent (PyVal.int m)
      | float q => exact hrec fr.parent (PyVal.float q)
      | bool b => exact hrec fr.parent (PyVal.bool b)
      | list l => exact hrec fr.parent (PyVal.list l)
      | pair a d => exact hrec fr.parent (PyVal.pair a d)
      | closure p b f => exact hrec fr.parent (PyVal.closure p b f)
      | builtin o => exact hrec fr.parent (PyVal.builtin o)

/-- On a good store, the frame-chain lookup is independent of the fuel as
soon as the fuel exceeds the starting index (parents strictly
decrease). -/
theorem frameLookup_fuel {σ : State} (hσ : goodState σ = true) (key : PyVal) :
    ∀ fid, fid < σ.length → ∀ g g', fid < g → fid < g' →
      frameLookup g σ (some fid) key = frameLookup g' σ (some fid) key := by
  intro fid
  induction fid using Nat.strong_induction_on with
  | _ fid ih =>
    intro hfid g g' hg hg'
    cases g with
    | zero => omega
    | succ gf =>
      cases g' with
      | zero => omega
      | succ gf' =>
        simp only [frameLookup]
        cases hf : σ.get? fid with
        | none => rfl
        | some fr =>
          have hpar : frameLookup gf σ fr.parent key =
              frameLookup gf' σ fr.parent key := by
            cases hp : fr.parent with
            | none => cases gf <;> cases gf' <;> rfl
            | some p =>
              have hplt : p < fid := (goodState_get? hσ hf).1 p hp
              exact ih p hplt (by omega) gf gf' (by omega) (by omega)
          cases key with
          | str s =>
            cases hd : dictLookup fr.vars s with
            | some v => simp only [hd]
            | none =>
              simp only [hd]
              exact hpar
          | int m => exact hpar
          | float q => exact hpar
          | bool b => exact hpar
          | list l => exact hpar
          | pair a d => exact hpar
          | closure p b f => exact hpar
          | builtin o => exact hpar

/-- On a good store, a value found by the frame-chain lookup is good. -/
theorem frameLookup_good {σ : State} (hσ : goodState σ = true) :
    ∀ (g : Nat) (opt : Option Nat) (key v : PyVal),
      frameLookup g σ opt key = Except.ok v → goodVal σ.length v = true
  | g, none, _, _, h => by cases g <;> exact Except.noConfusion h
  | 0, some _, _, _, h => Except.noConfusion h
  | g + 1, some fid, key, v, h => by
    have hrec : ∀ (pr : Option Nat) (key' : PyVal),
        frameLookup g σ pr key' = Except.ok v →
          goodVal σ.length v = true :=
      fun pr key' hh => frameLookup_good hσ g pr key' v hh
    simp only [frameLookup] at h
    cases hf : σ.get? fid with
    | none => rw [hf] at h; exact Except.noConfusion h
    | some fr =>
      rw [hf] at h
      cases key with
      | str s =>
        cases hd : dictLookup fr.vars s with
        | some w =>
          simp only [hd] at h
          have h2 : Except.ok w = Except.ok v := h
          injection h2 with h3
          subst h3
          exact goodVars_lookup (goodState_get? hσ hf).2 hd
        | none =>
          simp only [hd] at h
          exact hrec fr.parent (PyVal.str s) h
      | int m => exact hrec fr.parent (PyVal.int m) h
      | float q => exact hrec fr.parent (PyVal.float q) h
      | bool b => exact hrec fr.parent (PyVal.bool b) h
      | list l => exact hrec fr.parent (PyVal.list l) h
      | pair a d => exact hrec fr.parent (PyVal.pair a d) h
      | closure p b f => exact hrec fr.parent (PyVal.closure p b f) h
      | builtin o => exact hrec fr.parent (PyVal.builtin o) h

/-- `evaluate_set` commutes with the fresh-frame renaming at any matched
fuel. -/
theorem evaluateSet_shift (n : Nat) (τ σ : State) (hn : n ≤ σ.length)
    (exp : PyVal) :
    ∀ (g : Nat) (var : PyVal) (fid : Nat),
      evaluateSet g var (shiftV n τ.length exp) (shiftId n τ.length fid)
          (extendState n τ σ) =
        (match evaluateSet g var exp fid σ with
         | .ok σ' => Except.ok (extendState n τ σ')
         | .error e => Except.error e)
  | 0, _, _ => rfl
  | g + 1, var, fid => by
    have hrec : ∀ (var' : PyVal) (p : Nat),
        evaluateSet g var' (shiftV n τ.length exp) (shiftId n τ.length p)
            (extendState n τ σ) =
          (match evaluateSet g var' exp p σ with
           | .ok σ' => Except.ok (extendState n τ σ')
           | .error e => Except.error e) :=
      fun var' p => evaluateSet_shift n τ σ hn exp g var' p
    simp only [evaluateSet]
    rw [get?_extendState_shiftId n τ σ hn fid]
    cases hf : σ.get? fid with
    | none => rfl
    | some fr =>
      obtain ⟨pr, vars⟩ := fr
      cases var with
      | str s =>
        simp only [Option.map_some', shiftFrame, dictContains_shiftVars,
          dictSet_shiftVars]
        by_cases hc : dictContains vars s = true
        · rw [if_pos hc, if_pos hc]
          show Except.ok ((extendState n τ σ).set (shiftId n τ.length fid)
              ⟨Option.map (shiftId n τ.length) pr,
                shiftVars n τ.length (dictSet vars s exp)⟩) =
            Except.ok (extendState n τ (σ.set fid ⟨pr, dictSet vars s exp⟩))
          rw [extendState_set n τ σ fid ⟨pr, dictSet vars s exp⟩ hn]
          rfl
        · rw [if_neg hc, if_neg hc]
          cases pr with
          | none => rfl
          | some p => exact hrec (PyVal.str s) p
      | int m =>
        cases pr with
        | none => rfl
        | some p => exact hrec (PyVal.int m) p
      | float q =>
        cases pr with
        | none => rfl
        | some p => exact hrec (PyVal.float q) p
      | bool b =>
        cases pr with
        | none => rfl
        | some p => exact hrec (PyVal.bool b) p
      | list l =>
        cases pr with
        | none => rfl
        | some p => exact hrec (PyVal.list l) p
      | pair a d =>
        cases pr with
        | none => rfl
        | some p => exact hrec (PyVal.pair a d) p
      | closure pp bb ff =>
        cases pr with
        | none => rfl
        | some p => exact hrec (PyVal.closure pp bb ff) p
      | builtin o =>
        cases pr with
        | none => rfl
        | some p => exact hrec (PyVal.builtin o) p

/-- On a good store, `evaluate_set` is independent of the fuel as soon as
it exceeds the starting index. -/
theorem evaluateSet_fuel {σ : State} (hσ : goodState σ = true)
    (var exp : PyVal) :
    ∀ fid, fid < σ.length → ∀ g g', fid < g → fid < g' →
      evaluateSet g var exp fid σ = evaluateSet g' var exp fid σ := by
  intro fid
  induction fid using Nat.strong_induction_on with
  | _ fid ih =>
    intro hfid g g' hg hg'
    cases g with
    | zero => omega
    | succ gf =>
      cases g' with
      | zero => omega
      | succ gf' =>
        simp only [evaluateSet]
        cases hf : σ.get? fid with
        | none => rfl
        | some fr =>
          obtain ⟨pr, vars⟩ := fr
          have hpp : ∀ p, pr = some p → p < fid := by
            intro p hp
            subst hp
            exact (goodState_get? hσ hf).1 p rfl
          cases var with
          | str s =>
            cases hc : dictContains vars s with
            | true => simp only [hc, if_true]
            | false =>
              simp only [hc]
              cases pr with
              | none => rfl
              | some p =>
                have hplt : p < fid := hpp p rfl
                exact ih p hplt (by omega) gf gf' (by omega) (by omega)
          | int m =>
            cases pr with
            | none => rfl
            | some p =>
              have hplt : p < fid := hpp p rfl
              exact ih p hplt (by omega) gf gf' (by omega) (by omega)
          | float q =>
            cases pr with
            | none => rfl
            | some p =>
              have hplt : p < fid := hpp p rfl
              exact ih p hplt (by omega) gf gf' (by omega) (by omega)
          | bool b =>
            cases pr with
            | none => rfl
            | some p =>
              have hplt : p < fid := hpp p rfl
              exact ih p hplt (by omega) gf gf' (by omega) (by omega)
          | list l =>
            cases pr with
            | none => rfl
            | some p =>
              have hplt : p < fid := hpp p rfl
              exact ih p hplt (by omega) gf gf' (by omega) (by omega)
          | pair a d =>
            cases pr with
            | none => rfl
            | some p =>
              have hplt : p < fid := hpp p rfl
              exact ih p hplt (by omega) gf gf' (by omega) (by omega)
          | closure pp bb ff =>
            cases pr with
            | none => rfl
            | some p =>
              have hplt : p < fid := hpp p rfl
              exact ih p hplt (by omega) gf gf' (by omega) (by omega)
          | builtin o =>
            cases pr with
            | none => rfl
            | some p =>
              have hplt : p < fid := hpp p rfl
              exact ih p hplt (by omega) gf gf' (by omega) (by omega)

/-- A successful `evaluate_set` with a good stored value keeps the store
good and preserves its length. -/
theorem evaluateSet_good {σ : State} (hσ : goodState σ = true)
    {exp : PyVal} (hexp : goodVal σ.length exp = true) :
    ∀ (g : Nat) (var : PyVal) (fid : Nat) (σ' : State),
      evaluateSet g var exp fid σ = Except.ok σ' →
      goodState σ' = true ∧ σ'.length = σ.length
  | 0, _, _, _, h => Except.noConfusion h
  | g + 1, var, fid, σ', h => by
    have hrec : ∀ (var' : PyVal) (p : Nat),
        evaluateSet g var' exp p σ = Except.ok σ' →
          goodState σ' = true ∧ σ'.length = σ.length :=
      fun var' p hh => evaluateSet_good hσ hexp g var' p σ' hh
    simp only [evaluateSet] at h
    cases hf : σ.get? fid with
    | none => rw [hf] at h; exact Except.noConfusion h
    | some fr =>
      rw [hf] at h
      obtain ⟨pr, vars⟩ := fr
      cases var with
      | str s =>
        cases hc : dictContains vars s with
        | true =>
          simp only [hc, eq_self_iff_true, if_true] at h
          injection h with h3
          subst h3
          refine ⟨goodState_set hσ hf
            (goodVars_dictSet (goodState_get? hσ hf).2 hexp s), ?_⟩
          rw [List.length_set]
        | false =>
          simp only [hc, Bool.false_eq_true, if_false] at h
          cases pr with
          | none => exact Except.noConfusion h
          | some p => exact hrec (PyVal.str s) p h
      | int m =>
        cases pr with
        | none => exact Except.noConfusion h
        | some p => exact hrec (PyVal.int m) p h
      | float q =>
        cases pr with
        | none => exact Except.noConfusion h
        | some p => exact hrec (PyVal.float q) p h
      | bool b =>
        cases pr with
        | none => exact Except.noConfusion h
        | some p => exact hrec (PyVal.bool b) p h
      | list l =>
        cases pr with
        | none => exact Except.noConfusion h
        | some p => exact hrec (PyVal.list l) p h
      | pair a d =>
        cases pr with
        | none => exact Except.noConfusion h
        | some p => exact hrec (PyVal.pair a d) p h
      | closure pp bb ff =>
        cases pr with
        | none => exact Except.noConfusion h
        | some p => exact hrec (PyVal.closure pp bb ff) p h
      | builtin o =>
        cases pr with
        | none => exact Except.noConfusion h
        | some p => exact hrec (PyVal.builtin o) p h

/-- `Frame.__setitem__` commutes with the fresh-frame renaming. -/
theorem frameSetItem_shift (n : Nat) (τ σ : State) (hn : n ≤ σ.length)
    (fid : Nat) (key v : PyVal) :
    frameSetItem (extendState n τ σ) (shiftId n τ.length fid) key
        (shiftV n τ.length v) =
      (match frameSetItem σ fid key v with
       | .ok σ' => Except.ok (extendState n τ σ')
       | .error e => Except.error e) := by
  unfold frameSetItem
  cases hvia : variableViability key with
  | error e => rfl
  | ok u =>
    rw [get?_extendState_shiftId n τ σ hn fid]
    cases hf : σ.get? fid with
    | none => rfl
    | some fr =>
      obtain ⟨pr, vars⟩ := fr
      cases key with
      | str s =>
        show Except.ok ((extendState n τ σ).set (shiftId n τ.length fid)
            ⟨Option.map (shiftId n τ.length) pr,
              dictSet (shiftVars n τ.length vars) s (shiftV n τ.length v)⟩) =
          Except.ok (extendState n τ (σ.set fid ⟨pr, dictSet vars s v⟩))
        rw [dictSet_shiftVars]
        rw [extendState_set n τ σ fid ⟨pr, dictSet vars s v⟩ hn]
        rfl
      | int m => rfl
      | float q => rfl
      | bool b => rfl
      | list l => rfl
      | pair a d => rfl
      | closure pp bb ff => rfl
      | builtin o => rfl

/-- A successful `Frame.__setitem__` with a good stored value keeps the
store good and preserves its length. -/
theorem frameSetItem_good {σ : State} (hσ : goodState σ = true)
    {v : PyVal} (hv : goodVal σ.length v = true) (fid : Nat) (key : PyVal)
    {σ' : State} (h : frameSetItem σ fid key v = Except.ok σ') :
    goodState σ' = true ∧ σ'.length = σ.length := by
  unfold frameSetItem at h
  cases hvia : variableViability key with
  | error e => rw [hvia] at h; exact Except.noConfusion h
  | ok u =>
    rw [hvia] at h
    cases hf : σ.get? fid with
    | none => rw [hf] at h; exact Except.noConfusion h
    | some fr =>
      rw [hf] at h
      cases key with
      | str s =>
        have h2 : Except.ok (σ.set fid ⟨fr.parent, dictSet fr.vars s v⟩) =
            Except.ok σ' := h
        injection h2 with h3
        subst h3
        refine ⟨goodState_set hσ hf
          (goodVars_dictSet (goodState_get? hσ hf).2 hv s), ?_⟩
        rw [List.length_set]
      | int m => exact Except.noConfusion h
      | float q => exact Except.noConfusion h
      | bool b => exact Except.noConfusion h
      | list l => exact Except.noConfusion h
      | pair a d => exact Except.noConfusion h
      | closure pp bb ff => exact Except.noConfusion h
      | builtin o => exact Except.noConfusion h

/-- The `del` branch commutes with the fresh-frame renaming. -/
theorem deleteVariables_shift (n : Nat) (τ σ : State) (hn : n ≤ σ.length)
    (rest : List PyVal) (fid : Nat) :
    deleteVariables rest (shiftId n τ.length fid) (extendState n τ σ) =
      shiftRes n τ (deleteVariables rest fid σ) := by
  unfold deleteVariables
  by_cases hl : rest.length ≠ 1
  · rw [if_pos hl, if_pos hl]; rfl
  · rw [if_neg hl, if_neg hl]
    cases rest with
    | nil => simp only [List.length_nil] at hl; omega
    | cons k rest2 =>
      cases rest2 with
      | cons y ys => simp only [List.length_cons] at hl; omega
      | nil =>
        rw [get?_extendState_shiftId n τ σ hn fid]
        cases hf : σ.get? fid with
        | none => rfl
        | some fr =>
          obtain ⟨pr, vars⟩ := fr
          cases k with
          | str s =>
            simp only [Option.map_some', shiftFrame, dictLookup_shiftVars]
            cases hd : dictLookup vars s with
            | none => rfl
            | some v =>
              show Except.ok (shiftV n τ.length v,
                  (extendState n τ σ).set (shiftId n τ.length fid)
                    ⟨Option.map (shiftId n τ.length) pr,
                      dictRemove (shiftVars n τ.length vars) s⟩) =
                Except.ok (shiftV n τ.length v,
                  extendState n τ (σ.set fid ⟨pr, dictRemove vars s⟩))
              rw [dictRemove_shiftVars]
              rw [extendState_set n τ σ fid ⟨pr, dictRemove vars s⟩ hn]
              rfl
          | int m => rfl
          | float q => rfl
          | bool b => rfl
          | list l => rfl
          | pair a d => rfl
          | closure pp bb ff => rfl
          | builtin o => rfl

/-- A successful `del` returns a good value and a good store of the same
length. -/
theorem deleteVariables_good {σ : State} (hσ : goodState σ = true)
    (rest : List PyVal) (fid : Nat) {v : PyVal} {σ' : State}
    (h : deleteVariables rest fid σ = Except.ok (v, σ')) :
    goodState σ' = true ∧ goodVal σ'.length v = true ∧
      σ.length ≤ σ'.length := by
  unfold deleteVariables at h
  by_cases hl : rest.length ≠ 1
  · rw [if_pos hl] at h; exact Except.noConfusion h
  · rw [if_neg hl] at h
    cases rest with
    | nil => simp only [List.length_nil] at hl; omega
    | cons k rest2 =>
      cases rest2 with
      | cons y ys => simp only [List.length_cons] at hl; omega
      | nil =>
        cases hf : σ.get? fid with
        | none => rw [hf] at h; exact Except.noConfusion h
        | some fr =>
          rw [hf] at h
          cases k with
          | str s =>
            cases hd : dictLookup fr.vars s with
            | none =>
              simp only [hd] at h
              exact Except.noConfusion h
            | some w =>
              simp only [hd] at h
              have h2 : Except.ok (w, σ.set fid ⟨fr.parent, dictRemove fr.vars s⟩) =
                  Except.ok (v, σ') := h
              injection h2 with h3
              injection h3 with h4 h5
              subst h4
              subst h5
              refine ⟨goodState_set hσ hf
                (goodVars_dictRemove (goodState_get? hσ hf).2 s), ?_, ?_⟩
              · rw [List.length_set]
                exact goodVars_lookup (goodState_get? hσ hf).2 hd
              · rw [List.length_set]
          | int m => exact Except.noConfusion h
          | float q => exact Except.noConfusion h
          | bool b => exact Except.noConfusion h
          | list l => exact Except.noConfusion h
          | pair a d => exact Except.noConfusion h
          | closure pp bb ff => exact Except.noConfusion h
          | builtin o => exact Except.noConfusion h

/-- An element taken from a closure-free list is closure-free. -/
theorem closureFreeList_get? :
    ∀ {xs : List PyVal} {i : Nat} {w : PyVal}, closureFreeList xs = true →
      xs.get? i = some w → closureFree w = true
  | [], _, _, _, h => Option.noConfusion h
  | x :: xs, 0, w, hcf, h => by
    injection h with h2
    subst h2
    exact (closureFree_cons hcf).1
  | x :: xs, i + 1, w, hcf, h =>
    closureFreeList_get? (closureFree_cons hcf).2 h

/-- Python subscripting of a closure-free object yields a closure-free
object. -/
theorem pyIndex_closureFree {i : Nat} :
    ∀ {b w : PyVal}, closureFree b = true →
      pyIndex b i = Except.ok w → closureFree w = true := by
  intro b w hcf h
  cases b with
  | list xs =>
    simp only [pyIndex] at h
    cases hg : xs.get? i with
    | none => rw [hg] at h; exact Except.noConfusion h
    | some u =>
      rw [hg] at h
      have h2 : Except.ok u = Except.ok w := h
      injection h2 with h3
      subst h3
      exact closureFreeList_get? hcf hg
  | str s =>
    simp only [pyIndex] at h
    cases hg : s.toList.get? i with
    | none => rw [hg] at h; exact Except.noConfusion h
    | some c =>
      rw [hg] at h
      have h2 : Except.ok (PyVal.str (String.mk [c])) = Except.ok w := h
      injection h2 with h3
      subst h3
      rfl
  | int m => exact Except.noConfusion h
  | float q => exact Except.noConfusion h
  | bool bb => exact Except.noConfusion h
  | pair a d => exact Except.noConfusion h
  | closure pp bb ff => exact Except.noConfusion h
  | builtin o => exact Except.noConfusion h

/-- One-character strings are closure-free. -/
theorem closureFreeList_charStrs :
    ∀ l : List Char,
      closureFreeList (l.map fun c => PyVal.str (String.mk [c])) = true
  | [] => rfl
  | c :: l => by
    rw [List.map_cons]
    rw [show closureFreeList (PyVal.str (String.mk [c]) ::
        l.map fun c => PyVal.str (String.mk [c])) =
      (closureFree (PyVal.str (String.mk [c])) &&
        closureFreeList (l.map fun c => PyVal.str (String.mk [c])))
      from rfl]
    rw [closureFreeList_charStrs l]
    rfl

/-- Iterating a closure-free object yields closure-free elements. -/
theorem pyIter_closureFree :
    ∀ {b : PyVal} {l : List PyVal}, closureFree b = true →
      pyIter b = Except.ok l → closureFreeList l = true := by
  intro b l hcf h
  cases b with
  | list xs =>
    have h2 : Except.ok xs = Except.ok l := h
    injection h2 with h3
    subst h3
    exact hcf
  | str s =>
    have h2 : Except.ok (s.toList.map fun c => PyVal.str (String.mk [c])) =
        Except.ok l := h
    injection h2 with h3
    subst h3
    exact closureFreeList_charStrs s.toList
  | int m => exact Except.noConfusion h
  | float q => exact Except.noConfusion h
  | bool bb => exact Except.noConfusion h
  | pair a d => exact Except.noConfusion h
  | closure pp bb ff => exact Except.noConfusion h
  | builtin o => exact Except.noConfusion h

/-- The fresh-frame renaming preserves the length of an argument list. -/
theorem length_shiftVList (n k : Nat) (xs : List PyVal) :
    (shiftVList n k xs).length = xs.length := by
  rw [shiftVList_map, List.length_map]

/-- Storing under a closure-free (tree) key commutes with the renaming. -/
theorem dictSetPy_shiftV_cf (n k : Nat) (d : List (String × PyVal))
    (key v : PyVal) (hcf : closureFree key = true) :
    dictSetPy (shiftVars n k d) key (shiftV n k v) =
      shiftVars n k (dictSetPy d key v) := by
  have h1 : dictSetPy (shiftVars n k d) key (shiftV n k v) =
      dictSetPy (shiftVars n k d) (shiftV n k key) (shiftV n k v) := by
    rw [shiftV_closureFree n k key hcf]
  rw [h1, dictSetPy_shiftV]

/-- `create_variable_dict` over tree parameters commutes with the
renaming of arguments and accumulator. -/
theorem createVariableDict_shift (n k : Nat) :
    ∀ (ps args : List PyVal) (acc : List (String × PyVal)),
      closureFreeList ps = true →
      createVariableDict ps (shiftVList n k args) (shiftVars n k acc) =
        (createVariableDict ps args acc).map (shiftVars n k)
  | [], args, acc, _ => rfl
  | p :: ps, [], acc, _ => rfl
  | p :: ps, a :: args, acc, hcf => by
    show createVariableDict ps (shiftVList n k args)
        (dictSetPy (shiftVars n k acc) p (shiftV n k a)) = _
    rw [dictSetPy_shiftV_cf n k acc p a (closureFree_cons hcf).1]
    exact createVariableDict_shift n k ps args (dictSetPy acc p a)
      (closureFree_cons hcf).2

/-- `create_variable_dict` of good arguments over a good accumulator is
good. -/
theorem createVariableDict_good {m : Nat} :
    ∀ (ps args : List PyVal) (acc d : List (String × PyVal)),
      goodValList m args = true → goodVars m acc = true →
      createVariableDict ps args acc = Except.ok d → goodVars m d = true
  | [], _, acc, d, _, hacc, h => by
    have h2 : Except.ok acc = Except.ok d := h
    injection h2 with h3
    subst h3
    exact hacc
  | _ :: _, [], _, _, _, _, h => Except.noConfusion h
  | p :: ps, a :: args, acc, d, hargs, hacc, h => by
    rw [show goodValList m (a :: args) = (goodVal m a && goodValList m args)
      from rfl, Bool.and_eq_true] at hargs
    exact createVariableDict_good ps args (dictSetPy acc p a) d hargs.2
      (goodVars_dictSetPy hacc hargs.1 p) h

/-- `simplify_non_list` satisfies the simulation property at every
tree. -/
theorem simplifyNonList_sim (n : Nat) (τ : State) (t : PyVal) :
    StepOK n τ (simplifyNonList t) := by
  intro fid σ hσ hfid hn
  constructor
  · have hlook : ∀ t' : PyVal,
        (frameLookup ((extendState n τ σ).length + 1) (extendState n τ σ)
            (some (shiftId n τ.length fid)) t' >>=
          fun v => Except.ok (v, extendState n τ σ)) =
        shiftRes n τ
          (frameLookup (σ.length + 1) σ (some fid) t' >>=
            fun v => Except.ok (v, σ)) := by
      intro t'
      rw [length_extendState n τ σ hn]
      have hshift := frameLookup_shift n τ σ hn (σ.length + τ.length + 1)
        (some fid) t'
      rw [show (some fid).map (shiftId n τ.length) =
        some (shiftId n τ.length fid) from rfl] at hshift
      rw [hshift]
      rw [frameLookup_fuel hσ t' fid hfid (σ.length + τ.length + 1)
        (σ.length + 1) (by omega) (by omega)]
      cases hl : frameLookup (σ.length + 1) σ (some fid) t' with
      | error e => rfl
      | ok v => rfl
    cases t with
    | int m => rfl
    | float q => rfl
    | bool b => rfl
    | str s => exact hlook (PyVal.str s)
    | list xs => exact hlook (PyVal.list xs)
    | pair a d => exact hlook (PyVal.pair a d)
    | closure pp bb ff => exact hlook (PyVal.closure pp bb ff)
    | builtin o => exact hlook (PyVal.builtin o)
  · intro v σ' h
    have hlookg : ∀ t' : PyVal,
        (frameLookup (σ.length + 1) σ (some fid) t' >>=
          fun w => Except.ok (w, σ)) = Except.ok (v, σ') →
        goodState σ' = true ∧ goodVal σ'.length v = true ∧
          σ.length ≤ σ'.length := by
      intro t' h2
      cases hl : frameLookup (σ.length + 1) σ (some fid) t' with
      | error e => rw [hl] at h2; exact Except.noConfusion h2
      | ok w =>
        rw [hl] at h2
        have h3 : Except.ok (w, σ) = Except.ok (v, σ') := h2
        injection h3 with h4
        injection h4 with h5 h6
        subst h5
        subst h6
        exact ⟨hσ, frameLookup_good hσ _ _ _ _ hl, Nat.le_refl _⟩
    have hatom : ∀ w : PyVal,
        (Except.ok (w, σ) : Except Err (PyVal × State)) = Except.ok (v, σ') →
        goodVal σ.length w = true →
        goodState σ' = true ∧ goodVal σ'.length v = true ∧
          σ.length ≤ σ'.length := by
      intro w h2 hw
      have h3 : w = v ∧ σ = σ' := by
        injection h2 with h4
        injection h4 with h5 h6
        exact ⟨h5, h6⟩
      obtain ⟨h5, h6⟩ := h3
      subst h5
      subst h6
      exact ⟨hσ, hw, Nat.le_refl _⟩
    cases t with
    | int m => exact hatom (PyVal.int m) h rfl
    | float q => exact hatom (PyVal.float q) h rfl
    | bool b => exact hatom (PyVal.bool b) h rfl
    | str s => exact hlookg (PyVal.str s) h
    | list xs => exact hlookg (PyVal.list xs) h
    | pair a d => exact hlookg (PyVal.pair a d) h
    | closure pp bb ff => exact hlookg (PyVal.closure pp bb ff) h
    | builtin o => exact hlookg (PyVal.builtin o) h

/-- The argument-list evaluation loop preserves the simulation. -/
theorem evalArgsF_sim (n : Nat) (τ : State)
    (ev : PyVal → Nat → State → Except Err (PyVal × State))
    (hev : EvOK n τ ev) :
    ∀ es : List PyVal, closureFreeList es = true →
      ArgsOK n τ (evalArgsF ev es)
  | [], _ => by
    intro fid σ hσ hfid hn
    constructor
    · rfl
    · intro vs σ' h
      have h2 : (Except.ok (([] : List PyVal), σ) :
          Except Err (List PyVal × State)) = Except.ok (vs, σ') := h
      injection h2 with h3
      injection h3 with h4 h5
      subst h4
      subst h5
      exact ⟨hσ, rfl, Nat.le_refl _⟩
  | e :: es, hcf => by
    obtain ⟨he, hes⟩ := closureFree_cons hcf
    intro fid σ hσ hfid hn
    have h1 := hev e he fid σ hσ hfid hn
    constructor
    · simp only [evalArgsF]
      rw [h1.1]
      cases h2 : ev e fid σ with
      | error er => rfl
      | ok p =>
        obtain ⟨v, σ1⟩ := p
        obtain ⟨hg1, hg2, hg3⟩ := h1.2 v σ1 h2
        have hih := evalArgsF_sim n τ ev hev es hes fid σ1 hg1 (by omega)
          (by omega)
        simp only [shiftRes, exceptBindOk]
        rw [hih.1]
        cases h3 : evalArgsF ev es fid σ1 with
        | error er => rfl
        | ok q =>
          obtain ⟨vs2, σ2⟩ := q
          rfl
    · intro vs σ' h
      simp only [evalArgsF] at h
      cases h2 : ev e fid σ with
      | error er => rw [h2] at h; exact Except.noConfusion h
      | ok p =>
        obtain ⟨v, σ1⟩ := p
        rw [h2] at h
        simp only [exceptBindOk] at h
        obtain ⟨hg1, hg2, hg3⟩ := h1.2 v σ1 h2
        cases h3 : evalArgsF ev es fid σ1 with
        | error er => rw [h3] at h; exact Except.noConfusion h
        | ok q =>
          obtain ⟨vs2, σ2⟩ := q
          rw [h3] at h
          have h4 : (Except.ok (v :: vs2, σ2) :
              Except Err (List PyVal × State)) = Except.ok (vs, σ') := h
          injection h4 with h5
          injection h5 with h6 h7
          subst h6
          subst h7
          obtain ⟨hh1, hh2, hh3⟩ := (evalArgsF_sim n τ ev hev es hes fid σ1
            hg1 (by omega) (by omega)).2 vs2 σ2 h3
          refine ⟨hh1, ?_, by omega⟩
          rw [show goodValList σ2.length (v :: vs2) =
            (goodVal σ2.length v && goodValList σ2.length vs2) from rfl,
            Bool.and_eq_true]
          exact ⟨goodVal_mono (by omega) v hg2, hh2⟩

/-- The `begin` discard loop preserves the simulation. -/
theorem evalSeqDiscardF_sim (n : Nat) (τ : State)
    (ev : PyVal → Nat → State → Except Err (PyVal × State))
    (hev : EvOK n τ ev) :
    ∀ es : List PyVal, closureFreeList es = true →
      SeqOK n τ (evalSeqDiscardF ev es)
  | [], _ => by
    intro fid σ hσ hfid hn
    refine ⟨rfl, ?_⟩
    intro σ' h
    have h2 : (Except.ok σ : Except Err State) = Except.ok σ' := h
    injection h2 with h3
    subst h3
    exact ⟨hσ, Nat.le_refl _⟩
  | e :: es, hcf => by
    obtain ⟨he, hes⟩ := closureFree_cons hcf
    intro fid σ hσ hfid hn
    have h1 := hev e he fid σ hσ hfid hn
    constructor
    · simp only [evalSeqDiscardF]
      rw [h1.1]
      cases h2 : ev e fid σ with
      | error er => rfl
      | ok p =>
        obtain ⟨v, σ1⟩ := p
        obtain ⟨hg1, hg2, hg3⟩ := h1.2 v σ1 h2
        have hih := evalSeqDiscardF_sim n τ ev hev es hes fid σ1 hg1
          (by omega) (by omega)
        simp only [shiftRes, exceptBindOk]
        rw [hih.1]
    · intro σ' h
      simp only [evalSeqDiscardF] at h
      cases h2 : ev e fid σ with
      | error er => rw [h2] at h; exact Except.noConfusion h
      | ok p =>
        obtain ⟨v, σ1⟩ := p
        rw [h2] at h
        simp only [exceptBindOk] at h
        obtain ⟨hg1, hg2, hg3⟩ := h1.2 v σ1 h2
        obtain ⟨hh1, hh2⟩ := (evalSeqDiscardF_sim n τ ev hev es hes fid σ1
          hg1 (by omega) (by omega)).2 σ' h
        exact ⟨hh1, by omega⟩

/-- The `list` chaining loop preserves the simulation. -/
theorem createLinkedListF_sim (n : Nat) (τ : State)
    (ev : PyVal → Nat → State → Except Err (PyVal × State))
    (hev : EvOK n τ ev) :
    ∀ es : List PyVal, closureFreeList es = true →
      StepOK n τ (createLinkedListF ev es)
  | [], _ => by
    intro fid σ hσ hfid hn
    refine ⟨rfl, ?_⟩
    intro v σ' h
    have h2 : (Except.ok (PyVal.list [], σ) :
        Except Err (PyVal × State)) = Except.ok (v, σ') := h
    injection h2 with h3
    injection h3 with h4 h5
    subst h4
    subst h5
    exact ⟨hσ, rfl, Nat.le_refl _⟩
  | e :: es, hcf => by
    obtain ⟨he, hes⟩ := closureFree_cons hcf
    intro fid σ hσ hfid hn
    have h1 := hev e he fid σ hσ hfid hn
    constructor
    · simp only [createLinkedListF]
      rw [h1.1]
      cases h2 : ev e fid σ with
      | error er => rfl
      | ok p =>
        obtain ⟨v, σ1⟩ := p
        obtain ⟨hg1, hg2, hg3⟩ := h1.2 v σ1 h2
        have hih := createLinkedListF_sim n τ ev hev es hes fid σ1 hg1
          (by omega) (by omega)
        simp only [shiftRes, exceptBindOk]
        rw [hih.1]
        cases h3 : createLinkedListF ev es fid σ1 with
        | error er => rfl
        | ok q =>
          obtain ⟨tl, σ2⟩ := q
          rfl
    · intro v σ' h
      simp only [createLinkedListF] at h
      cases h2 : ev e fid σ with
      | error er => rw [h2] at h; exact Except.noConfusion h
      | ok p =>
        obtain ⟨w, σ1⟩ := p
        rw [h2] at h
        simp only [exceptBindOk] at h
        obtain ⟨hg1, hg2, hg3⟩ := h1.2 w σ1 h2
        cases h3 : createLinkedListF ev es fid σ1 with
        | error er => rw [h3] at h; exact Except.noConfusion h
        | ok q =>
          obtain ⟨tl, σ2⟩ := q
          rw [h3] at h
          have h4 : (Except.ok (PyVal.pair w tl, σ2) :
              Except Err (PyVal × State)) = Except.ok (v, σ') := h
          injection h4 with h5
          injection h5 with h6 h7
          subst h6
          subst h7
          obtain ⟨hh1, hh2, hh3⟩ := (createLinkedListF_sim n τ ev hev es hes
            fid σ1 hg1 (by omega) (by omega)).2 tl σ2 h3
          refine ⟨hh1, ?_, by omega⟩
          rw [show goodVal σ2.length (PyVal.pair w tl) =
            (goodVal σ2.length w && goodVal σ2.length tl) from rfl,
            Bool.and_eq_true]
          exact ⟨goodVal_mono (by omega) w hg2, hh2⟩

/-- The `and` loop preserves the simulation. -/
theorem evaluateAndF_sim (n : Nat) (τ : State)
    (ev : PyVal → Nat → State → Except Err (PyVal × State))
    (hev : EvOK n τ ev) :
    ∀ es : List PyVal, closureFreeList es = true →
      StepOK n τ (evaluateAndF ev es)
  | [], _ => by
    intro fid σ hσ hfid hn
    refine ⟨rfl, ?_⟩
    intro v σ' h
    have h2 : (Except.ok (PyVal.bool true, σ) :
        Except Err (PyVal × State)) = Except.ok (v, σ') := h
    injection h2 with h3
    injection h3 with h4 h5
    subst h4
    subst h5
    exact ⟨hσ, rfl, Nat.le_refl _⟩
  | e :: es, hcf => by
    obtain ⟨he, hes⟩ := closureFree_cons hcf
    intro fid σ hσ hfid hn
    have h1 := hev e he fid σ hσ hfid hn
    constructor
    · simp only [evaluateAndF]
      rw [h1.1]
      cases h2 : ev e fid σ with
      | error er => rfl
      | ok p =>
        obtain ⟨v, σ1⟩ := p
        obtain ⟨hg1, hg2, hg3⟩ := h1.2 v σ1 h2
        simp only [shiftRes, exceptBindOk, pyTruthy_shiftV]
        cases ht : pyTruthy v with
        | true =>
          have hih := evaluateAndF_sim n τ ev hev es hes fid σ1 hg1
            (by omega) (by omega)
          rw [hih.1]
          cases h3 : evaluateAndF ev es fid σ1 with
          | error er => rfl
          | ok q =>
            obtain ⟨w, σ2⟩ := q
            rfl
        | false => rfl
    · intro v σ' h
      simp only [evaluateAndF] at h
      cases h2 : ev e fid σ with
      | error er => rw [h2] at h; exact Except.noConfusion h
      | ok p =>
        obtain ⟨w, σ1⟩ := p
        rw [h2] at h
        simp only [exceptBindOk] at h
        obtain ⟨hg1, hg2, hg3⟩ := h1.2 w σ1 h2
        cases ht : pyTruthy w with
        | true =>
          rw [ht] at h
          simp only [if_true] at h
          obtain ⟨hh1, hh2, hh3⟩ := (evaluateAndF_sim n τ ev hev es hes fid
            σ1 hg1 (by omega) (by omega)).2 v σ' h
          exact ⟨hh1, hh2, by omega⟩
        | false =>
          rw [ht] at h
          simp only [Bool.false_eq_true, if_false] at h
          have h4 : (Except.ok (PyVal.bool false, σ1) :
              Except Err (PyVal × State)) = Except.ok (v, σ') := h
          injection h4 with h5
          injection h5 with h6 h7
          subst h6
          subst h7
          exact ⟨hg1, rfl, by omega⟩

/-- The `or` loop preserves the simulation. -/
theorem evaluateOrF_sim (n : Nat) (τ : State)
    (ev : PyVal → Nat → State → Except Err (PyVal × State))
    (hev : EvOK n τ ev) :
    ∀ es : List PyVal, closureFreeList es = true →
      StepOK n τ (evaluateOrF ev es)
  | [], _ => by
    intro fid σ hσ hfid hn
    refine ⟨rfl, ?_⟩
    intro v σ' h
    have h2 : (Except.ok (PyVal.bool false, σ) :
        Except Err (PyVal × State)) = Except.ok (v, σ') := h
    injection h2 with h3
    injection h3 with h4 h5
    subst h4
    subst h5
    exact ⟨hσ, rfl, Nat.le_refl _⟩
  | e :: es, hcf => by
    obtain ⟨he, hes⟩ := closureFree_cons hcf
    intro fid σ hσ hfid hn
    have h1 := hev e he fid σ hσ hfid hn
    constructor
    · simp only [evaluateOrF]
      rw [h1.1]
      cases h2 : ev e fid σ with
      | error er => rfl
      | ok p =>
        obtain ⟨v, σ1⟩ := p
        obtain ⟨hg1, hg2, hg3⟩ := h1.2 v σ1 h2
        simp only [shiftRes, exceptBindOk, pyTruthy_shiftV]
        cases ht : pyTruthy v with
        | true => rfl
        | false =>
          have hih := evaluateOrF_sim n τ ev hev es hes fid σ1 hg1
            (by omega) (by omega)
          rw [hih.1]
          cases h3 : evaluateOrF ev es fid σ1 with
          | error er => rfl
          | ok q =>
            obtain ⟨w, σ2⟩ := q
            rfl
    · intro v σ' h
      simp only [evaluateOrF] at h
      cases h2 : ev e fid σ with
      | error er => rw [h2] at h; exact Except.noConfusion h
      | ok p =>
        obtain ⟨w, σ1⟩ := p
        rw [h2] at h
        simp only [exceptBindOk] at h
        obtain ⟨hg1, hg2, hg3⟩ := h1.2 w σ1 h2
        cases ht : pyTruthy w with
        | true =>
          rw [ht] at h
          simp only [if_true] at h
          have h4 : (Except.ok (PyVal.bool true, σ1) :
              Except Err (PyVal × State)) = Except.ok (v, σ') := h
          injection h4 with h5
          injection h5 with h6 h7
          subst h6
          subst h7
          exact ⟨hg1, rfl, by omega⟩
        | false =>
          rw [ht] at h
          simp only [Bool.false_eq_true, if_false] at h
          obtain ⟨hh1, hh2, hh3⟩ := (evaluateOrF_sim n τ ev hev es hes fid
            σ1 hg1 (by omega) (by omega)).2 v σ' h
          exact ⟨hh1, hh2, by omega⟩

/-- The `let` binding loop preserves the simulation, renaming the local
dict being built alongside the store. -/
theorem evalBindingsF_sim (n : Nat) (τ : State)
    (ev : PyVal → Nat → State → Except Err (PyVal × State))
    (hev : EvOK n τ ev) :
    ∀ bs : List PyVal, closureFreeList bs = true →
      ∀ (acc : List (String × PyVal)) (fid : Nat) (σ : State),
        goodState σ = true → fid < σ.length → n ≤ σ.length →
        (evalBindingsF ev bs (shiftId n τ.length fid) (extendState n τ σ)
            (shiftVars n τ.length acc) =
          (match evalBindingsF ev bs fid σ acc with
           | .ok (d, σ') => Except.ok (shiftVars n τ.length d,
               extendState n τ σ')
           | .error e => Except.error e))
        ∧ ∀ d σ', evalBindingsF ev bs fid σ acc = Except.ok (d, σ') →
            goodVars σ.length acc = true →
            goodState σ' = true ∧ goodVars σ'.length d = true ∧
              σ.length ≤ σ'.length
  | [], _ => by
    intro acc fid σ hσ hfid hn
    refine ⟨rfl, ?_⟩
    intro d σ' h hacc
    have h2 : (Except.ok (acc, σ) :
        Except Err (List (String × PyVal) × State)) = Except.ok (d, σ') := h
    injection h2 with h3
    injection h3 with h4 h5
    subst h4
    subst h5
    exact ⟨hσ, hacc, Nat.le_refl _⟩
  | b :: bs, hcf => by
    obtain ⟨hb, hbs⟩ := closureFree_cons hcf
    intro acc fid σ hσ hfid hn
    constructor
    · simp only [evalBindingsF]
      cases hx : pyIndex b 1 with
      | error er => rfl
      | ok vexp =>
        have hvexp : closureFree vexp = true := pyIndex_closureFree hb hx
        simp only [exceptBindOk]
        have h1 := hev vexp hvexp fid σ hσ hfid hn
        rw [h1.1]
        cases h2 : ev vexp fid σ with
        | error er => rfl
        | ok p =>
          obtain ⟨v, σ1⟩ := p
          obtain ⟨hg1, hg2, hg3⟩ := h1.2 v σ1 h2
          simp only [shiftRes, exceptBindOk]
          cases hk : pyIndex b 0 with
          | error er => rfl
          | ok key =>
            have hkey : closureFree key = true := pyIndex_closureFree hb hk
            simp only [exceptBindOk]
            rw [dictSetPy_shiftV_cf n τ.length acc key v hkey]
            have hih := evalBindingsF_sim n τ ev hev bs hbs
              (dictSetPy acc key v) fid σ1 hg1 (by omega) (by omega)
            rw [hih.1]
    · intro d σ' h hacc
      simp only [evalBindingsF] at h
      cases hx : pyIndex b 1 with
      | error er => rw [hx] at h; exact Except.noConfusion h
      | ok vexp =>
        rw [hx] at h
        simp only [exceptBindOk] at h
        have hvexp : closureFree vexp = true := pyIndex_closureFree hb hx
        have h1 := hev vexp hvexp fid σ hσ hfid hn
        cases h2 : ev vexp fid σ with
        | error er => rw [h2] at h; exact Except.noConfusion h
        | ok p =>
          obtain ⟨v, σ1⟩ := p
          rw [h2] at h
          simp only [exceptBindOk] at h
          obtain ⟨hg1, hg2, hg3⟩ := h1.2 v σ1 h2
          cases hk : pyIndex b 0 with
          | error er => rw [hk] at h; exact Except.noConfusion h
          | ok key =>
            rw [hk] at h
            simp only [exceptBindOk] at h
            obtain ⟨hh1, hh2, hh3⟩ := (evalBindingsF_sim n τ ev hev bs hbs
              (dictSetPy acc key v) fid σ1 hg1 (by omega) (by omega)).2
              d σ' h
              (goodVars_dictSetPy (goodVars_mono (by omega) hacc) hg2 key)
            exact ⟨hh1, hh2, by omega⟩

/-- The `cons` special-form branch preserves the simulation. -/
theorem consBranchF_sim (n : Nat) (τ : State)
    (ev : PyVal → Nat → State → Except Err (PyVal × State))
    (hev : EvOK n τ ev) (rest : List PyVal)
    (hcf : closureFreeList rest = true) :
    StepOK n τ (consBranchF ev rest) := by
  intro fid σ hσ hfid hn
  cases rest with
  | nil => exact ⟨rfl, fun v σ' h => Except.noConfusion h⟩
  | cons e1 rest1 =>
    cases rest1 with
    | nil => exact ⟨rfl, fun v σ' h => Except.noConfusion h⟩
    | cons e2 rest2 =>
      cases rest2 with
      | cons z zs => exact ⟨rfl, fun v σ' h => Except.noConfusion h⟩
      | nil =>
        obtain ⟨he1, hcf2⟩ := closureFree_cons hcf
        obtain ⟨he2, _⟩ := closureFree_cons hcf2
        constructor
        · simp only [consBranchF]
          cases ht : pyTruthy e2 with
          | false =>
            simp only [Bool.not_false, eq_self_iff_true, if_true, shiftRes,
              shiftV, shiftVList]
            rw [shiftV_closureFree n τ.length e1 he1]
          | true =>
            simp only [Bool.not_true, Bool.false_eq_true, if_false]
            have h1 := hev e1 he1 fid σ hσ hfid hn
            rw [h1.1]
            cases h2 : ev e1 fid σ with
            | error er => rfl
            | ok p =>
              obtain ⟨a, σ1⟩ := p
              obtain ⟨hg1, hg2, hg3⟩ := h1.2 a σ1 h2
              have h4 := hev e2 he2 fid σ1 hg1 (by omega) (by omega)
              simp only [shiftRes, exceptBindOk]
              rw [h4.1]
              cases h5 : ev e2 fid σ1 with
              | error er => rfl
              | ok q =>
                obtain ⟨d, σ2⟩ := q
                rfl
        · intro v σ' h
          simp only [consBranchF] at h
          cases ht : pyTruthy e2 with
          | false =>
            rw [ht] at h
            simp only [Bool.not_false, eq_self_iff_true, if_true] at h
            have h2 : (Except.ok (PyVal.pair e1 (PyVal.list []), σ) :
                Except Err (PyVal × State)) = Except.ok (v, σ') := h
            injection h2 with h3
            injection h3 with h4 h5
            subst h4
            subst h5
            refine ⟨hσ, ?_, Nat.le_refl _⟩
            refine goodVal_of_closureFree _ _ ?_
            rw [show closureFree (PyVal.pair e1 (PyVal.list [])) =
              (closureFree e1 && closureFree (PyVal.list [])) from rfl]
            rw [he1]
            rfl
          | true =>
            rw [ht] at h
            simp only [Bool.not_true, Bool.false_eq_true, if_false] at h
            cases h2 : ev e1 fid σ with
            | error er => rw [h2] at h; exact Except.noConfusion h
            | ok p =>
              obtain ⟨a, σ1⟩ := p
              rw [h2] at h
              simp only [exceptBindOk] at h
              obtain ⟨hg1, hg2, hg3⟩ :=
                (hev e1 he1 fid σ hσ hfid hn).2 a σ1 h2
              cases h5 : ev e2 fid σ1 with
              | error er => rw [h5] at h; exact Except.noConfusion h
              | ok q =>
                obtain ⟨d, σ2⟩ := q
                rw [h5] at h
                simp only [exceptBindOk] at h
                obtain ⟨hj1, hj2, hj3⟩ := (hev e2 he2 fid σ1 hg1 (by omega)
                  (by omega)).2 d σ2 h5
                have h6 : (Except.ok (PyVal.pair a d, σ2) :
                    Except Err (PyVal × State)) = Except.ok (v, σ') := h
                injection h6 with h7
                injection h7 with h8 h9
                subst h8
                subst h9
                refine ⟨hj1, ?_, by omega⟩
                rw [show goodVal σ2.length (PyVal.pair a d) =
                  (goodVal σ2.length a && goodVal σ2.length d) from rfl,
                  Bool.and_eq_true]
                exact ⟨goodVal_mono (by omega) a hg2, hj2⟩

/-- The `begin` branch preserves the simulation. -/
theorem beginBranchF_sim (n : Nat) (τ : State)
    (ev : PyVal → Nat → State → Except Err (PyVal × State))
    (hev : EvOK n τ ev) (rest : List PyVal)
    (hcf : closureFreeList rest = true) :
    StepOK n τ (beginBranchF ev rest) := by
  intro fid σ hσ hfid hn
  cases rest with
  | nil => exact hev (PyVal.str "begin") rfl fid σ hσ hfid hn
  | cons r rs =>
    obtain ⟨hr, hrs⟩ := closureFree_cons hcf
    have hseq := evalSeqDiscardF_sim n τ ev hev ((r :: rs).dropLast)
      (closureFreeList_dropLast (r :: rs) hcf) fid σ hσ hfid hn
    have hlast : closureFree (lastOf r rs) = true :=
      closureFree_lastOf rs r hr hrs
    constructor
    · simp only [beginBranchF]
      rw [hseq.1]
      cases h2 : evalSeqDiscardF ev ((r :: rs).dropLast) fid σ with
      | error er => rfl
      | ok σ1 =>
        obtain ⟨hg1, hg3⟩ := hseq.2 σ1 h2
        simp only [exceptBindOk]
        exact (hev (lastOf r rs) hlast fid σ1 hg1 (by omega) (by omega)).1
    · intro v σ' h
      simp only [beginBranchF] at h
      cases h2 : evalSeqDiscardF ev ((r :: rs).dropLast) fid σ with
      | error er => rw [h2] at h; exact Except.noConfusion h
      | ok σ1 =>
        rw [h2] at h
        simp only [exceptBindOk] at h
        obtain ⟨hg1, hg3⟩ := hseq.2 σ1 h2
        obtain ⟨hh1, hh2, hh3⟩ := (hev (lastOf r rs) hlast fid σ1 hg1
          (by omega) (by omega)).2 v σ' h
        exact ⟨hh1, hh2, by omega⟩

/-- The `if` branch preserves the simulation. -/
theorem ifBranchF_sim (n : Nat) (τ : State)
    (ev : PyVal → Nat → State → Except Err (PyVal × State))
    (hev : EvOK n τ ev) (rest : List PyVal)
    (hcf : closureFreeList rest = true) :
    StepOK n τ (ifBranchF ev rest) := by
  intro fid σ hσ hfid hn
  cases rest with
  | nil => exact ⟨rfl, fun v σ' h => Except.noConfusion h⟩
  | cons c rest2 =>
    obtain ⟨hc, hrest2⟩ := closureFree_cons hcf
    have h1 := hev c hc fid σ hσ hfid hn
    constructor
    · simp only [ifBranchF]
      rw [h1.1]
      cases h2 : ev c fid σ with
      | error er => rfl
      | ok p =>
        obtain ⟨cv, σ1⟩ := p
        obtain ⟨hg1, hg2, hg3⟩ := h1.2 cv σ1 h2
        simp only [shiftRes, exceptBindOk, pyTruthy_shiftV]
        cases ht : pyTruthy cv with
        | true =>
          cases rest2 with
          | nil => rfl
          | cons t rest3 =>
            exact (hev t (closureFree_cons hrest2).1 fid σ1 hg1 (by omega)
              (by omega)).1
        | false =>
          cases rest2 with
          | nil => rfl
          | cons t rest3 =>
            cases rest3 with
            | nil => rfl
            | cons e rest4 =>
              exact (hev e (closureFree_cons (closureFree_cons hrest2).2).1
                fid σ1 hg1 (by omega) (by omega)).1
    · intro v σ' h
      simp only [ifBranchF] at h
      cases h2 : ev c fid σ with
      | error er => rw [h2] at h; exact Except.noConfusion h
      | ok p =>
        obtain ⟨cv, σ1⟩ := p
        rw [h2] at h
        simp only [exceptBindOk] at h
        obtain ⟨hg1, hg2, hg3⟩ := h1.2 cv σ1 h2
        cases ht : pyTruthy cv with
        | true =>
          rw [ht] at h
          simp only [if_true] at h
          cases rest2 with
          | nil => exact Except.noConfusion h
          | cons t rest3 =>
            obtain ⟨hh1, hh2, hh3⟩ := (hev t (closureFree_cons hrest2).1 fid
              σ1 hg1 (by omega) (by omega)).2 v σ' h
            exact ⟨hh1, hh2, by omega⟩
        | false =>
          rw [ht] at h
          simp only [Bool.false_eq_true, if_false] at h
          cases rest2 with
          | nil => exact Except.noConfusion h
          | cons t rest3 =>
            cases rest3 with
            | nil => exact Except.noConfusion h
            | cons e rest4 =>
              obtain ⟨hh1, hh2, hh3⟩ := (hev e
                (closureFree_cons (closureFree_cons hrest2).2).1 fid σ1 hg1
                (by omega) (by omega)).2 v σ' h
              exact ⟨hh1, hh2, by omega⟩

/-- The `set!` branch preserves the simulation. -/
theorem setBranchF_sim (n : Nat) (τ : State)
    (ev : PyVal → Nat → State → Except Err (PyVal × State))
    (hev : EvOK n τ ev) (rest : List PyVal)
    (hcf : closureFreeList rest = true) :
    StepOK n τ (setBranchF ev rest) := by
  intro fid σ hσ hfid hn
  cases rest with
  | nil => exact ⟨rfl, fun v σ' h => Except.noConfusion h⟩
  | cons t1 rest1 =>
    cases rest1 with
    | nil => exact ⟨rfl, fun v σ' h => Except.noConfusion h⟩
    | cons t2 rest2 =>
      cases rest2 with
      | cons z zs => exact ⟨rfl, fun v σ' h => Except.noConfusion h⟩
      | nil =>
        obtain ⟨ht1, hcf1⟩ := closureFree_cons hcf
        obtain ⟨ht2, _⟩ := closureFree_cons hcf1
        have h1 := hev t2 ht2 fid σ hσ hfid hn
        constructor
        · simp only [setBranchF]
          rw [h1.1]
          cases h2 : ev t2 fid σ with
          | error er => rfl
          | ok p =>
            obtain ⟨v, σ1⟩ := p
            obtain ⟨hg1, hg2, hg3⟩ := h1.2 v σ1 h2
            simp only [shiftRes, exceptBindOk]
            rw [length_extendState n τ σ1 (by omega)]
            rw [evaluateSet_shift n τ σ1 (by omega) v
              (σ1.length + τ.length + 1) t1 fid]
            rw [evaluateSet_fuel hg1 t1 v fid (by omega)
              (σ1.length + τ.length + 1) (σ1.length + 1) (by omega)
              (by omega)]
            cases h3 : evaluateSet (σ1.length + 1) t1 v fid σ1 with
            | error er => rfl
            | ok σ2 => rfl
        · intro v σ' h
          simp only [setBranchF] at h
          cases h2 : ev t2 fid σ with
          | error er => rw [h2] at h; exact Except.noConfusion h
          | ok p =>
            obtain ⟨w, σ1⟩ := p
            rw [h2] at h
            simp only [exceptBindOk] at h
            obtain ⟨hg1, hg2, hg3⟩ := h1.2 w σ1 h2
            cases h3 : evaluateSet (σ1.length + 1) t1 w fid σ1 with
            | error er => rw [h3] at h; exact Except.noConfusion h
            | ok σ2 =>
              rw [h3] at h
              simp only [exceptBindOk] at h
              have h4 : (Except.ok (w, σ2) : Except Err (PyVal × State)) =
                  Except.ok (v, σ') := h
              injection h4 with h5
              injection h5 with h6 h7
              subst h6
              subst h7
              obtain ⟨hh1, hh2⟩ := evaluateSet_good hg1 hg2 (σ1.length + 1)
                t1 fid σ2 h3
              refine ⟨hh1, ?_, by omega⟩
              rw [hh2]
              exact hg2

/-- The `lambda` branch preserves the simulation. -/
theorem lambdaBranch_sim (n : Nat) (τ : State) (rest : List PyVal)
    (hcf : closureFreeList rest = true) :
    StepOK n τ (lambdaBranch rest) := by
  intro fid σ hσ hfid hn
  cases rest with
  | nil => exact ⟨rfl, fun v σ' h => Except.noConfusion h⟩
  | cons p rest1 =>
    cases rest1 with
    | nil => exact ⟨rfl, fun v σ' h => Except.noConfusion h⟩
    | cons b rest2 =>
      obtain ⟨hp, hcf1⟩ := closureFree_cons hcf
      obtain ⟨hb, _⟩ := closureFree_cons hcf1
      constructor
      · show Except.ok (PyVal.closure p b (shiftId n τ.length fid),
            extendState n τ σ) =
          shiftRes n τ (Except.ok (PyVal.closure p b fid, σ))
        rw [show shiftRes n τ (Except.ok (PyVal.closure p b fid, σ)) =
          Except.ok (PyVal.closure (shiftV n τ.length p)
            (shiftV n τ.length b) (shiftId n τ.length fid),
            extendState n τ σ) from rfl]
        rw [shiftV_closureFree n τ.length p hp,
          shiftV_closureFree n τ.length b hb]
      · intro v σ' h
        have h2 : (Except.ok (PyVal.closure p b fid, σ) :
            Except Err (PyVal × State)) = Except.ok (v, σ') := h
        injection h2 with h3
        injection h3 with h4 h5
        subst h4
        subst h5
        refine ⟨hσ, ?_, Nat.le_refl _⟩
        rw [show goodVal σ.length (PyVal.closure p b fid) =
          (decide (fid < σ.length) && closureFree p && closureFree b)
          from rfl]
        rw [hp, hb, decide_eq_true hfid]
        rfl

/-- `Function.__call__` preserves the simulation: the fresh local frame of
the renamed run is the renamed fresh local frame. -/
theorem applyClosureF_sim (n : Nat) (τ : State)
    (ev : PyVal → Nat → State → Except Err (PyVal × State))
    (hev : EvOK n τ ev) (p b : PyVal) (encF : Nat)
    (hp : closureFree p = true) (hb : closureFree b = true)
    (args : List PyVal) (σ : State) (hσ : goodState σ = true)
    (hn : n ≤ σ.length) (hencF : encF < σ.length)
    (hargs : goodValList σ.length args = true) :
    (applyClosureF ev p b (shiftId n τ.length encF)
        (shiftVList n τ.length args) (extendState n τ σ) =
      shiftRes n τ (applyClosureF ev p b encF args σ))
    ∧ ∀ v σ', applyClosureF ev p b encF args σ = Except.ok (v, σ') →
        goodState σ' = true ∧ goodVal σ'.length v = true ∧
          σ.length ≤ σ'.length := by
  constructor
  · simp only [applyClosureF]
    cases hplen : pyLen p with
    | error er => rfl
    | ok plen =>
      simp only [exceptBindOk]
      rw [length_shiftVList]
      by_cases harity : args.length ≠ plen
      · rw [if_pos harity, if_pos harity]
        rfl
      · rw [if_neg harity, if_neg harity]
        cases hiter : pyIter p with
        | error er => rfl
        | ok ps =>
          simp only [exceptBindOk]
          have hps : closureFreeList ps = true := pyIter_closureFree hp hiter
          have hcvd := createVariableDict_shift n τ.length ps args [] hps
          rw [show shiftVars n τ.length ([] : List (String × PyVal)) = []
            from rfl] at hcvd
          rw [hcvd]
          cases hd : createVariableDict ps args [] with
          | error er => rfl
          | ok d =>
            simp only [Except.map, exceptBindOk]
            rw [show (⟨some (shiftId n τ.length encF),
                shiftVars n τ.length d⟩ : PyFrame) =
              shiftFrame n τ.length ⟨some encF, d⟩ from rfl]
            rw [← extendState_append n τ σ ⟨some encF, d⟩ hn]
            rw [length_extendState n τ σ hn]
            rw [show σ.length + τ.length = shiftId n τ.length σ.length
              from by unfold shiftId; rw [if_neg (by omega)]]
            have hnewgood : goodState (σ ++ [⟨some encF, d⟩]) = true :=
              goodState_append hσ hencF (goodVars_mono (Nat.le_succ _)
                (createVariableDict_good ps args [] d hargs rfl hd))
            have h5 := hev b hb σ.length (σ ++ [⟨some encF, d⟩]) hnewgood
              (by rw [List.length_append, List.length_singleton]; omega)
              (by rw [List.length_append, List.length_singleton]; omega)
            rw [h5.1]
  · intro v σ' h
    simp only [applyClosureF] at h
    cases hplen : pyLen p with
    | error er => rw [hplen] at h; exact Except.noConfusion h
    | ok plen =>
      rw [hplen] at h
      simp only [exceptBindOk] at h
      by_cases harity : args.length ≠ plen
      · rw [if_pos harity] at h; exact Except.noConfusion h
      · rw [if_neg harity] at h
        cases hiter : pyIter p with
        | error er => rw [hiter] at h; exact Except.noConfusion h
        | ok ps =>
          rw [hiter] at h
          simp only [exceptBindOk] at h
          cases hd : createVariableDict ps args [] with
          | error er => rw [hd] at h; exact Except.noConfusion h
          | ok d =>
            rw [hd] at h
            simp only [exceptBindOk] at h
            have hnewgood : goodState (σ ++ [⟨some encF, d⟩]) = true :=
              goodState_append hσ hencF (goodVars_mono (Nat.le_succ _)
                (createVariableDict_good ps args [] d hargs rfl hd))
            obtain ⟨hh1, hh2, hh3⟩ := (hev b hb σ.length
              (σ ++ [⟨some encF, d⟩]) hnewgood
              (by rw [List.length_append, List.length_singleton]; omega)
              (by rw [List.length_append, List.length_singleton]; omega)).2
              v σ' h
            refine ⟨hh1, hh2, ?_⟩
            have hlen : (σ ++ [(⟨some encF, d⟩ : PyFrame)]).length =
                σ.length + 1 := by
              rw [List.length_append, List.length_singleton]
            omega

/-- The `let` branch preserves the simulation. -/
theorem letBranchF_sim (n : Nat) (τ : State)
    (ev : PyVal → Nat → State → Except Err (PyVal × State))
    (hev : EvOK n τ ev) (rest : List PyVal)
    (hcf : closureFreeList rest = true) :
    StepOK n τ (letBranchF ev rest) := by
  intro fid σ hσ hfid hn
  cases rest with
  | nil => exact ⟨rfl, fun v σ' h => Except.noConfusion h⟩
  | cons bArg rest1 =>
    cases rest1 with
    | nil => exact ⟨rfl, fun v σ' h => Except.noConfusion h⟩
    | cons body rest2 =>
      cases rest2 with
      | cons z zs => exact ⟨rfl, fun v σ' h => Except.noConfusion h⟩
      | nil =>
        obtain ⟨hbArg, hcf1⟩ := closureFree_cons hcf
        obtain ⟨hbody, _⟩ := closureFree_cons hcf1
        constructor
        · show evaluateLetF ev bArg body (shiftId n τ.length fid)
              (extendState n τ σ) =
            shiftRes n τ (evaluateLetF ev bArg body fid σ)
          simp only [evaluateLetF]
          cases hiter : pyIter bArg with
          | error er => rfl
          | ok bs =>
            simp only [exceptBindOk]
            have hbs : closureFreeList bs = true :=
              pyIter_closureFree hbArg hiter
            have hbind := evalBindingsF_sim n τ ev hev bs hbs [] fid σ hσ
              hfid hn
            have hb1 := hbind.1
            rw [show shiftVars n τ.length ([] : List (String × PyVal)) = []
              from rfl] at hb1
            rw [hb1]
            cases h3 : evalBindingsF ev bs fid σ [] with
            | error er => rfl
            | ok q =>
              obtain ⟨d, σ1⟩ := q
              obtain ⟨hg1, hgd, hg3⟩ := hbind.2 d σ1 h3 rfl
              simp only [exceptBindOk]
              rw [show (⟨some (shiftId n τ.length fid),
                  shiftVars n τ.length d⟩ : PyFrame) =
                shiftFrame n τ.length ⟨some fid, d⟩ from rfl]
              rw [← extendState_append n τ σ1 ⟨some fid, d⟩ (by omega)]
              rw [length_extendState n τ σ1 (by omega)]
              rw [show σ1.length + τ.length = shiftId n τ.length σ1.length
                from by unfold shiftId; rw [if_neg (by omega)]]
              have hnewgood : goodState (σ1 ++ [⟨some fid, d⟩]) = true :=
                goodState_append hg1 (by omega)
                  (goodVars_mono (Nat.le_succ _) hgd)
              have h5 := hev body hbody σ1.length (σ1 ++ [⟨some fid, d⟩])
                hnewgood
                (by rw [List.length_append, List.length_singleton]; omega)
                (by rw [List.length_append, List.length_singleton]; omega)
              rw [h5.1]
        · intro v σ' h
          have h0 : evaluateLetF ev bArg body fid σ = Except.ok (v, σ') := h
          simp only [evaluateLetF] at h0
          cases hiter : pyIter bArg with
          | error er => rw [hiter] at h0; exact Except.noConfusion h0
          | ok bs =>
            rw [hiter] at h0
            simp only [exceptBindOk] at h0
            have hbs : closureFreeList bs = true :=
              pyIter_closureFree hbArg hiter
            have hbind := evalBindingsF_sim n τ ev hev bs hbs [] fid σ hσ
              hfid hn
            cases h3 : evalBindingsF ev bs fid σ [] with
            | error er => rw [h3] at h0; exact Except.noConfusion h0
            | ok q =>
              obtain ⟨d, σ1⟩ := q
              rw [h3] at h0
              simp only [exceptBindOk] at h0
              obtain ⟨hg1, hgd, hg3⟩ := hbind.2 d σ1 h3 rfl
              have hnewgood : goodState (σ1 ++ [⟨some fid, d⟩]) = true :=
                goodState_append hg1 (by omega)
                  (goodVars_mono (Nat.le_succ _) hgd)
              obtain ⟨hh1, hh2, hh3⟩ := (hev body hbody σ1.length
                (σ1 ++ [⟨some fid, d⟩]) hnewgood
                (by rw [List.length_append, List.length_singleton]; omega)
                (by rw [List.length_append, List.length_singleton]; omega)).2
                v σ' h0
              refine ⟨hh1, hh2, ?_⟩
              have hlen : (σ1 ++ [(⟨some fid, d⟩ : PyFrame)]).length =
                  σ1.length + 1 := by
                rw [List.length_append, List.length_singleton]
              omega

/-- The `define` branch preserves the simulation: the store-then-re-look-up
tail and both operand shapes commute with the renaming. -/
theorem defineBranchF_sim (n : Nat) (τ : State)
    (ev : PyVal → Nat → State → Except Err (PyVal × State))
    (hev : EvOK n τ ev) (rest : List PyVal)
    (hcf : closureFreeList rest = true) :
    StepOK n τ (defineBranchF ev rest) := by
  intro fid σ hσ hfid hn
  have hstore : ∀ (σ1 : State) (name fv : PyVal),
      goodState σ1 = true → n ≤ σ1.length → fid < σ1.length →
      goodVal σ1.length fv = true →
      ((frameSetItem (extendState n τ σ1) (shiftId n τ.length fid) name
            (shiftV n τ.length fv) >>= fun σ2 =>
          frameLookup (σ2.length + 1) σ2 (some (shiftId n τ.length fid))
              name >>= fun v => Except.ok (v, σ2)) =
        shiftRes n τ
          (frameSetItem σ1 fid name fv >>= fun σ2 =>
            frameLookup (σ2.length + 1) σ2 (some fid) name >>=
              fun v => Except.ok (v, σ2)))
      ∧ ∀ v σ', (frameSetItem σ1 fid name fv >>= fun σ2 =>
            frameLookup (σ2.length + 1) σ2 (some fid) name >>=
              fun v => Except.ok (v, σ2)) = Except.ok (v, σ') →
          goodState σ' = true ∧ goodVal σ'.length v = true ∧
            σ1.length ≤ σ'.length := by
    intro σ1 name fv hg1 hn1 hfid1 hfv
    constructor
    · rw [frameSetItem_shift n τ σ1 hn1 fid name fv]
      cases hset : frameSetItem σ1 fid name fv with
      | error er => rfl
      | ok σ2 =>
        obtain ⟨hg2, hlen2⟩ := frameSetItem_good hg1 hfv fid name hset
        simp only [exceptBindOk]
        rw [length_extendState n τ σ2 (by omega)]
        have hshift := frameLookup_shift n τ σ2 (by omega)
          (σ2.length + τ.length + 1) (some fid) name
        rw [show (some fid).map (shiftId n τ.length) =
          some (shiftId n τ.length fid) from rfl] at hshift
        rw [hshift]
        rw [frameLookup_fuel hg2 name fid (by omega)
          (σ2.length + τ.length + 1) (σ2.length + 1) (by omega) (by omega)]
        cases hl : frameLookup (σ2.length + 1) σ2 (some fid) name with
        | error er => rfl
        | ok v => rfl
    · intro v σ' h
      cases hset : frameSetItem σ1 fid name fv with
      | error er => rw [hset] at h; exact Except.noConfusion h
      | ok σ2 =>
        rw [hset] at h
        simp only [exceptBindOk] at h
        obtain ⟨hg2, hlen2⟩ := frameSetItem_good hg1 hfv fid name hset
        cases hl : frameLookup (σ2.length + 1) σ2 (some fid) name with
        | error er => rw [hl] at h; exact Except.noConfusion h
        | ok w =>
          rw [hl] at h
          simp only [exceptBindOk] at h
          have h4 : (Except.ok (w, σ2) : Except Err (PyVal × State)) =
              Except.ok (v, σ') := h
          injection h4 with h5
          injection h5 with h6 h7
          subst h6
          subst h7
          exact ⟨hg2, frameLookup_good hg2 _ _ _ _ hl, by omega⟩
  cases rest with
  | nil => exact ⟨rfl, fun v σ' h => Except.noConfusion h⟩
  | cons t1 rest1 =>
    obtain ⟨ht1, hrest1⟩ := closureFree_cons hcf
    cases rest1 with
    | nil =>
      cases t1 <;> exact ⟨rfl, fun v σ' h => Except.noConfusion h⟩
    | cons t2 rest2 =>
      obtain ⟨ht2, _⟩ := closureFree_cons hrest1
      have helse : ∀ t1' : PyVal,
          ((ev t2 (shiftId n τ.length fid) (extendState n τ σ) >>= fun x =>
              frameSetItem x.2 (shiftId n τ.length fid) t1' x.1 >>=
                fun σ2 =>
                  frameLookup (σ2.length + 1) σ2
                      (some (shiftId n τ.length fid)) t1' >>=
                    fun v => Except.ok (v, σ2)) =
            shiftRes n τ (ev t2 fid σ >>= fun x =>
              frameSetItem x.2 fid t1' x.1 >>= fun σ2 =>
                frameLookup (σ2.length + 1) σ2 (some fid) t1' >>=
                  fun v => Except.ok (v, σ2)))
          ∧ ∀ v σ', (ev t2 fid σ >>= fun x =>
              frameSetItem x.2 fid t1' x.1 >>= fun σ2 =>
                frameLookup (σ2.length + 1) σ2 (some fid) t1' >>=
                  fun v => Except.ok (v, σ2)) = Except.ok (v, σ') →
              goodState σ' = true ∧ goodVal σ'.length v = true ∧
                σ.length ≤ σ'.length := by
        intro t1'
        have h1 := hev t2 ht2 fid σ hσ hfid hn
        constructor
        · rw [h1.1]
          cases h2 : ev t2 fid σ with
          | error er => rfl
          | ok q =>
            obtain ⟨v0, σ1⟩ := q
            obtain ⟨hg1, hgv, hg3⟩ := h1.2 v0 σ1 h2
            simp only [shiftRes, exceptBindOk]
            exact (hstore σ1 t1' v0 hg1 (by omega) (by omega) hgv).1
        · intro v σ' h
          cases h2 : ev t2 fid σ with
          | error er => rw [h2] at h; exact Except.noConfusion h
          | ok q =>
            obtain ⟨v0, σ1⟩ := q
            rw [h2] at h
            simp only [exceptBindOk] at h
            obtain ⟨hg1, hgv, hg3⟩ := h1.2 v0 σ1 h2
            obtain ⟨hh1, hh2, hh3⟩ := (hstore σ1 t1' v0 hg1 (by omega)
              (by omega) hgv).2 v σ' h
            exact ⟨hh1, hh2, by omega⟩
      cases t1 with
      | list ps =>
        have hlam : closureFree (PyVal.list [PyVal.str "lambda",
            PyVal.list (ps.drop 1), t2]) = true := by
          rw [show closureFree (PyVal.list [PyVal.str "lambda",
              PyVal.list (ps.drop 1), t2]) =
            (closureFree (PyVal.str "lambda") &&
              (closureFree (PyVal.list (ps.drop 1)) &&
                (closureFree t2 && true))) from rfl]
          rw [show closureFree (PyVal.list (ps.drop 1)) =
            closureFreeList (ps.drop 1) from rfl]
          rw [closureFreeList_drop 1 ps ht1, ht2]
          rfl
        have h1 := hev _ hlam fid σ hσ hfid hn
        constructor
        · simp only [defineBranchF]
          rw [h1.1]
          cases h2 : ev (PyVal.list [PyVal.str "lambda",
              PyVal.list (ps.drop 1), t2]) fid σ with
          | error er => rfl
          | ok q =>
            obtain ⟨fv, σ1⟩ := q
            obtain ⟨hg1, hgfv, hg3⟩ := h1.2 fv σ1 h2
            simp only [shiftRes, exceptBindOk]
            cases ps with
            | nil => rfl
            | cons name ps2 =>
              exact (hstore σ1 name fv hg1 (by omega) (by omega) hgfv).1
        · intro v σ' h
          simp only [defineBranchF] at h
          cases h2 : ev (PyVal.list [PyVal.str "lambda",
              PyVal.list (ps.drop 1), t2]) fid σ with
          | error er => rw [h2] at h; exact Except.noConfusion h
          | ok q =>
            obtain ⟨fv, σ1⟩ := q
            rw [h2] at h
            simp only [exceptBindOk] at h
            obtain ⟨hg1, hgfv, hg3⟩ := h1.2 fv σ1 h2
            cases ps with
            | nil => exact Except.noConfusion h
            | cons name ps2 =>
              obtain ⟨hh1, hh2, hh3⟩ := (hstore σ1 name fv hg1 (by omega)
                (by omega) hgfv).2 v σ' h
              exact ⟨hh1, hh2, by omega⟩
      | int m => exact helse (PyVal.int m)
      | float q => exact helse (PyVal.float q)
      | bool bb => exact helse (PyVal.bool bb)
      | str s => exact helse (PyVal.str s)
      | pair a d => exact helse (PyVal.pair a d)
      | closure pp bb ff => exact helse (PyVal.closure pp bb ff)
      | builtin o => exact helse (PyVal.builtin o)

/-- One step of `evaluate` preserves the simulation: every special form
and the application path commute with the fresh-frame renaming and keep
the store good. -/
theorem evaluateStep_sim (n : Nat) (τ : State)
    (ev : PyVal → Nat → State → Except Err (PyVal × State))
    (hev : EvOK n τ ev) : EvOK n τ (evaluateStep ev) := by
  intro t ht fid σ hσ hfid hn
  cases t with
  | int m => exact simplifyNonList_sim n τ (PyVal.int m) fid σ hσ hfid hn
  | float q => exact simplifyNonList_sim n τ (PyVal.float q) fid σ hσ hfid hn
  | bool b => exact simplifyNonList_sim n τ (PyVal.bool b) fid σ hσ hfid hn
  | str s => exact simplifyNonList_sim n τ (PyVal.str s) fid σ hσ hfid hn
  | pair a d =>
    exact simplifyNonList_sim n τ (PyVal.pair a d) fid σ hσ hfid hn
  | closure pp bb ff =>
    exact simplifyNonList_sim n τ (PyVal.closure pp bb ff) fid σ hσ hfid hn
  | builtin o =>
    exact simplifyNonList_sim n τ (PyVal.builtin o) fid σ hσ hfid hn
  | list l =>
    cases l with
    | nil =>
      refine ⟨rfl, ?_⟩
      intro v σ' h
      have h2 : (Except.ok (PyVal.list [], σ) :
          Except Err (PyVal × State)) = Except.ok (v, σ') := h
      injection h2 with h3
      injection h3 with h4 h5
      subst h4
      subst h5
      exact ⟨hσ, rfl, Nat.le_refl _⟩
    | cons hd rest =>
      obtain ⟨hhd, hrest⟩ := closureFree_cons ht
      by_cases h1 : pyEqStr hd "define" = true
      · have hstep : ∀ (f : Nat) (s : State),
            evaluateStep ev (PyVal.list (hd :: rest)) f s =
              defineBranchF ev rest f s := by
          intro f s
          simp only [evaluateStep]
          rw [if_pos h1]
        simp only [hstep]
        exact defineBranchF_sim n τ ev hev rest hrest fid σ hσ hfid hn
      by_cases h2 : pyEqStr hd "cons" = true
      · have hstep : ∀ (f : Nat) (s : State),
            evaluateStep ev (PyVal.list (hd :: rest)) f s =
              consBranchF ev rest f s := by
          intro f s
          simp only [evaluateStep]
          rw [if_neg h1, if_pos h2]
        simp only [hstep]
        exact consBranchF_sim n τ ev hev rest hrest fid σ hσ hfid hn
      by_cases h3 : pyEqStr hd "begin" = true
      · have hstep : ∀ (f : Nat) (s : State),
            evaluateStep ev (PyVal.list (hd :: rest)) f s =
              beginBranchF ev rest f s := by
          intro f s
          simp only [evaluateStep]
          rw [if_neg h1, if_neg h2, if_pos h3]
        simp only [hstep]
        exact beginBranchF_sim n τ ev hev rest hrest fid σ hσ hfid hn
      by_cases h4 : pyEqStr hd "del" = true
      · have hstep : ∀ (f : Nat) (s : State),
            evaluateStep ev (PyVal.list (hd :: rest)) f s =
              deleteVariables rest f s := by
          intro f s
          simp only [evaluateStep]
          rw [if_neg h1, if_neg h2, if_neg h3, if_pos h4]
        simp only [hstep]
        refine ⟨deleteVariables_shift n τ σ hn rest fid, ?_⟩
        intro v σ' h
        exact deleteVariables_good hσ rest fid h
      by_cases h5 : pyEqStr hd "let" = true
      · have hstep : ∀ (f : Nat) (s : State),
            evaluateStep ev (PyVal.list (hd :: rest)) f s =
              letBranchF ev rest f s := by
          intro f s
          simp only [evaluateStep]
          rw [if_neg h1, if_neg h2, if_neg h3, if_neg h4, if_pos h5]
        simp only [hstep]
        exact letBranchF_sim n τ ev hev rest hrest fid σ hσ hfid hn
      by_cases h6 : pyEqStr hd "set!" = true
      · have hstep : ∀ (f : Nat) (s : State),
            evaluateStep ev (PyVal.list (hd :: rest)) f s =
              setBranchF ev rest f s := by
          intro f s
          simp only [evaluateStep]
          rw [if_neg h1, if_neg h2, if_neg h3, if_neg h4, if_neg h5,
            if_pos h6]
        simp only [hstep]
        exact setBranchF_sim n τ ev hev rest hrest fid σ hσ hfid hn
      by_cases h7 : pyEqStr hd "list" = true
      · have hstep : ∀ (f : Nat) (s : State),
            evaluateStep ev (PyVal.list (hd :: rest)) f s =
              createLinkedListF ev rest f s := by
          intro f s
          simp only [evaluateStep]
          rw [if_neg h1, if_neg h2, if_neg h3, if_neg h4, if_neg h5,
            if_neg h6, if_pos h7]
        simp only [hstep]
        exact createLinkedListF_sim n τ ev hev rest hrest fid σ hσ hfid hn
      by_cases h8 : pyEqStr hd "lambda" = true
      · have hstep : ∀ (f : Nat) (s : State),
            evaluateStep ev (PyVal.list (hd :: rest)) f s =
              lambdaBranch rest f s := by
          intro f s
          simp only [evaluateStep]
          rw [if_neg h1, if_neg h2, if_neg h3, if_neg h4, if_neg h5,
            if_neg h6, if_neg h7, if_pos h8]
        simp only [hstep]
        exact lambdaBranch_sim n τ rest hrest fid σ hσ hfid hn
      by_cases h9 : pyEqStr hd "and" = true
      · have hstep : ∀ (f : Nat) (s : State),
            evaluateStep ev (PyVal.list (hd :: rest)) f s =
              evaluateAndF ev rest f s := by
          intro f s
          simp only [evaluateStep]
          rw [if_neg h1, if_neg h2, if_neg h3, if_neg h4, if_neg h5,
            if_neg h6, if_neg h7, if_neg h8, if_pos h9]
        simp only [hstep]
        exact evaluateAndF_sim n τ ev hev rest hrest fid σ hσ hfid hn
      by_cases h10 : pyEqStr hd "or" = true
      · have hstep : ∀ (f : Nat) (s : State),
            evaluateStep ev (PyVal.list (hd :: rest)) f s =
              evaluateOrF ev rest f s := by
          intro f s
          simp only [evaluateStep]
          rw [if_neg h1, if_neg h2, if_neg h3, if_neg h4, if_neg h5,
            if_neg h6, if_neg h7, if_neg h8, if_neg h9, if_pos h10]
        simp only [hstep]
        exact evaluateOrF_sim n τ ev hev rest hrest fid σ hσ hfid hn
      by_cases h11 : pyEqStr hd "if" = true
      · have hstep : ∀ (f : Nat) (s : State),
            evaluateStep ev (PyVal.list (hd :: rest)) f s =
              ifBranchF ev rest f s := by
          intro f s
          simp only [evaluateStep]
          rw [if_neg h1, if_neg h2, if_neg h3, if_neg h4, if_neg h5,
            if_neg h6, if_neg h7, if_neg h8, if_neg h9, if_neg h10,
            if_pos h11]
        simp only [hstep]
        exact ifBranchF_sim n τ ev hev rest hrest fid σ hσ hfid hn
      -- procedure application
      have hh := hev hd hhd fid σ hσ hfid hn
      constructor
      · simp only [evaluateStep]
        rw [if_neg h1, if_neg h1, if_neg h2, if_neg h2, if_neg h3,
          if_neg h3, if_neg h4, if_neg h4, if_neg h5, if_neg h5,
          if_neg h6, if_neg h6, if_neg h7, if_neg h7, if_neg h8,
          if_neg h8, if_neg h9, if_neg h9, if_neg h10, if_neg h10,
          if_neg h11, if_neg h11]
        rw [hh.1]
        cases hhd2 : ev hd fid σ with
        | error er => rfl
        | ok q =>
          obtain ⟨fv, σ1⟩ := q
          obtain ⟨hg1, hgf, hg3⟩ := hh.2 fv σ1 hhd2
          simp only [shiftRes, exceptBindOk]
          cases fv with
          | closure p b encF =>
            rw [show goodVal σ1.length (PyVal.closure p b encF) =
              (decide (encF < σ1.length) && closureFree p && closureFree b)
              from rfl] at hgf
            simp only [Bool.and_eq_true, decide_eq_true_eq] at hgf
            obtain ⟨⟨hencF, hpcf⟩, hbcf⟩ := hgf
            rw [show shiftV n τ.length (PyVal.closure p b encF) =
              PyVal.closure p b (shiftId n τ.length encF) from by
                rw [show shiftV n τ.length (PyVal.closure p b encF) =
                  PyVal.closure (shiftV n τ.length p) (shiftV n τ.length b)
                    (shiftId n τ.length encF) from rfl]
                rw [shiftV_closureFree n τ.length p hpcf,
                  shiftV_closureFree n τ.length b hbcf]]
            have hargsim := evalArgsF_sim n τ ev hev rest hrest fid σ1 hg1
              (by omega) (by omega)
            show (evalArgsF ev rest (shiftId n τ.length fid)
                (extendState n τ σ1) >>= fun y =>
              applyClosureF ev p b (shiftId n τ.length encF) y.1 y.2) = _
            rw [hargsim.1]
            cases ha : evalArgsF ev rest fid σ1 with
            | error er => rfl
            | ok y =>
              obtain ⟨args, σ2⟩ := y
              obtain ⟨hga1, hga2, hga3⟩ := hargsim.2 args σ2 ha
              simp only [exceptBindOk]
              exact (applyClosureF_sim n τ ev hev p b encF hpcf hbcf args σ2
                hga1 (by omega) (by omega) hga2).1
          | builtin op =>
            have hargsim := evalArgsF_sim n τ ev hev rest hrest fid σ1 hg1
              (by omega) (by omega)
            show (evalArgsF ev rest (shiftId n τ.length fid)
                (extendState n τ σ1) >>= fun y =>
              applyBuiltin op y.1 >>= fun v => Except.ok (v, y.2)) = _
            rw [hargsim.1]
            cases ha : evalArgsF ev rest fid σ1 with
            | error er => rfl
            | ok y =>
              obtain ⟨args, σ2⟩ := y
              simp only [exceptBindOk]
              rw [applyBuiltin_shiftV]
              cases hb2 : applyBuiltin op args with
              | error er => rfl
              | ok v => rfl
          | int m => rfl
          | float q2 => rfl
          | bool b2 => rfl
          | str s2 => rfl
          | list l2 => rfl
          | pair a2 d2 => rfl
      · intro v σ' h
        simp only [evaluateStep] at h
        rw [if_neg h1, if_neg h2, if_neg h3, if_neg h4, if_neg h5,
          if_neg h6, if_neg h7, if_neg h8, if_neg h9, if_neg h10,
          if_neg h11] at h
        cases hhd2 : ev hd fid σ with
        | error er => rw [hhd2] at h; exact Except.noConfusion h
        | ok q =>
          obtain ⟨fv, σ1⟩ := q
          rw [hhd2] at h
          simp only [exceptBindOk] at h
          obtain ⟨hg1, hgf, hg3⟩ := hh.2 fv σ1 hhd2
          cases fv with
          | closure p b encF =>
            rw [show goodVal σ1.length (PyVal.closure p b encF) =
              (decide (encF < σ1.length) && closureFree p && closureFree b)
              from rfl] at hgf
            simp only [Bool.and_eq_true, decide_eq_true_eq] at hgf
            obtain ⟨⟨hencF, hpcf⟩, hbcf⟩ := hgf
            have hargsim := evalArgsF_sim n τ ev hev rest hrest fid σ1 hg1
              (by omega) (by omega)
            cases ha : evalArgsF ev rest fid σ1 with
            | error er => rw [ha] at h; exact Except.noConfusion h
            | ok y =>
              obtain ⟨args, σ2⟩ := y
              rw [ha] at h
              simp only [exceptBindOk] at h
              obtain ⟨hga1, hga2, hga3⟩ := hargsim.2 args σ2 ha
              obtain ⟨hh1, hh2, hh3⟩ := (applyClosureF_sim n τ ev hev p b
                encF hpcf hbcf args σ2 hga1 (by omega) (by omega) hga2).2
                v σ' h
              exact ⟨hh1, hh2, by omega⟩
          | builtin op =>
            have hargsim := evalArgsF_sim n τ ev hev rest hrest fid σ1 hg1
              (by omega) (by omega)
            cases ha : evalArgsF ev rest fid σ1 with
            | error er => rw [ha] at h; exact Except.noConfusion h
            | ok y =>
              obtain ⟨args, σ2⟩ := y
              rw [ha] at h
              simp only [exceptBindOk] at h
              obtain ⟨hga1, hga2, hga3⟩ := hargsim.2 args σ2 ha
              cases hb2 : applyBuiltin op args with
              | error er => rw [hb2] at h; exact Except.noConfusion h
              | ok w =>
                rw [hb2] at h
                simp only [exceptBindOk] at h
                have h4 : (Except.ok (w, σ2) : Except Err (PyVal × State)) =
                    Except.ok (v, σ') := h
                injection h4 with h5
                injection h5 with h6 h7
                subst h6
                subst h7
                exact ⟨hga1, applyBuiltin_good op args w hga2 hb2, by omega⟩
          | int m => exact Except.noConfusion h
          | float q2 => exact Except.noConfusion h
          | bool b2 => exact Except.noConfusion h
          | str s2 => exact Except.noConfusion h
          | list l2 => exact Except.noConfusion h
          | pair a2 d2 => exact Except.noConfusion h

/-- The full evaluator preserves the simulation at every fuel: running a
closure-free tree on a renamed good store gives the renamed outcome, and
every successful run keeps the store good and never shrinks it. -/
theorem evaluate_sim (n : Nat) (τ : State) :
    ∀ g : Nat, EvOK n τ (evaluate g)
  | 0 => fun t ht fid σ hσ hfid hn =>
      ⟨rfl, fun v σ' h => Except.noConfusion h⟩
  | g + 1 =>
    evaluateStep_sim n τ (fun t f s => evaluate g t f s)
      (evaluate_sim n τ g)

/-- On a good store the fresh-frame renaming is the identity on every
frame: all parents and captured ids already lie below the boundary. -/
theorem map_shiftFrame_of_goodState {σ : State} (k : Nat)
    (hσ : goodState σ = true) :
    σ.map (shiftFrame σ.length k) = σ := by
  apply List.ext_get?
  intro j
  rw [List.get?_map]
  cases hj : σ.get? j with
  | none => rfl
  | some fr =>
    have h2 := goodState_get? hσ hj
    have hjlen : j < σ.length := by
      by_contra hc
      rw [List.get?_eq_none.2 (by omega)] at hj
      exact Option.noConfusion hj
    show some (shiftFrame σ.length k fr) = some fr
    obtain ⟨pr, vars⟩ := fr
    unfold shiftFrame
    rw [shiftVars_goodVars_id _ _ _ h2.2]
    cases pr with
    | none => rfl
    | some p =>
      have hplt : p < σ.length := by
        have := h2.1 p rfl
        omega
      rw [show Option.map (shiftId σ.length k) (some p) =
        some (shiftId σ.length k p) from rfl]
      rw [show shiftId σ.length k p = p from by
        unfold shiftId; rw [if_pos hplt]]

/-- Extending a store that is a good prefix `σ` followed by extra frames
`τ'` inserts `τ` right after the prefix and renames only the extra
frames. -/
theorem extendState_append_eq {σ : State} (τ τ' : State)
    (hσ : goodState σ = true) :
    extendState σ.length τ (σ ++ τ') =
      σ ++ τ ++ τ'.map (shiftFrame σ.length τ.length) := by
  unfold extendState
  rw [List.map_append, map_shiftFrame_of_goodState τ.length hσ,
    List.take_left' rfl, List.drop_left' rfl]

/-- C9: `evaluate` is a deterministic function of the expression and the
frame chain, with no hidden evaluator state.  If evaluating a parsed
expression `e` against frame `fid` of a well-formed store `σ` succeeds
and leaves `fid` — and every frame reachable from it, indeed every frame
of `σ` — unmodified, merely appending fresh frames `τ`, then evaluating
`e` against `fid` a second time, from the store the first run left
behind, succeeds again and returns the same value up to the renaming
`shiftV σ.length τ.length` of the fresh frames allocated by the first
run (again appending fresh frames only); and whenever the value does not
capture any of the fresh frames — in particular for every number, bool,
string, symbol or list — that renaming is the identity, so the two runs
yield the same value both times. -/
theorem claimC9_deterministicReEvaluation (g fid : Nat) (e : PyVal)
    (σ τ : State) (v : PyVal)
    (hσ : goodState σ = true) (he : closureFree e = true)
    (hfid : fid < σ.length)
    (h : evaluate g e fid σ = .ok (v, σ ++ τ)) :
    evaluate g e fid (σ ++ τ) =
      .ok (shiftV σ.length τ.length v,
        σ ++ τ ++ τ.map (shiftFrame σ.length τ.length))
    ∧ (goodVal σ.length v = true → shiftV σ.length τ.length v = v) := by
  have hsim := (evaluate_sim σ.length τ g) e he fid σ hσ hfid (Nat.le_refl _)
  obtain ⟨hcomm, hgood⟩ := hsim
  rw [h] at hcomm
  rw [show shiftId σ.length τ.length fid = fid from by
    unfold shiftId; rw [if_pos hfid]] at hcomm
  rw [extendState_eq_append τ hσ] at hcomm
  rw [show shiftRes σ.length τ
      (Except.ok (v, σ ++ τ) : Except Err (PyVal × State)) =
    Except.ok (shiftV σ.length τ.length v,
      extendState σ.length τ (σ ++ τ)) from rfl] at hcomm
  rw [extendState_append_eq τ τ hσ] at hcomm
  refine ⟨hcomm, ?_⟩
  intro hv
  exact shiftV_goodVal_id σ.length τ.length v hv

/-- Witness for C9 at the frame-allocating `(let ((x 2)) x)` against the
initial environment: the first run appends one fresh frame, and the
second run — from the extended store — returns the same value `2`,
appending one fresh frame of its own. -/
theorem claimC9_witness :
    evaluate 10 (PyVal.list [PyVal.str "let",
        PyVal.list [PyVal.list [PyVal.str "x", PyVal.int 2]], PyVal.str "x"])
      1 (initialState ++ [⟨some 1, [("x", PyVal.int 2)]⟩]) =
      Except.ok (PyVal.int 2,
        initialState ++ [⟨some 1, [("x", PyVal.int 2)]⟩]
          ++ [⟨some 1, [("x", PyVal.int 2)]⟩])
    ∧ shiftV (List.length initialState) 1 (PyVal.int 2) = PyVal.int 2 := by
  have h := claimC9_deterministicReEvaluation 10 1
    (PyVal.list [PyVal.str "let",
      PyVal.list [PyVal.list [PyVal.str "x", PyVal.int 2]], PyVal.str "x"])
    initialState [⟨some 1, [("x", PyVal.int 2)]⟩] (PyVal.int 2)
    rfl rfl (by decide) rfl
  exact ⟨h.1, h.2 rfl⟩
